import Mathlib

/-!
# Moebius text-mode documents: compression codec, geometry transforms, character
set tables, the SAUCE record, and creating and loading a document

A shallow embedding of `app/js/libtextmode/libtextmode.js` and of
`app/js/libtextmode/textmode.js`.

JavaScript values are modelled as follows.

* `undefined` is `Option.none`: a cell field that may be `undefined`
  (`code`, `fg`, `bg`) is an `Option Nat`, an absent optional key (`fg_rgb`,
  `bg_rgb`, `data`, `compressed_data`) is `none`.
* A JavaScript array of cells is a `List (Option Block)`: a slot that was never
  written (a hole) reads as `undefined`, so it is `none`.  Reading past the end
  is `undefined` too.
* A `TypeError` (reading a property of `undefined`) is the result `none` of a
  function into `Option`.
* A `for (let k = 0; k < n; k++)` loop is `forLoop n body`, which threads the
  mutable loop variables through the iterations `k = 0, .., n - 1`.  In the
  transforms the loop state is the pair `(new_data, i)`.
* Codes, colours, sizes and run counters are natural numbers; `a - b` occurs only
  under a loop guard that makes it non-negative.
* A typed array is the list of its elements, which are integers: 0..255 in a
  `Uint8Array` or `Buffer`, -128..127 in an `Int8Array`.  The bitwise operators
  work on the 32-bit two's complement value of their operands.
-/

namespace Moebius

/-! ## Data model -/

/-- An explicit colour override of a cell. -/
structure RGB where
  r : Nat
  g : Nat
  b : Nat
deriving DecidableEq, Repr

/-- One cell of the grid: `{code, fg, bg}` plus the optional keys `fg_rgb` and `bg_rgb`. -/
structure Block where
  code : Option Nat
  fg : Option Nat
  bg : Option Nat
  fg_rgb : Option RGB
  bg_rgb : Option RGB
deriving DecidableEq, Repr

/-- The three run-length channels; a pair `[value, repeat]` is `(value, repeat)`. -/
structure CompressedData where
  code : List (Option Nat × Nat)
  fg : List (Option Nat × Nat)
  bg : List (Option Nat × Nat)
deriving DecidableEq, Repr

/-- A document object.  A Document carries `data`, a CompressedDocument carries
`compressed_data`; text is a list of UTF-16 code units. -/
structure Doc where
  columns : Nat
  rows : Nat
  title : List Nat
  author : List Nat
  group : List Nat
  date : List Nat
  palette : List RGB
  font_name : List Nat
  ice_colors : Bool
  use_9px_font : Bool
  comments : List (List Nat)
  data : Option (List (Option Block))
  compressed_data : Option CompressedData
deriving DecidableEq, Repr

/-! ## JavaScript arrays and loops -/

/-- The read `a[i]`: `undefined` for a hole and past the end. -/
def arrayGet {α : Type} (a : List (Option α)) (i : Nat) : Option α :=
  (a[i]?).join

/-- The write `a[k] = v`: a write past the end grows the array, leaving holes. -/
def arraySet {α : Type} (a : List (Option α)) (k : Nat) (v : α) : List (Option α) :=
  if k < a.length then a.set k (some v)
  else a ++ List.replicate (k - a.length) none ++ [some v]

/-- The array `Array(n)`: `n` holes. -/
def newArray {α : Type} (n : Nat) : List (Option α) :=
  List.replicate n none

/-- The loop `for (let k = 0; k < n; k++) body`, on the loop state `s`; an
exception in the body ends the loop with `none`. -/
def forLoop {σ : Type} (n : Nat) (body : Nat → σ → Option σ) (s : σ) : Option σ :=
  (List.range n).foldlM (fun st k => body k st) s

/-! ## Glyph substitution tables -/

/-- The function `flip_code_x` of libtextmode.js. -/
def flip_code_x (code : Nat) : Nat :=
  match code with
  | 40 => 41
  | 41 => 40
  | 47 => 92
  | 60 => 62
  | 62 => 60
  | 91 => 93
  | 92 => 47
  | 93 => 91
  | 123 => 125
  | 125 => 123
  | 169 => 170
  | 170 => 169
  | 174 => 175
  | 175 => 174
  | 180 => 195
  | 181 => 198
  | 182 => 199
  | 183 => 214
  | 185 => 204
  | 187 => 201
  | 188 => 200
  | 189 => 211
  | 195 => 180
  | 198 => 181
  | 190 => 212
  | 191 => 218
  | 192 => 217
  | 199 => 182
  | 200 => 188
  | 201 => 187
  | 204 => 185
  | 211 => 189
  | 214 => 183
  | 212 => 190
  | 217 => 192
  | 218 => 191
  | 221 => 222
  | 222 => 221
  | 242 => 243
  | 243 => 242
  | _ => code

/-- The function `flip_code_y` of libtextmode.js. -/
def flip_code_y (code : Nat) : Nat :=
  match code with
  | 183 => 189
  | 184 => 190
  | 187 => 188
  | 188 => 187
  | 189 => 183
  | 190 => 184
  | 191 => 217
  | 192 => 218
  | 193 => 194
  | 194 => 193
  | 200 => 201
  | 201 => 200
  | 202 => 203
  | 203 => 202
  | 207 => 209
  | 208 => 210
  | 209 => 207
  | 210 => 208
  | 211 => 214
  | 212 => 213
  | 213 => 212
  | 214 => 211
  | 217 => 191
  | 218 => 192
  | 220 => 223
  | 223 => 220
  | _ => code

/-- The function `rotate_code` of libtextmode.js.  The source lists `case 221`
twice with the same result; a `switch` takes the first, so the second is dead. -/
def rotate_code (code : Nat) : Nat :=
  match code with
  | 220 => 221
  | 221 => 223
  | 222 => 220
  | 187 => 188
  | 223 => 222
  | _ => code

/-! ## Geometry transforms -/

/-- The function `flip_x`: `new_data[columns * y + columns - 1 - x]` receives the
cell `data[i]` with its code mapped by `flip_code_x`; `i` counts the iterations. -/
def flip_x (blocks : Doc) : Option Doc :=
  match blocks.data with
  | none => none
  | some data =>
    (forLoop blocks.rows (fun y st =>
      forLoop blocks.columns (fun x st =>
        match arrayGet data st.2 with
        | none => none
        | some b =>
          some (arraySet st.1 (blocks.columns * y + blocks.columns - 1 - x)
            { b with code := b.code.map flip_code_x }, st.2 + 1)) st)
      (newArray data.length, 0)).map
      (fun st => { blocks with data := some st.1 })

/-- The function `flip_y`: `new_data[columns * (rows - 1 - y) + x]` receives the
cell `data[i]` with its code mapped by `flip_code_y`. -/
def flip_y (blocks : Doc) : Option Doc :=
  match blocks.data with
  | none => none
  | some data =>
    (forLoop blocks.rows (fun y st =>
      forLoop blocks.columns (fun x st =>
        match arrayGet data st.2 with
        | none => none
        | some b =>
          some (arraySet st.1 (blocks.columns * (blocks.rows - 1 - y) + x)
            { b with code := b.code.map flip_code_y }, st.2 + 1)) st)
      (newArray data.length, 0)).map
      (fun st => { blocks with data := some st.1 })

/-- The function `rotate`: `new_data[i]` receives the cell
`data[(new_columns - 1 - x) * columns + y]` with its code mapped by `rotate_code`,
and the dimensions are exchanged. -/
def rotate (blocks : Doc) : Option Doc :=
  match blocks.data with
  | none => none
  | some data =>
    let new_columns := blocks.rows
    let new_rows := blocks.columns
    (forLoop new_rows (fun y st =>
      forLoop new_columns (fun x st =>
        match arrayGet data ((new_columns - 1 - x) * blocks.columns + y) with
        | none => none
        | some b =>
          some (arraySet st.1 st.2 { b with code := b.code.map rotate_code }, st.2 + 1)) st)
      (newArray data.length, 0)).map
      (fun st => { blocks with data := some st.1, columns := new_columns, rows := new_rows })

/-! ## Transfer compression -/

/-- The loop of `compress` on the cells from index `i` on: the head of the list is
`doc.data[i]`, the next element `doc.data[i + 1]`, and the last iteration is the
one whose list has a single element (`i + 1 == doc.data.length`).  Reading a field
of an `undefined` cell throws. -/
def compressLoop : List (Option Block) → Nat → Nat → Nat → CompressedData → Option CompressedData
  | [], _, _, _, compressed_data => some compressed_data
  | [some block], code_repeat, fg_repeat, bg_repeat, compressed_data =>
    some { code := compressed_data.code ++ [(block.code, code_repeat)],
           fg := compressed_data.fg ++ [(block.fg, fg_repeat)],
           bg := compressed_data.bg ++ [(block.bg, bg_repeat)] }
  | some block :: some next_block :: rest, code_repeat, fg_repeat, bg_repeat, compressed_data =>
    let c := if block.code != next_block.code
      then (compressed_data.code ++ [(block.code, code_repeat)], 0)
      else (compressed_data.code, code_repeat + 1)
    let f := if block.fg != next_block.fg
      then (compressed_data.fg ++ [(block.fg, fg_repeat)], 0)
      else (compressed_data.fg, fg_repeat + 1)
    let g := if block.bg != next_block.bg
      then (compressed_data.bg ++ [(block.bg, bg_repeat)], 0)
      else (compressed_data.bg, bg_repeat + 1)
    compressLoop (some next_block :: rest) c.2 f.2 g.2 { code := c.1, fg := f.1, bg := g.1 }
  | _, _, _, _, _ => none

/-- The function `compress`: the result copies the descriptive fields and carries
`compressed_data` and no `data`. -/
def compress (doc : Doc) : Option Doc :=
  match doc.data with
  | none => none
  | some data =>
    (compressLoop data 0 0 0 { code := [], fg := [], bg := [] }).map
      (fun compressed_data => { doc with data := none, compressed_data := some compressed_data })

/-- The expansion loops of `uncompress` for one channel: each pair pushes its value
`repeat + 1` times (`for (let i = 0; i <= pair[1]; i++)`). -/
def expandChannel (channel : List (Option Nat × Nat)) : List (Option Nat) :=
  channel.foldl (fun out pair => out ++ List.replicate (pair.2 + 1) pair.1) []

/-- The function `uncompress`: with a `compressed_data` field the three channels
are expanded and zipped into `codes.length` cells, and the field is deleted;
without it the argument is returned as it is. -/
def uncompress (doc : Doc) : Doc :=
  match doc.compressed_data with
  | some compressed_data =>
    let codes := expandChannel compressed_data.code
    let fgs := expandChannel compressed_data.fg
    let bgs := expandChannel compressed_data.bg
    { doc with
      data := some ((List.range codes.length).map (fun i =>
        some { code := arrayGet codes i, fg := arrayGet fgs i, bg := arrayGet bgs i,
               fg_rgb := none, bg_rgb := none }))
      compressed_data := none }
  | none => doc

/-! ## Run-length encoding as the specification words it -/

/-- A run of `value` seen `run` additional times so far, continued over the
remaining values: the run continues while the next value is equal; on an
inequality, or at the end, the pair `(value, run)` is emitted and the counter
starts again at zero. -/
def runFrom {α : Type} [DecidableEq α] (value : α) (run : Nat) : List α → List (α × Nat)
  | [] => [(value, run)]
  | next :: rest =>
    if value = next then runFrom next (run + 1) rest
    else (value, run) :: runFrom next 0 rest

/-- Run-length encoding of one sequence of values taken alone. -/
def runLengthEncode {α : Type} [DecidableEq α] : List α → List (α × Nat)
  | [] => []
  | value :: rest => runFrom value 0 rest

/-- Expanding every pair `(value, n)` into `n + 1` copies of `value`. -/
def runLengthDecode {α : Type} (pairs : List (α × Nat)) : List α :=
  pairs.flatMap (fun pair => List.replicate (pair.2 + 1) pair.1)

/-! ## Grid coordinates -/

/-- The index of column `x`, row `y` in the row-major `data` of a grid of `columns`
columns: `y * columns + x`. -/
def cellIndex (columns x y : Nat) : Nat :=
  y * columns + x


/-! ## Example documents -/

/-- The blank cell `{code: 32, fg: 7, bg: 0}`. -/
def blankCell : Block :=
  { code := some 32, fg := some 7, bg := some 0, fg_rgb := none, bg_rgb := none }

/-- A cell `{code, fg, bg}` without colour overrides. -/
def plainCell (code fg bg : Nat) : Block :=
  { code := some code, fg := some fg, bg := some bg, fg_rgb := none, bg_rgb := none }

/-- A Document of the given size and cells, with empty descriptive fields. -/
def documentOf (columns rows : Nat) (cells : List Block) : Doc :=
  { columns := columns, rows := rows, title := [], author := [], group := [], date := [],
    palette := [], font_name := [], ice_colors := false, use_9px_font := false,
    comments := [], data := some (cells.map some), compressed_data := none }

/-- A CompressedDocument of the given size and channels, with empty descriptive fields. -/
def compressedOf (columns rows : Nat) (channels : CompressedData) : Doc :=
  { columns := columns, rows := rows, title := [], author := [], group := [], date := [],
    palette := [], font_name := [], ice_colors := false, use_9px_font := false,
    comments := [], data := none, compressed_data := some channels }

/-- Six cells of a 3 x 2 grid, with runs of different sizes in the three channels. -/
def sampleCells : List Block :=
  [plainCell 40 7 0, plainCell 40 7 1, plainCell 187 7 1,
   plainCell 220 3 1, plainCell 65 3 1, plainCell 65 3 0]

/-- A 2 x 2 CompressedDocument whose channels expand to 3, 1 and 2 values. -/
def mismatchedDoc : Doc :=
  compressedOf 2 2 { code := [(some 65, 2)], fg := [(some 7, 0)], bg := [(some 0, 1)] }

/-- A cell with both colour overrides. -/
def overrideCell : Block :=
  { code := some 65, fg := some 7, bg := some 0,
    fg_rgb := some { r := 255, g := 128, b := 0 }, bg_rgb := some { r := 0, g := 0, b := 64 } }

/-! ## Canvas resizing (textmode.js) -/

/-- The write `a[k] = v` of a value that may be `undefined`. -/
def arrayPut {α : Type} (a : List (Option α)) (k : Nat) (v : Option α) : List (Option α) :=
  if k < a.length then a.set k v
  else a ++ List.replicate (k - a.length) none ++ [v]

/-- The function `resize_canvas` of textmode.js; the result is the document it
mutates.  The first loop fills the `columns * rows` slots of `new_data` with
`{code: 32, fg: 7, bg: 0}`, the nested loop copies `doc.data[y * doc.columns + x]`
to `new_data[y * columns + x]` for `y < min_rows`, `x < min_columns`. -/
def resize_canvas (doc : Doc) (columns rows : Nat) : Option Doc :=
  let min_rows := min doc.rows rows
  let min_columns := min doc.columns columns
  ((forLoop (columns * rows) (fun i new_data =>
      some (arraySet new_data i
        { code := some 32, fg := some 7, bg := some 0, fg_rgb := none, bg_rgb := none }))
      (newArray (columns * rows))).bind
    (fun new_data =>
      forLoop min_rows (fun y new_data =>
        forLoop min_columns (fun x new_data =>
          match doc.data with
          | none => none
          | some data =>
            some (arrayPut new_data (y * columns + x) (arrayGet data (y * doc.columns + x))))
          new_data)
        new_data)).map
    (fun new_data => { doc with data := some new_data, columns := columns, rows := rows })

/-! ## Character-set tables -/

/-- The cases of the `switch` in `cp437_to_unicode`, in source order, as pairs
(case label, code unit of the returned one-character string); `case 0:` falls
through to `case 255:`. -/
def cp437_cases : List (Nat × Nat) := [
   (1, 0x263A), (2, 0x263B), (3, 0x2665), (4, 0x2666), (5, 0x2663), (6, 0x2660),
   (7, 0x2022), (8, 0x25D8), (9, 0x25CB), (10, 0x25D9), (11, 0x2642), (12, 0x2640),
   (13, 0x266A), (14, 0x266B), (15, 0x263C), (16, 0x25BA), (17, 0x25C4), (18, 0x2195),
   (19, 0x203C), (20, 0x00B6), (21, 0x00A7), (22, 0x25AC), (23, 0x21A8), (24, 0x2191),
   (25, 0x2193), (26, 0x2192), (27, 0x2190), (28, 0x221F), (29, 0x2194), (30, 0x25B2),
   (31, 0x25BC), (127, 0x2302), (128, 0x00C7), (129, 0x00FC), (130, 0x00E9), (131, 0x00E2),
   (132, 0x00E4), (133, 0x00E0), (134, 0x00E5), (135, 0x00E7), (136, 0x00EA), (137, 0x00EB),
   (138, 0x00E8), (139, 0x00EF), (140, 0x00EE), (141, 0x00EC), (142, 0x00C4), (143, 0x00C5),
   (144, 0x00C9), (145, 0x00E6), (146, 0x00C6), (147, 0x00F4), (148, 0x00F6), (149, 0x00F2),
   (150, 0x00FB), (151, 0x00F9), (152, 0x00FF), (153, 0x00D6), (154, 0x00DC), (155, 0x00A2),
   (156, 0x00A3), (157, 0x00A5), (158, 0x20A7), (159, 0x0192), (160, 0x00E1), (161, 0x00ED),
   (162, 0x00F3), (163, 0x00FA), (164, 0x00F1), (165, 0x00D1), (166, 0x00AA), (167, 0x00BA),
   (168, 0x00BF), (169, 0x2310), (170, 0x00AC), (171, 0x00BD), (172, 0x00BC), (173, 0x00A1),
   (174, 0x00AB), (175, 0x00BB), (176, 0x2591), (177, 0x2592), (178, 0x2593), (179, 0x2502),
   (180, 0x2524), (181, 0x2561), (182, 0x2562), (183, 0x2556), (184, 0x2555), (185, 0x2563),
   (186, 0x2551), (187, 0x2557), (188, 0x255D), (189, 0x255C), (190, 0x255B), (191, 0x2510),
   (192, 0x2514), (193, 0x2534), (194, 0x252C), (195, 0x251C), (196, 0x2500), (197, 0x253C),
   (198, 0x255E), (199, 0x255F), (200, 0x255A), (201, 0x2554), (202, 0x2569), (203, 0x2566),
   (204, 0x2560), (205, 0x2550), (206, 0x256C), (207, 0x2567), (208, 0x2568), (209, 0x2564),
   (210, 0x2565), (211, 0x2559), (212, 0x2558), (213, 0x2552), (214, 0x2553), (215, 0x256B),
   (216, 0x256A), (217, 0x2518), (218, 0x250C), (219, 0x2588), (220, 0x2584), (221, 0x258C),
   (222, 0x2590), (223, 0x2580), (224, 0x03B1), (225, 0x00DF), (226, 0x0393), (227, 0x03C0),
   (228, 0x03A3), (229, 0x03C3), (230, 0x00B5), (231, 0x03C4), (232, 0x03A6), (233, 0x0398),
   (234, 0x03A9), (235, 0x03B4), (236, 0x221E), (237, 0x03C6), (238, 0x03B5), (239, 0x2229),
   (240, 0x2261), (241, 0x00B1), (242, 0x2265), (243, 0x2264), (244, 0x2320), (245, 0x2321),
   (246, 0x00F7), (247, 0x2248), (248, 0x00B0), (249, 0x2219), (250, 0x00B7), (251, 0x221A),
   (252, 0x207F), (253, 0x00B2), (254, 0x25A0), (0, 0x00A0), (255, 0x00A0)]

/-- The function `cp437_to_unicode` of libtextmode.js.  The result, a string of one
UTF-16 code unit, is modelled by that code unit; the `switch` takes the first case
equal to its argument, and `String.fromCharCode` takes its argument modulo 65536. -/
def cp437_to_unicode (cp437 : Nat) : Nat :=
  match cp437_cases.lookup cp437 with
  | some unicode => unicode
  | none => cp437 % 65536

/-- The cases of the `switch` in `unicode_to_cp437`, in source order, as pairs
(case label, returned code). -/
def unicode_cases : List (Int × Int) := [
   (0x263A, 1), (0x263B, 2), (0x2665, 3), (0x2666, 4), (0x2663, 5), (0x2660, 6),
   (0x2022, 7), (0x25D8, 8), (0x25CB, 9), (0x25D9, 10), (0x2642, 11), (0x2640, 12),
   (0x266A, 13), (0x266B, 14), (0x263C, 15), (0x25BA, 16), (0x25C4, 17), (0x2195, 18),
   (0x203C, 19), (0x00B6, 20), (0x00A7, 21), (0x25AC, 22), (0x21A8, 23), (0x2191, 24),
   (0x2193, 25), (0x2192, 26), (0x2190, 27), (0x221F, 28), (0x2194, 29), (0x25B2, 30),
   (0x25BC, 31), (0x2302, 127), (0x00C7, 128), (0x00FC, 129), (0x00E9, 130), (0x00E2, 131),
   (0x00E4, 132), (0x00E0, 133), (0x00E5, 134), (0x00E7, 135), (0x00EA, 136), (0x00EB, 137),
   (0x00E8, 138), (0x00EF, 139), (0x00EE, 140), (0x00EC, 141), (0x00C4, 142), (0x00C5, 143),
   (0x00C9, 144), (0x00E6, 145), (0x00C6, 146), (0x00F4, 147), (0x00F6, 148), (0x00F2, 149),
   (0x00FB, 150), (0x00F9, 151), (0x00FF, 152), (0x00D6, 153), (0x00DC, 154), (0x00A2, 155),
   (0x00A3, 156), (0x00A5, 157), (0x20A7, 158), (0x0192, 159), (0x00E1, 160), (0x00ED, 161),
   (0x00F3, 162), (0x00FA, 163), (0x00F1, 164), (0x00D1, 165), (0x00AA, 166), (0x00BA, 167),
   (0x00BF, 168), (0x2310, 169), (0x00AC, 170), (0x00BD, 171), (0x00BC, 172), (0x00A1, 173),
   (0x00AB, 174), (0x00BB, 175), (0x2591, 176), (0x2592, 177), (0x2593, 178), (0x2502, 179),
   (0x2524, 180), (0x2561, 181), (0x2562, 182), (0x2556, 183), (0x2555, 184), (0x2563, 185),
   (0x2551, 186), (0x2557, 187), (0x255D, 188), (0x255C, 189), (0x255B, 190), (0x2510, 191),
   (0x2514, 192), (0x2534, 193), (0x252C, 194), (0x251C, 195), (0x2500, 196), (0x253C, 197),
   (0x255E, 198), (0x255F, 199), (0x255A, 200), (0x2554, 201), (0x2569, 202), (0x2566, 203),
   (0x2560, 204), (0x2550, 205), (0x256C, 206), (0x2567, 207), (0x2568, 208), (0x2564, 209),
   (0x2565, 210), (0x2559, 211), (0x2558, 212), (0x2552, 213), (0x2553, 214), (0x256B, 215),
   (0x256A, 216), (0x2518, 217), (0x250C, 218), (0x2588, 219), (0x2584, 220), (0x258C, 221),
   (0x2590, 222), (0x2580, 223), (0x03B1, 224), (0x00DF, 225), (0x0393, 226), (0x03C0, 227),
   (0x03A3, 228), (0x03C3, 229), (0x00B5, 230), (0x03C4, 231), (0x03A6, 232), (0x0398, 233),
   (0x03A9, 234), (0x03B4, 235), (0x221E, 236), (0x03C6, 237), (0x03B5, 238), (0x2229, 239),
   (0x2261, 240), (0x00B1, 241), (0x2265, 242), (0x2264, 243), (0x2320, 244), (0x2321, 245),
   (0x00F7, 246), (0x2248, 247), (0x00B0, 248), (0x2219, 249), (0x00B7, 250), (0x221A, 251),
   (0x207F, 252), (0x00B2, 253), (0x25A0, 254), (0x00A0, 255)]

/-- The function `unicode_to_cp437` of libtextmode.js, on every integer. -/
def unicode_to_cp437 (unicode : Int) : Int :=
  match unicode_cases.lookup unicode with
  | some cp437 => cp437
  | none => if unicode ≥ 0 ∧ unicode ≤ 127 then unicode else 0
/-! ## Numbers, typed arrays and strings (textmode.js)

The elements of a typed array are integers: those of a `Uint8Array` (and of a
`Buffer`) lie in 0..255, those of an `Int8Array` in -128..127.  A string is the
list of its UTF-16 code units. -/

/-- The conversion ToInt32 that the bitwise operators apply to their operands. -/
def toInt32 (x : Int) : Int :=
  if x % 4294967296 ≥ 2147483648 then x % 4294967296 - 4294967296 else x % 4294967296

/-- The operator `a << n`. -/
def shiftLeft (a : Int) (n : Nat) : Int :=
  toInt32 (toInt32 a * 2 ^ (n % 32))

/-- The sign-propagating operator `a >> n`. -/
def shiftRight (a : Int) (n : Nat) : Int :=
  toInt32 a / 2 ^ (n % 32)

/-- The expression `a & 0xff`: the low eight bits of the 32-bit operand. -/
def and0xff (a : Int) : Int :=
  toInt32 a % 256

/-- The expression `a & 0x01`: bit 0 of the 32-bit operand. -/
def and0x01 (a : Int) : Int :=
  toInt32 a % 2

/-- The expression `a & 0x02`: bit 1 of the 32-bit operand, in place. -/
def and0x02 (a : Int) : Int :=
  2 * (toInt32 a / 2 % 2)

/-- The value an element of a `Uint8Array` takes when `v` is stored in it. -/
def toUint8 (v : Int) : Int :=
  v % 256

/-- The value an element of an `Int8Array` takes when `v` is stored in it. -/
def toInt8 (v : Int) : Int :=
  if v % 256 ≥ 128 then v % 256 - 256 else v % 256

/-- The store `bytes[k] = v` on a `Uint8Array`: the length is fixed, a store past
the end is ignored. -/
def uint8Store (bytes : List Int) (k : Nat) (v : Int) : List Int :=
  if k < bytes.length then bytes.set k (toUint8 v) else bytes

/-- A loop `for (let k = 0; k < n; k++) body` whose body cannot throw. -/
def forEach {σ : Type} (n : Nat) (body : Nat → σ → σ) (s : σ) : σ :=
  (List.range n).foldl (fun st k => body k st) s

/-- An index of `subarray` and `slice` on an array of `len` elements: a negative
index counts from the end, and the result is clamped to `0..len`. -/
def relativeIndex (len : Nat) (i : Int) : Nat :=
  if i < 0 then (len + i).toNat else min i.toNat len

/-- The elements of `a.subarray(first, last)`, which are also those of
`a.slice(first, last)`. -/
def subarray (a : List Int) (first last : Int) : List Int :=
  (a.drop (relativeIndex a.length first)).take
    (relativeIndex a.length last - relativeIndex a.length first)

/-- The code unit of `String.fromCharCode(v)`. -/
def fromCharCode (v : Int) : Nat :=
  (v % 65536).toNat

/-- The code units that `String.prototype.trim` removes: white space and line
terminators. -/
def isWhiteSpace (c : Nat) : Bool :=
  c = 9 ∨ c = 10 ∨ c = 11 ∨ c = 12 ∨ c = 13 ∨ c = 32 ∨ c = 0xA0 ∨ c = 0x1680 ∨
  (0x2000 ≤ c ∧ c ≤ 0x200A) ∨ c = 0x2028 ∨ c = 0x2029 ∨ c = 0x202F ∨ c = 0x205F ∨
  c = 0x3000 ∨ c = 0xFEFF

/-- The method `trim`: white space is removed from both ends. -/
def trim (s : List Nat) : List Nat :=
  ((s.dropWhile isWhiteSpace).reverse.dropWhile isWhiteSpace).reverse

/-- A number of JavaScript as far as a record needs it: an integer, or a value that
is not an integer (a fraction, `NaN` or an infinity). -/
inductive JsNumber where
  | int (v : Int)
  | notInteger
deriving DecidableEq, Repr

/-- The division `a / b` by an integer: the quotient when it is an integer, and a
value that is not an integer otherwise (also for `b == 0`). -/
def JsNumber.divide : JsNumber → Int → JsNumber
  | JsNumber.int a, b => if b ≠ 0 ∧ b ∣ a then JsNumber.int (a / b) else JsNumber.notInteger
  | JsNumber.notInteger, _ => JsNumber.notInteger

/-! ## The SAUCE record (textmode.js) -/

/-- The class `Sauce`; `columns`, `rows` and `date` may be `undefined`. -/
structure Sauce where
  columns : Option Int
  rows : Option JsNumber
  title : List Nat
  author : List Nat
  group : List Nat
  date : Option (List Nat)
  filesize : Int
  ice_colors : Bool
  use_9px_font : Bool
  font_name : List Nat
  comments : List (List Nat)
deriving DecidableEq, Repr

/-- The record `new Sauce()`: the defaults of the constructor, the font name
being "IBM VGA". -/
def Sauce.empty : Sauce :=
  { columns := none, rows := none, title := [], author := [], group := [], date := none,
    filesize := 0, ice_colors := false, use_9px_font := false,
    font_name := [73, 66, 77, 32, 86, 71, 65], comments := [] }

/-- The function `add_text`: `max_length` stores from `pos` on, the code units of
`text` first and spaces (32) after them. -/
def add_text (bytes : List Int) (pos : Nat) (text : List Nat) (max_length : Nat) : List Int :=
  forEach max_length (fun i bytes =>
    if i < text.length then uint8Store bytes (pos + i) (text.getD i 0)
    else uint8Store bytes (pos + i) 32) bytes

/-- The function `add_comments_bytes`: a `Uint8Array` of `5 + comments.length * 64`
bytes receives "COMNT" and the comment lines, and is copied with `sauce_bytes`
into an `Int8Array`. -/
def add_comments_bytes (comments : List (List Nat)) (sauce_bytes : List Int) : List Int :=
  let bytes := List.replicate (5 + comments.length * 64) (0 : Int)
  let bytes := add_text bytes 0 [67, 79, 77, 78, 84] 5
  let bytes := forEach comments.length (fun i bytes =>
    add_text bytes (i * 64 + 5) (comments.getD i []) 64) bytes
  (bytes ++ sauce_bytes).map toInt8

/-- The function `add_sauce_bytes`.  `today` is the string `current_date()` returns.
The record is a `Uint8Array` of 128 bytes; `doc.columns / 2` is stored truncated;
the result is an `Int8Array` that holds `file_bytes`, the number 27 and the
record, preceded by the comment block when there are comments. -/
def add_sauce_bytes (doc : Doc) (data_type file_type : Nat) (file_bytes : List Int)
    (today : List Nat) : List Int :=
  let bytes := List.replicate 128 (0 : Int)
  let bytes := add_text bytes 0 [83, 65, 85, 67, 69, 48, 48] 7
  let bytes := add_text bytes 7 doc.title 35
  let bytes := add_text bytes 42 doc.author 20
  let bytes := add_text bytes 62 doc.group 20
  let bytes := add_text bytes 82 today 8
  let bytes := uint8Store bytes 90 (and0xff file_bytes.length)
  let bytes := uint8Store bytes 91 (and0xff (shiftRight file_bytes.length 8))
  let bytes := uint8Store bytes 92 (and0xff (shiftRight file_bytes.length 16))
  let bytes := uint8Store bytes 93 (shiftRight file_bytes.length 24)
  let bytes := uint8Store bytes 94 data_type
  let bytes :=
    if data_type = 5 then uint8Store bytes 95 ((doc.columns / 2 : Nat) : Int)
    else
      let bytes := uint8Store bytes 95 file_type
      let bytes := uint8Store bytes 96 (and0xff doc.columns)
      let bytes := uint8Store bytes 97 (shiftRight doc.columns 8)
      let bytes := uint8Store bytes 98 (and0xff doc.rows)
      uint8Store bytes 99 (shiftRight doc.rows 8)
  let bytes := uint8Store bytes 104 doc.comments.length
  let bytes :=
    if data_type ≠ 6 then
      let bytes := if doc.ice_colors then uint8Store bytes 105 1 else bytes
      let bytes :=
        if doc.use_9px_font then uint8Store bytes 105 (bytes.getD 105 0 + shiftLeft 1 2)
        else uint8Store bytes 105 (bytes.getD 105 0 + shiftLeft 1 1)
      if doc.font_name ≠ [] then add_text bytes 106 doc.font_name doc.font_name.length
      else bytes
    else bytes
  let bytes := if doc.comments.length ≠ 0 then add_comments_bytes doc.comments bytes else bytes
  (file_bytes ++ [27] ++ bytes).map toInt8

/-- The function `add_sauce_for_ans`: data type CHARACTER (1), file type ANS (1). -/
def add_sauce_for_ans (doc : Doc) (bytes : List Int) (today : List Nat) : List Int :=
  add_sauce_bytes doc 1 1 bytes today

/-- The function `add_sauce_for_bin`: data type BIN (5), file type NONE (0). -/
def add_sauce_for_bin (doc : Doc) (bytes : List Int) (today : List Nat) : List Int :=
  add_sauce_bytes doc 5 0 bytes today

/-- The function `add_sauce_for_xbin`: data type XBIN (6), file type NONE (0). -/
def add_sauce_for_xbin (doc : Doc) (bytes : List Int) (today : List Nat) : List Int :=
  add_sauce_bytes doc 6 0 bytes today

/-- The function `bytes_to_string`: the code units of the `size` elements from
`offset` on, trimmed at both ends. -/
def bytes_to_string (bytes : List Int) (offset size : Nat) : List Nat :=
  trim ((subarray bytes offset (offset + size)).map fromCharCode)

/-- The comments `get_sauce` reads, or `none` where it throws: `new Array(n)`
throws for a negative `n`, and a block that does not start with "COMNT" reaches
the call of `raise`. -/
def get_sauce_comments (bytes : List Int) (number_of_comments : Int) :
    Option (List (List Nat)) :=
  if number_of_comments < 0 then none
  else if number_of_comments ≠ 0 then
    let comments_bytes := subarray bytes
      (bytes.length - (number_of_comments * 64 + 5) - 128) (bytes.length - 128)
    if bytes_to_string comments_bytes 0 5 = [67, 79, 77, 78, 84] then
      some ((List.range number_of_comments.toNat).map (fun i =>
        bytes_to_string comments_bytes (5 + i * 64) 64))
    else none
  else some []

/-- The function `get_sauce`; `none` is a thrown exception.  The record is the last
128 elements (`bytes.slice(-128)`).  The assignment `bytes.length = 128` inside
`filesize = bytes.length = 128` does not change a typed array and has the value
128. -/
def get_sauce (bytes : List Int) : Option Sauce :=
  let sauce_bytes := subarray bytes (-128) bytes.length
  if bytes.length ≥ 128 ∧ bytes_to_string sauce_bytes 0 5 = [83, 65, 85, 67, 69] ∧
      bytes_to_string sauce_bytes 5 2 = [48, 48] then
    let title := bytes_to_string sauce_bytes 7 35
    let author := bytes_to_string sauce_bytes 42 20
    let group := bytes_to_string sauce_bytes 62 20
    let date := bytes_to_string sauce_bytes 82 8
    let filesize := shiftLeft (sauce_bytes.getD 93 0) 24 + shiftLeft (sauce_bytes.getD 92 0) 16
      + shiftLeft (sauce_bytes.getD 91 0) 8 + sauce_bytes.getD 90 0
    let datatype := sauce_bytes.getD 94 0
    let columns :=
      if datatype = 5 then sauce_bytes.getD 95 0 * 2
      else shiftLeft (sauce_bytes.getD 97 0) 8 + sauce_bytes.getD 96 0
    let rows :=
      if datatype = 5 then ((JsNumber.int filesize).divide columns).divide 2
      else JsNumber.int (shiftLeft (sauce_bytes.getD 99 0) 8 + sauce_bytes.getD 98 0)
    let number_of_comments := sauce_bytes.getD 104 0
    match get_sauce_comments bytes number_of_comments with
    | none => none
    | some comments =>
      let flags := sauce_bytes.getD 105 0
      let ice_colors := decide (and0x01 flags = 1)
      let use_9px_font := decide (and0x02 (shiftRight flags 1) = 2)
      let font_name := (bytes_to_string sauce_bytes 106 22).filter (fun c => c ≠ 0)
      let font_name := if font_name = [] then [73, 66, 77, 32, 86, 71, 65] else font_name
      let filesize :=
        if filesize = 0 then
          if number_of_comments ≠ 0 then 128 - (number_of_comments * 64 + 5) else 128
        else filesize
      some { columns := some columns, rows := some rows, title := title, author := author,
             group := group, date := some date, filesize := filesize,
             ice_colors := ice_colors, use_9px_font := use_9px_font,
             font_name := font_name, comments := comments }
  else some { Sauce.empty with filesize := bytes.length }

/-! ## Fields of a record as `add_text` leaves them -/

/-- The element `add_text` leaves at offset `t` of its field: the code unit of
`text` there, or a space (32) past the end of `text`, as a `Uint8Array` stores
it. -/
def fieldByte (text : List Nat) (t : Nat) : Int :=
  if t < text.length then toUint8 (text.getD t 0) else toUint8 32

/-- The signature "SAUCE" and the version "00" as elements of a typed array. -/
def sauceSignature : List Int :=
  [83, 65, 85, 67, 69, 48, 48]

/-- The signature "COMNT" as elements of a typed array. -/
def commentSignature : List Int :=
  [67, 79, 77, 78, 84]

/-- An array whose elements are unsigned bytes, as those of a `Uint8Array` or of a
`Buffer`. -/
def IsUint8Array (a : List Int) : Prop :=
  ∀ b ∈ a, 0 ≤ b ∧ b ≤ 255

/-- The record of `add_sauce_bytes` after its stores up to `bytes[104]`: the
signature, the text fields, the date, the size of the file, the data type, the
file type or half the columns, `columns` and `rows`, and the comment count. -/
def sauceHeader (doc : Doc) (data_type file_type file_length : Nat) (today : List Nat) :
    List Int :=
  let bytes := List.replicate 128 (0 : Int)
  let bytes := add_text bytes 0 [83, 65, 85, 67, 69, 48, 48] 7
  let bytes := add_text bytes 7 doc.title 35
  let bytes := add_text bytes 42 doc.author 20
  let bytes := add_text bytes 62 doc.group 20
  let bytes := add_text bytes 82 today 8
  let bytes := uint8Store bytes 90 (and0xff file_length)
  let bytes := uint8Store bytes 91 (and0xff (shiftRight file_length 8))
  let bytes := uint8Store bytes 92 (and0xff (shiftRight file_length 16))
  let bytes := uint8Store bytes 93 (shiftRight file_length 24)
  let bytes := uint8Store bytes 94 data_type
  let bytes :=
    if data_type = 5 then uint8Store bytes 95 ((doc.columns / 2 : Nat) : Int)
    else
      let bytes := uint8Store bytes 95 file_type
      let bytes := uint8Store bytes 96 (and0xff doc.columns)
      let bytes := uint8Store bytes 97 (shiftRight doc.columns 8)
      let bytes := uint8Store bytes 98 (and0xff doc.rows)
      uint8Store bytes 99 (shiftRight doc.rows 8)
  uint8Store bytes 104 doc.comments.length

/-- The stores of `add_sauce_bytes` inside `if (data_type != data_type_types.XBIN)`:
the flag byte at offset 105 and the font name from offset 106 on. -/
def sauceFlags (doc : Doc) (data_type : Nat) (bytes : List Int) : List Int :=
  if data_type ≠ 6 then
    let bytes := if doc.ice_colors then uint8Store bytes 105 1 else bytes
    let bytes :=
      if doc.use_9px_font then uint8Store bytes 105 (bytes.getD 105 0 + shiftLeft 1 2)
      else uint8Store bytes 105 (bytes.getD 105 0 + shiftLeft 1 1)
    if doc.font_name ≠ [] then add_text bytes 106 doc.font_name doc.font_name.length
    else bytes
  else bytes

/-! ## Example files -/

/-- A Document of the given size and comment lines, without cells. -/
def headerOf (columns rows : Nat) (comments : List (List Nat)) : Doc :=
  { columns := columns, rows := rows, title := [], author := [], group := [], date := [],
    palette := [], font_name := [73, 66, 77, 32, 86, 71, 65], ice_colors := false,
    use_9px_font := false, comments := comments, data := none, compressed_data := none }

/-- The date string "20240131". -/
def sampleDate : List Nat :=
  [50, 48, 50, 52, 48, 49, 51, 49]

/-- A record of 128 bytes: "SAUCE00", zeros, and the given bytes at the given
offsets. -/
def recordWith (stores : List (Nat × Int)) : List Int :=
  stores.foldl (fun bytes p => uint8Store bytes p.1 p.2)
    ([83, 65, 85, 67, 69, 48, 48] ++ List.replicate 121 0)


/-! ## The case labels of the flip tables -/

/-- The case labels of the `switch` in `flip_code_x`, in source order. -/
def flip_code_x_keys : List Nat :=
  [40, 41, 47, 60, 62, 91, 92, 93, 123, 125, 169, 170, 174, 175, 180, 181, 182, 183, 185, 187,
   188, 189, 195, 198, 190, 191, 192, 199, 200, 201, 204, 211, 214, 212, 217, 218, 221, 222,
   242, 243]

/-- The case labels of the `switch` in `flip_code_y`, in source order. -/
def flip_code_y_keys : List Nat :=
  [183, 184, 187, 188, 189, 190, 191, 192, 193, 194, 200, 201, 202, 203, 207, 208, 209, 210,
   211, 212, 213, 214, 217, 218, 220, 223]

/-! ## Trimming as the specification words it -/

/-- The text `text` is `field` with white space removed at both ends: `field` is
`pre ++ text ++ post` where `pre` and `post` consist of white space and `text`
neither starts nor ends with white space. -/
def IsTrimOf (field text : List Nat) : Prop :=
  ∃ pre post : List Nat, field = pre ++ text ++ post ∧
    (∀ c ∈ pre, isWhiteSpace c = true) ∧ (∀ c ∈ post, isWhiteSpace c = true) ∧
    (∀ c, text.head? = some c → isWhiteSpace c = false) ∧
    (∀ c, text.getLast? = some c → isWhiteSpace c = false)

/-- The `size` bytes of a record from `offset` on, decoded as Latin-1: a byte is
the code unit of its character. -/
def latin1Field (record : List Int) (offset size : Nat) : List Nat :=
  ((record.drop offset).take size).map Int.toNat

/-- A record "SAUCE00" whose title field of 35 bytes is a space, the letter A and
33 spaces; the 86 bytes after it are zero. -/
def recordWithTitle : List Int :=
  [83, 65, 85, 67, 69, 48, 48] ++ ([32, 65] ++ List.replicate 33 32) ++ List.replicate 86 0

/-- A Document without cells whose title has 40 characters, whose author has one
and whose group has 20. -/
def longTitleDoc : Doc :=
  { headerOf 80 25 [] with
    title := List.replicate 40 65, author := [66], group := List.replicate 20 67 }

/-! ## Creating a Document (libtextmode.js) -/

/-- The function `new_document` of libtextmode.js.  The argument object is given
as a `Doc` whose keys but `data` are all present, so that no default applies;
`today` is the string `current_date()` returns.  The grid is created anew when
`data` is absent or `data.length != columns * rows`; otherwise `data` is kept as it
is. -/
def new_document (options : Doc) (today : List Nat) : Doc :=
  let fresh := forEach (options.columns * options.rows)
    (fun i data => arraySet data i
      { fg := some 7, bg := some 0, code := some 32, fg_rgb := none, bg_rgb := none })
    (newArray (options.columns * options.rows))
  { columns := options.columns, rows := options.rows, title := options.title,
    author := options.author, group := options.group,
    date := if options.date ≠ [] then options.date else today,
    palette := options.palette, font_name := options.font_name,
    ice_colors := options.ice_colors, use_9px_font := options.use_9px_font,
    comments := options.comments,
    data := some (match options.data with
      | none => fresh
      | some data => if data.length ≠ options.columns * options.rows then fresh else data),
    compressed_data := none }

/-- Well-formedness of a Document: `data.length == columns * rows`, with a cell
in every slot. -/
def WellFormed (d : Doc) : Prop :=
  ∃ cells : List Block, d.data = some (cells.map some) ∧ cells.length = d.columns * d.rows

/-! ## The indices the transforms read and write -/

/-- The values of an index expression `f y x` over the iterations of the nested
loops `for (y = 0; y < Y; y++) for (x = 0; x < X; x++)`, in order. -/
def loopIndices (Y X : Nat) (f : Nat → Nat → Nat) : List Nat :=
  (List.range Y).flatMap (fun y => (List.range X).map (fun x => f y x))

/-- The indices `flip_x` reads in `blocks.data`: the counter `i`, which starts at 0
and is incremented in each of the `rows * columns` iterations. -/
def flip_x_reads (blocks : Doc) : List Nat :=
  List.range (blocks.rows * blocks.columns)

/-- The indices `flip_x` assigns in `new_data`:
`blocks.columns * y + blocks.columns - 1 - x`. -/
def flip_x_writes (blocks : Doc) : List Nat :=
  loopIndices blocks.rows blocks.columns
    (fun y x => blocks.columns * y + blocks.columns - 1 - x)

/-- The indices `flip_y` reads in `blocks.data`: the counter `i`. -/
def flip_y_reads (blocks : Doc) : List Nat :=
  List.range (blocks.rows * blocks.columns)

/-- The indices `flip_y` assigns in `new_data`:
`blocks.columns * (blocks.rows - 1 - y) + x`. -/
def flip_y_writes (blocks : Doc) : List Nat :=
  loopIndices blocks.rows blocks.columns
    (fun y x => blocks.columns * (blocks.rows - 1 - y) + x)

/-- The indices `rotate` reads in `blocks.data`:
`(new_columns - 1 - x) * blocks.columns + y` for `y < new_rows`, `x < new_columns`,
where `new_columns` is `blocks.rows` and `new_rows` is `blocks.columns`. -/
def rotate_reads (blocks : Doc) : List Nat :=
  loopIndices blocks.columns blocks.rows
    (fun y x => (blocks.rows - 1 - x) * blocks.columns + y)

/-- The indices `rotate` assigns in `new_data`: the counter `i`, which starts at 0
and is incremented in each of the `new_rows * new_columns` iterations. -/
def rotate_writes (blocks : Doc) : List Nat :=
  List.range (blocks.columns * blocks.rows)

/-- The indices `resize_canvas` reads in `doc.data`: `y * doc.columns + x` for
`y < min_rows`, `x < min_columns`. -/
def resize_canvas_reads (doc : Doc) (columns rows : Nat) : List Nat :=
  loopIndices (min doc.rows rows) (min doc.columns columns) (fun y x => y * doc.columns + x)

/-- The indices `resize_canvas` assigns in `new_data`: every `i < new_data.length`
in the first loop, then `y * columns + x` for `y < min_rows`, `x < min_columns`. -/
def resize_canvas_writes (doc : Doc) (columns rows : Nat) : List Nat :=
  List.range (columns * rows) ++
    loopIndices (min doc.rows rows) (min doc.columns columns) (fun y x => y * columns + x)

/-! ## The class `Textmode` (textmode.js) -/

/-- An object of the class `Textmode`: the fields of the record `get_sauce` returns
and `bytes`, the part of the file before the record. -/
structure Textmode where
  columns : Option Int
  rows : Option JsNumber
  title : List Nat
  author : List Nat
  group : List Nat
  date : Option (List Nat)
  filesize : Int
  ice_colors : Bool
  use_9px_font : Bool
  font_name : List Nat
  comments : List (List Nat)
  bytes : List Int
deriving DecidableEq, Repr

/-- The constructor of the class `Textmode`; `none` is an exception that
`get_sauce` throws.  The field `bytes` is `bytes.subarray(0, this.filesize)`. -/
def Textmode.new (bytes : List Int) : Option Textmode :=
  match get_sauce bytes with
  | none => none
  | some sauce =>
    some { columns := sauce.columns, rows := sauce.rows, title := sauce.title,
           author := sauce.author, group := sauce.group, date := sauce.date,
           filesize := sauce.filesize, ice_colors := sauce.ice_colors,
           use_9px_font := sauce.use_9px_font, font_name := sauce.font_name,
           comments := sauce.comments, bytes := subarray bytes 0 sauce.filesize }

/-! ## Example files for the round trips -/

/-- A Document without cells and with 257 empty comment lines. -/
def manyCommentsDoc (columns rows : Nat) : Doc :=
  headerOf columns rows (List.replicate 257 [])

/-- A Document without cells whose font name is " VGA", with a leading space. -/
def spacedFontDoc : Doc :=
  { headerOf 80 25 [] with font_name := [32, 86, 71, 65] }

/-- A Document without cells with a title, an author, a group, one comment line,
the font name "IBM VGA" and both flags set. -/
def describedDoc : Doc :=
  { headerOf 80 25 [[104, 105]] with
    title := [65, 32, 66], author := [109, 101], group := [103],
    ice_colors := true, use_9px_font := true }

/-- A text of printable ASCII characters (32..126), at most `width` of them, that
neither starts nor ends with white space. -/
def IsPlainText (text : List Nat) (width : Nat) : Prop :=
  text.length ≤ width ∧ (∀ u ∈ text, 32 ≤ u ∧ u ≤ 126) ∧
  (∀ u, text.head? = some u → isWhiteSpace u = false) ∧
  (∀ u, text.getLast? = some u → isWhiteSpace u = false)

/-- A font name that `get_sauce` reads back: not empty, printable ASCII characters
(32..126), at most 22 of them, no white space at the start and, when it fills the
22 bytes of its field, none at the end. -/
def IsPlainFontName (font_name : List Nat) : Prop :=
  font_name ≠ [] ∧ font_name.length ≤ 22 ∧ (∀ u ∈ font_name, 32 ≤ u ∧ u ≤ 126) ∧
  (∀ u, font_name.head? = some u → isWhiteSpace u = false) ∧
  (font_name.length = 22 → ∀ u, font_name.getLast? = some u → isWhiteSpace u = false)

/-! ## Lemmas on run-length encoding -/

theorem foldl_append_flatMap {α β : Type} (f : α → List β) (l : List α) (acc : List β) :
    l.foldl (fun out a => out ++ f a) acc = acc ++ l.flatMap f := by
  induction l generalizing acc with
  | nil => simp
  | cons a l ih => simp [ih]

theorem expandChannel_eq_decode (channel : List (Option Nat × Nat)) :
    expandChannel channel = runLengthDecode channel := by
  simp [expandChannel, runLengthDecode, foldl_append_flatMap]

theorem decode_runFrom {α : Type} [DecidableEq α] (l : List α) (value : α) (run : Nat) :
    runLengthDecode (runFrom value run l) = List.replicate (run + 1) value ++ l := by
  induction l generalizing value run with
  | nil => simp [runFrom, runLengthDecode]
  | cons next rest ih =>
    by_cases h : value = next
    · subst h
      rw [runFrom, if_pos rfl, ih, List.replicate_succ' (run + 1)]
      simp
    · rw [runFrom, if_neg h]
      have := ih next 0
      simp only [runLengthDecode, List.flatMap_cons] at this ⊢
      rw [this]
      simp

theorem decode_encode {α : Type} [DecidableEq α] (l : List α) :
    runLengthDecode (runLengthEncode l) = l := by
  cases l with
  | nil => simp [runLengthEncode, runLengthDecode]
  | cons a l => simp [runLengthEncode, decode_runFrom]

theorem runFrom_head {α : Type} [DecidableEq α] (l : List α) (value : α) (run : Nat) :
    ∃ m tl, runFrom value run l = (value, m) :: tl := by
  induction l generalizing value run with
  | nil => exact ⟨run, [], rfl⟩
  | cons next rest ih =>
    by_cases h : value = next
    · subst h
      rw [runFrom, if_pos rfl]
      exact ih value (run + 1)
    · rw [runFrom, if_neg h]
      exact ⟨run, _, rfl⟩

theorem runFrom_chain {α : Type} [DecidableEq α] (l : List α) (value : α) (run : Nat) :
    List.Chain' (fun p q : α × Nat => p.1 ≠ q.1) (runFrom value run l) := by
  induction l generalizing value run with
  | nil => simp [runFrom]
  | cons next rest ih =>
    by_cases h : value = next
    · subst h
      rw [runFrom, if_pos rfl]
      exact ih value (run + 1)
    · rw [runFrom, if_neg h]
      obtain ⟨m, tl, hm⟩ := runFrom_head rest next 0
      have hc := ih next 0
      rw [hm] at hc ⊢
      exact List.Chain'.cons h hc

theorem encode_chain {α : Type} [DecidableEq α] (l : List α) :
    List.Chain' (fun p q : α × Nat => p.1 ≠ q.1) (runLengthEncode l) := by
  cases l with
  | nil => simp [runLengthEncode]
  | cons a l => exact runFrom_chain l a 0

theorem sum_runs_eq_length {α : Type} (pairs : List (α × Nat)) :
    (pairs.map (fun p => p.2 + 1)).sum = (runLengthDecode pairs).length := by
  induction pairs with
  | nil => simp [runLengthDecode]
  | cons p ps ih =>
    simp only [runLengthDecode, List.flatMap_cons, List.map_cons, List.sum_cons,
      List.length_append, List.length_replicate] at ih ⊢
    rw [ih]

/-! ## Lemmas on `compress` and `uncompress` -/

theorem compressLoop_cells (rest : List Block) (block : Block) (code_repeat fg_repeat bg_repeat : Nat)
    (acc : CompressedData) :
    compressLoop ((block :: rest).map some) code_repeat fg_repeat bg_repeat acc =
      some { code := acc.code ++ runFrom block.code code_repeat (rest.map (fun b => b.code)),
             fg := acc.fg ++ runFrom block.fg fg_repeat (rest.map (fun b => b.fg)),
             bg := acc.bg ++ runFrom block.bg bg_repeat (rest.map (fun b => b.bg)) } := by
  induction rest generalizing block code_repeat fg_repeat bg_repeat acc with
  | nil => simp [compressLoop, runFrom]
  | cons next rest ih =>
    have ih2 := ih next
    simp only [List.map_cons] at ih2 ⊢
    rw [compressLoop, ih2]
    by_cases hc : block.code = next.code <;> by_cases hf : block.fg = next.fg <;>
      by_cases hb : block.bg = next.bg <;> simp [runFrom, hc, hf, hb]

/-- The compressed form of a Document with the cell sequence `cells`. -/
theorem compress_cells (d : Doc) (cells : List Block) (h : d.data = some (cells.map some)) :
    compress d = some { d with
      data := none
      compressed_data := some
        { code := runLengthEncode (cells.map (fun b => b.code)),
          fg := runLengthEncode (cells.map (fun b => b.fg)),
          bg := runLengthEncode (cells.map (fun b => b.bg)) } } := by
  unfold compress
  rw [h]
  cases cells with
  | nil => simp [compressLoop, runLengthEncode]
  | cons b rest =>
    have := compressLoop_cells rest b 0 0 0 { code := [], fg := [], bg := [] }
    simp only [List.map_cons, List.nil_append] at this
    simp [this, runLengthEncode]

theorem arrayGet_map_some {α : Type} (l : List α) (i : Nat) :
    arrayGet (l.map some) i = l[i]? := by
  simp [arrayGet]
  cases l[i]? <;> rfl

/-- The cells `uncompress` builds from three channels. -/
theorem uncompress_data (doc : Doc) (cd : CompressedData) (h : doc.compressed_data = some cd) :
    uncompress doc = { doc with
      data := some ((List.range (runLengthDecode cd.code).length).map (fun i =>
        some { code := arrayGet (runLengthDecode cd.code) i,
               fg := arrayGet (runLengthDecode cd.fg) i,
               bg := arrayGet (runLengthDecode cd.bg) i,
               fg_rgb := none, bg_rgb := none }))
      compressed_data := none } := by
  unfold uncompress
  rw [h]
  simp only [expandChannel_eq_decode]

/-- Compressing and uncompressing a Document rebuilds every cell from its `code`,
`fg` and `bg` alone. -/
theorem roundtrip_cells (d : Doc) (cells : List Block) (h : d.data = some (cells.map some)) :
    ∃ c, compress d = some c ∧
      (uncompress c).data = some (cells.map (fun b =>
        some { code := b.code, fg := b.fg, bg := b.bg, fg_rgb := none, bg_rgb := none })) := by
  refine ⟨_, compress_cells d cells h, ?_⟩
  rw [uncompress_data _ _ rfl]
  simp only [decode_encode, List.length_map]
  congr 1
  apply List.ext_getElem
  · simp
  · intro i h1 h2
    simp only [List.length_map, List.length_range] at h1
    simp [arrayGet, List.getElem?_eq_getElem h1]


/-! ## Transfer compression: the claims -/

/-- C1: for every Document `d` (any number of cells, also none), `compress d`
returns a CompressedDocument and `uncompress` of it has a `data` array of the same
length as `d.data` whose cell at every index has the same `code`, `fg` and `bg`. -/
theorem compress_uncompress_roundtrip (d : Doc) (cells : List Block)
    (h : d.data = some (cells.map some)) :
    ∃ c out, compress d = some c ∧ (uncompress c).data = some out ∧
      out.length = cells.length ∧
      ∀ i (hi : i < cells.length), ∃ b, out[i]? = some (some b) ∧
        b.code = cells[i].code ∧ b.fg = cells[i].fg ∧ b.bg = cells[i].bg := by
  obtain ⟨c, hc, hd⟩ := roundtrip_cells d cells h
  refine ⟨c, _, hc, hd, by simp, ?_⟩
  intro i hi
  refine ⟨{ code := cells[i].code, fg := cells[i].fg, bg := cells[i].bg,
            fg_rgb := none, bg_rgb := none }, ?_, rfl, rfl, rfl⟩
  rw [List.getElem?_map, List.getElem?_eq_getElem hi]
  rfl

/-- Witness of C1 on a 3 x 2 Document. -/
theorem compress_uncompress_roundtrip_witness :
    (documentOf 3 2 sampleCells).data = some (sampleCells.map some) ∧
    ∃ c out, compress (documentOf 3 2 sampleCells) = some c ∧ (uncompress c).data = some out ∧
      out.length = sampleCells.length ∧
      ∀ i (hi : i < sampleCells.length), ∃ b, out[i]? = some (some b) ∧
        b.code = sampleCells[i].code ∧ b.fg = sampleCells[i].fg ∧ b.bg = sampleCells[i].bg :=
  ⟨rfl, compress_uncompress_roundtrip (documentOf 3 2 sampleCells) sampleCells rfl⟩

/-- C2: for every Document, each channel of `compress(d).compressed_data` is the
run-length encoding of that channel of the cells taken alone: it expands back to
the channel, adjacent pairs never carry the same value, and it is a function of
that channel only.  A 4 x 1 Document of blank cells gives `[(32, 3)]`, `[(7, 3)]`
and `[(0, 3)]`. -/
theorem compress_channels_run_length (d : Doc) (cells : List Block)
    (h : d.data = some (cells.map some)) :
    ∃ c cd, compress d = some c ∧ c.compressed_data = some cd ∧
      cd.code = runLengthEncode (cells.map (fun b => b.code)) ∧
      cd.fg = runLengthEncode (cells.map (fun b => b.fg)) ∧
      cd.bg = runLengthEncode (cells.map (fun b => b.bg)) ∧
      runLengthDecode cd.code = cells.map (fun b => b.code) ∧
      runLengthDecode cd.fg = cells.map (fun b => b.fg) ∧
      runLengthDecode cd.bg = cells.map (fun b => b.bg) ∧
      List.Chain' (fun p q => p.1 ≠ q.1) cd.code ∧
      List.Chain' (fun p q => p.1 ≠ q.1) cd.fg ∧
      List.Chain' (fun p q => p.1 ≠ q.1) cd.bg ∧
      (cells = List.replicate 4 blankCell →
        cd = { code := [(some 32, 3)], fg := [(some 7, 3)], bg := [(some 0, 3)] }) := by
  refine ⟨_, _, compress_cells d cells h, rfl, rfl, rfl, rfl, decode_encode _, decode_encode _,
    decode_encode _, encode_chain _, encode_chain _, encode_chain _, ?_⟩
  intro hc
  subst hc
  decide

/-- Witness of C2 on the 4 x 1 Document of blank cells. -/
theorem compress_channels_run_length_witness :
    (documentOf 4 1 (List.replicate 4 blankCell)).data
      = some ((List.replicate 4 blankCell).map some) ∧
    ∃ c cd, compress (documentOf 4 1 (List.replicate 4 blankCell)) = some c ∧
      c.compressed_data = some cd ∧
      cd = { code := [(some 32, 3)], fg := [(some 7, 3)], bg := [(some 0, 3)] } := by
  refine ⟨rfl, ?_⟩
  obtain ⟨c, cd, h1, h2, _, _, _, _, _, _, _, _, _, h3⟩ :=
    compress_channels_run_length (documentOf 4 1 (List.replicate 4 blankCell))
      (List.replicate 4 blankCell) rfl
  exact ⟨c, cd, h1, h2, h3 rfl⟩

/-- C3: for every Document with `data.length == columns * rows`, in each channel of
`compress(d).compressed_data` the sum of `run_length + 1` over all pairs is
`columns * rows`, and every run length is a non-negative integer. -/
theorem compress_run_lengths_sum (d : Doc) (cells : List Block)
    (h : d.data = some (cells.map some)) (hlen : cells.length = d.columns * d.rows) :
    ∃ c cd, compress d = some c ∧ c.compressed_data = some cd ∧
      (cd.code.map (fun p => p.2 + 1)).sum = d.columns * d.rows ∧
      (cd.fg.map (fun p => p.2 + 1)).sum = d.columns * d.rows ∧
      (cd.bg.map (fun p => p.2 + 1)).sum = d.columns * d.rows ∧
      ∀ p ∈ cd.code ++ cd.fg ++ cd.bg, 0 ≤ p.2 := by
  refine ⟨_, _, compress_cells d cells h, rfl, ?_, ?_, ?_, fun p _ => Nat.zero_le _⟩ <;>
    rw [sum_runs_eq_length, decode_encode, List.length_map, hlen]

/-- Witness of C3 on a 3 x 2 Document. -/
theorem compress_run_lengths_sum_witness :
    (documentOf 3 2 sampleCells).data = some (sampleCells.map some) ∧
    sampleCells.length = (documentOf 3 2 sampleCells).columns * (documentOf 3 2 sampleCells).rows ∧
    ∃ c cd, compress (documentOf 3 2 sampleCells) = some c ∧ c.compressed_data = some cd ∧
      (cd.code.map (fun p => p.2 + 1)).sum = 3 * 2 ∧
      (cd.fg.map (fun p => p.2 + 1)).sum = 3 * 2 ∧
      (cd.bg.map (fun p => p.2 + 1)).sum = 3 * 2 ∧
      ∀ p ∈ cd.code ++ cd.fg ++ cd.bg, 0 ≤ p.2 :=
  ⟨rfl, rfl, compress_run_lengths_sum (documentOf 3 2 sampleCells) sampleCells rfl rfl⟩

/-- C4: `uncompress` returns a value without a `compressed_data` field unchanged,
and it is idempotent: `uncompress(uncompress(x))` equals `uncompress(x)` for
every `x`. -/
theorem uncompress_idempotent :
    (∀ x : Doc, x.compressed_data = none → uncompress x = x) ∧
    (∀ x : Doc, uncompress (uncompress x) = uncompress x) := by
  have key : ∀ x : Doc, x.compressed_data = none → uncompress x = x := by
    intro x hx
    unfold uncompress
    rw [hx]
  refine ⟨key, fun x => key _ ?_⟩
  unfold uncompress
  cases h : x.compressed_data with
  | none => simpa using h
  | some cd => rfl

/-- Witness of C4 on a Document and on a CompressedDocument. -/
theorem uncompress_idempotent_witness :
    (documentOf 3 2 sampleCells).compressed_data = none ∧
    uncompress (documentOf 3 2 sampleCells) = documentOf 3 2 sampleCells ∧
    uncompress (uncompress mismatchedDoc) = uncompress mismatchedDoc :=
  ⟨rfl, uncompress_idempotent.1 (documentOf 3 2 sampleCells) rfl,
    uncompress_idempotent.2 mismatchedDoc⟩

/-- C5 as stated fails: the channels of `mismatchedDoc` expand to 3, 1 and 2
values and `columns * rows` is 4, yet `uncompress` returns a Document of 3 cells,
the last two with `undefined` fields. -/
theorem uncompress_accepts_mismatched_channels :
    (expandChannel [(some 65, 2)]).length = 3 ∧
    (expandChannel [(some 7, 0)]).length = 1 ∧
    (expandChannel [(some 0, 1)]).length = 2 ∧
    mismatchedDoc.columns * mismatchedDoc.rows = 4 ∧
    uncompress mismatchedDoc =
      { compressedOf 2 2 { code := [], fg := [], bg := [] } with
        data := some
          [some { code := some 65, fg := some 7, bg := some 0, fg_rgb := none, bg_rgb := none },
           some { code := some 65, fg := none, bg := some 0, fg_rgb := none, bg_rgb := none },
           some { code := some 65, fg := none, bg := none, fg_rgb := none, bg_rgb := none }]
        compressed_data := none } := by
  decide

/-- C5 amended: `uncompress` checks no size and never fails.  For every
CompressedDocument it returns a Document without `compressed_data` whose `data`
has as many cells as the expanded `code` channel, whatever `columns * rows` is;
cell `i` carries the `i`-th expanded code, and the `i`-th expanded `fg` and `bg`
where those channels reach index `i` and `undefined` where they do not. -/
theorem uncompress_total (doc : Doc) (cd : CompressedData)
    (h : doc.compressed_data = some cd) :
    ∃ out, (uncompress doc).data = some out ∧ (uncompress doc).compressed_data = none ∧
      (uncompress doc).columns = doc.columns ∧ (uncompress doc).rows = doc.rows ∧
      out.length = (runLengthDecode cd.code).length ∧
      ∀ i, i < (runLengthDecode cd.code).length →
        out[i]? = some (some
          { code := ((runLengthDecode cd.code)[i]?).join,
            fg := ((runLengthDecode cd.fg)[i]?).join,
            bg := ((runLengthDecode cd.bg)[i]?).join,
            fg_rgb := none, bg_rgb := none }) := by
  rw [uncompress_data doc cd h]
  refine ⟨_, rfl, rfl, rfl, rfl, by simp, ?_⟩
  intro i hi
  rw [List.getElem?_map, List.getElem?_range hi]
  rfl

/-- Witness of the amended C5 on the CompressedDocument with unequal channels. -/
theorem uncompress_total_witness :
    mismatchedDoc.compressed_data
      = some { code := [(some 65, 2)], fg := [(some 7, 0)], bg := [(some 0, 1)] } ∧
    ∃ out, (uncompress mismatchedDoc).data = some out ∧
      (uncompress mismatchedDoc).compressed_data = none ∧
      (uncompress mismatchedDoc).columns = 2 ∧ (uncompress mismatchedDoc).rows = 2 ∧
      out.length = (runLengthDecode [((some 65 : Option Nat), 2)]).length ∧
      ∀ i, i < (runLengthDecode [((some 65 : Option Nat), 2)]).length →
        out[i]? = some (some
          { code := ((runLengthDecode [((some 65 : Option Nat), 2)])[i]?).join,
            fg := ((runLengthDecode [((some 7 : Option Nat), 0)])[i]?).join,
            bg := ((runLengthDecode [((some 0 : Option Nat), 1)])[i]?).join,
            fg_rgb := none, bg_rgb := none }) :=
  ⟨rfl, uncompress_total mismatchedDoc _ rfl⟩

/-- C6 as stated fails: a 1 x 1 Document whose cell carries `fg_rgb` and `bg_rgb`
comes back from `uncompress(compress(d))` with a cell that carries neither. -/
theorem roundtrip_drops_rgb_overrides :
    (compress (documentOf 1 1 [overrideCell])).map uncompress
      = some (documentOf 1 1 [plainCell 65 7 0]) ∧
    (documentOf 1 1 [plainCell 65 7 0]).data ≠ (documentOf 1 1 [overrideCell]).data := by
  decide

/-- C6 amended: for every Document, `uncompress(compress(d)).data` has at every
index a cell with the `code`, `fg` and `bg` of the corresponding cell of `d` and
without `fg_rgb` and `bg_rgb`; it equals `d.data` as whole cells exactly when no
cell of `d` carries an override. -/
theorem roundtrip_keeps_channels_only (d : Doc) (cells : List Block)
    (h : d.data = some (cells.map some)) :
    ∃ c, compress d = some c ∧
      (uncompress c).data = some (cells.map (fun b =>
        some { code := b.code, fg := b.fg, bg := b.bg, fg_rgb := none, bg_rgb := none })) ∧
      ((uncompress c).data = d.data ↔ ∀ b ∈ cells, b.fg_rgb = none ∧ b.bg_rgb = none) := by
  obtain ⟨c, hc, hd⟩ := roundtrip_cells d cells h
  refine ⟨c, hc, hd, ?_⟩
  rw [hd, h]
  simp only [Option.some.injEq]
  constructor
  · intro heq b hb
    have := List.map_inj_left.mp heq b hb
    simp only [Option.some.injEq] at this
    rw [← this]
    exact ⟨rfl, rfl⟩
  · intro hall
    apply List.map_congr_left
    intro b hb
    obtain ⟨h1, h2⟩ := hall b hb
    cases b
    simp_all

/-- Witness of the amended C6 on the Document with colour overrides. -/
theorem roundtrip_keeps_channels_only_witness :
    (documentOf 1 1 [overrideCell]).data = some ([overrideCell].map some) ∧
    ∃ c, compress (documentOf 1 1 [overrideCell]) = some c ∧
      (uncompress c).data = some ([overrideCell].map (fun b =>
        some { code := b.code, fg := b.fg, bg := b.bg, fg_rgb := none, bg_rgb := none })) ∧
      ((uncompress c).data = (documentOf 1 1 [overrideCell]).data ↔
        ∀ b ∈ [overrideCell], b.fg_rgb = none ∧ b.bg_rgb = none) :=
  ⟨rfl, roundtrip_keeps_channels_only (documentOf 1 1 [overrideCell]) [overrideCell] rfl⟩


/-! ## Lemmas on loops and array writes -/

theorem forLoop_succ {σ : Type} (n : Nat) (body : Nat → σ → Option σ) (s : σ) :
    forLoop (n + 1) body s = (forLoop n body s).bind (body n) := by
  simp [forLoop, List.range_succ, List.foldlM_append]

/-- Loop invariant rule: an invariant that holds before the loop and is carried by
every iteration holds after it, and the loop does not throw. -/
theorem forLoop_invariant {σ : Type} (Inv : Nat → σ → Prop) (n : Nat)
    (body : Nat → σ → Option σ) (s : σ) (h0 : Inv 0 s)
    (hstep : ∀ k st, k < n → Inv k st → ∃ st', body k st = some st' ∧ Inv (k + 1) st') :
    ∃ st', forLoop n body s = some st' ∧ Inv n st' := by
  induction n with
  | zero => exact ⟨s, rfl, h0⟩
  | succ n ih =>
    obtain ⟨st, hst, hinv⟩ := ih (fun k st hk => hstep k st (Nat.lt_succ_of_lt hk))
    obtain ⟨st', hb, hinv'⟩ := hstep n st (Nat.lt_succ_self n) hinv
    exact ⟨st', by rw [forLoop_succ, hst]; exact hb, hinv'⟩

theorem arraySet_length {α : Type} (a : List (Option α)) (k : Nat) (v : α) (h : k < a.length) :
    (arraySet a k v).length = a.length := by
  simp [arraySet, h]

theorem arraySet_getElem?_self {α : Type} (a : List (Option α)) (k : Nat) (v : α)
    (h : k < a.length) : (arraySet a k v)[k]? = some (some v) := by
  simp [arraySet, h]

theorem arraySet_getElem?_ne {α : Type} (a : List (Option α)) (k j : Nat) (v : α)
    (h : k < a.length) (hne : k ≠ j) : (arraySet a k v)[j]? = a[j]? := by
  simp [arraySet, h, List.getElem?_set_ne hne]

/-- The nested loop shared by the transforms: for every row `y < Y` and column
`x < X`, with `i` counting the iterations, the slot `dst y x i` of the new array
receives `g` of the cell `data[src y x i]`.  When every source index is in bounds
and the destinations are in bounds and pairwise different, the loop does not
throw, and afterwards each destination holds the image of its source cell. -/
theorem gridLoop_spec (cells : List Block) (Y X n : Nat) (src dst : Nat → Nat → Nat → Nat)
    (g : Block → Block)
    (hsrc : ∀ y x, y < Y → x < X → src y x (y * X + x) < cells.length)
    (hdst : ∀ y x, y < Y → x < X → dst y x (y * X + x) < n)
    (hinj : ∀ y x y' x', y < Y → x < X → y' < Y → x' < X →
      dst y x (y * X + x) = dst y' x' (y' * X + x') → y = y' ∧ x = x') :
    ∃ nd : List (Option Block),
      forLoop Y (fun y st =>
        forLoop X (fun x st =>
          match arrayGet (cells.map some) (src y x st.2) with
          | none => none
          | some b => some (arraySet st.1 (dst y x st.2) (g b), st.2 + 1)) st)
        (newArray n, 0) = some (nd, Y * X) ∧
      nd.length = n ∧
      ∀ y x, y < Y → x < X →
        nd[dst y x (y * X + x)]? = some ((cells[src y x (y * X + x)]?).map g) := by
  have outer := forLoop_invariant
    (fun y (st : List (Option Block) × Nat) => st.2 = y * X ∧ st.1.length = n ∧
      ∀ y' x', y' < y → x' < X →
        st.1[dst y' x' (y' * X + x')]? = some ((cells[src y' x' (y' * X + x')]?).map g))
    Y
    (fun y st =>
        forLoop X (fun x st =>
          match arrayGet (cells.map some) (src y x st.2) with
          | none => none
          | some b => some (arraySet st.1 (dst y x st.2) (g b), st.2 + 1)) st)
    (newArray n, 0)
    ⟨by simp, by simp [newArray], fun y' x' hy' _ => absurd hy' (Nat.not_lt_zero _)⟩
    (by
      intro y st hy ⟨hi, hl, hprev⟩
      have inner := forLoop_invariant
        (fun x (st : List (Option Block) × Nat) => st.2 = y * X + x ∧ st.1.length = n ∧
          ∀ y' x', (y' < y ∧ x' < X) ∨ (y' = y ∧ x' < x) →
            st.1[dst y' x' (y' * X + x')]? = some ((cells[src y' x' (y' * X + x')]?).map g))
        X
        (fun x st =>
          match arrayGet (cells.map some) (src y x st.2) with
          | none => none
          | some b => some (arraySet st.1 (dst y x st.2) (g b), st.2 + 1))
        st
        ⟨by simpa using hi, hl, by
          intro y' x' h
          rcases h with ⟨h1, h2⟩ | ⟨_, h2⟩
          · exact hprev y' x' h1 h2
          · exact absurd h2 (Nat.not_lt_zero _)⟩
        (by
          intro x st hx ⟨hi, hl, hprev⟩
          have hs := hsrc y x hy hx
          have hd := hdst y x hy hx
          rw [← hi] at hs hd
          refine ⟨(arraySet st.1 (dst y x st.2) (g cells[src y x st.2]), st.2 + 1), ?_, ?_, ?_, ?_⟩
          · simp only [arrayGet_map_some, List.getElem?_eq_getElem hs]
          · simp only [hi]; omega
          · simp only
            rw [arraySet_length _ _ _ (by omega), hl]
          · intro y' x' h
            simp only
            by_cases hsame : y' = y ∧ x' = x
            · obtain ⟨rfl, rfl⟩ := hsame
              rw [← hi, arraySet_getElem?_self _ _ _ (by omega), List.getElem?_eq_getElem hs]
              rfl
            · have hy' : y' < Y := by rcases h with ⟨h1, _⟩ | ⟨h1, _⟩ <;> omega
              have hx' : x' < X := by rcases h with ⟨_, h2⟩ | ⟨_, h2⟩ <;> omega
              have hne : dst y x st.2 ≠ dst y' x' (y' * X + x') := by
                intro heq
                rw [hi] at heq
                obtain ⟨e1, e2⟩ := hinj y x y' x' hy hx hy' hx' heq
                exact hsame ⟨e1.symm, e2.symm⟩
              rw [arraySet_getElem?_ne _ _ _ _ (by omega) hne]
              apply hprev
              rcases h with ⟨h1, h2⟩ | ⟨h1, h2⟩
              · exact Or.inl ⟨h1, h2⟩
              · refine Or.inr ⟨h1, ?_⟩
                rcases Nat.lt_succ_iff_lt_or_eq.mp h2 with h3 | h3
                · exact h3
                · exact absurd ⟨h1, h3⟩ hsame)
      obtain ⟨st', hst', hi', hl', hall⟩ := inner
      refine ⟨st', hst', ?_, hl', ?_⟩
      · rw [hi']; ring
      · intro y' x' hy' hx'
        apply hall
        rcases Nat.lt_succ_iff_lt_or_eq.mp hy' with h | h
        · exact Or.inl ⟨h, hx'⟩
        · exact Or.inr ⟨h, hx'⟩)
  obtain ⟨⟨nd, i⟩, hst, hi, hl, hall⟩ := outer
  simp only at hi hl hall
  subst hi
  exact ⟨nd, hst, hl, hall⟩


theorem all_defined {α : Type} (nd : List (Option α))
    (h : ∀ k, k < nd.length → ∃ b, nd[k]? = some (some b)) :
    ∃ cells : List α, nd = cells.map some := by
  induction nd with
  | nil => exact ⟨[], rfl⟩
  | cons o nd ih =>
    obtain ⟨b, hb⟩ := h 0 (by simp)
    obtain ⟨cells, hc⟩ := ih (fun k hk => by
      have := h (k + 1) (by simpa using hk)
      simpa using this)
    simp only [List.getElem?_cons_zero, Option.some.injEq] at hb
    exact ⟨b :: cells, by simp [hb, hc]⟩

/-- The nested loop on a grid whose destinations cover every slot: the new array
has a cell in every slot. -/
theorem gridLoop_cells (cells : List Block) (Y X n : Nat) (src dst : Nat → Nat → Nat → Nat)
    (g : Block → Block)
    (hsrc : ∀ y x, y < Y → x < X → src y x (y * X + x) < cells.length)
    (hdst : ∀ y x, y < Y → x < X → dst y x (y * X + x) < n)
    (hinj : ∀ y x y' x', y < Y → x < X → y' < Y → x' < X →
      dst y x (y * X + x) = dst y' x' (y' * X + x') → y = y' ∧ x = x')
    (hsurj : ∀ k, k < n → ∃ y x, y < Y ∧ x < X ∧ dst y x (y * X + x) = k) :
    ∃ cells' : List Block,
      forLoop Y (fun y st =>
        forLoop X (fun x st =>
          match arrayGet (cells.map some) (src y x st.2) with
          | none => none
          | some b => some (arraySet st.1 (dst y x st.2) (g b), st.2 + 1)) st)
        (newArray n, 0) = some (cells'.map some, Y * X) ∧
      cells'.length = n ∧
      ∀ y x, y < Y → x < X →
        cells'[dst y x (y * X + x)]? = (cells[src y x (y * X + x)]?).map g := by
  obtain ⟨nd, hloop, hl, hall⟩ := gridLoop_spec cells Y X n src dst g hsrc hdst hinj
  obtain ⟨cells', hc⟩ := all_defined nd (by
    intro k hk
    obtain ⟨y, x, hy, hx, hk'⟩ := hsurj k (hl ▸ hk)
    have hs := hsrc y x hy hx
    refine ⟨g cells[src y x (y * X + x)], ?_⟩
    rw [← hk', hall y x hy hx, List.getElem?_eq_getElem hs]
    rfl)
  subst hc
  refine ⟨cells', hloop, by simpa using hl, ?_⟩
  intro y x hy hx
  have := hall y x hy hx
  rw [List.getElem?_map] at this
  cases hq : cells'[dst y x (y * X + x)]? with
  | none => rw [hq] at this; simp at this
  | some b =>
    rw [hq] at this
    simp only [Option.map_some', Option.some.injEq] at this
    exact this

theorem grid_index_lt (C R y a : Nat) (hy : y < R) (ha : a < C) : C * y + a < C * R := by
  have h1 : C * (y + 1) ≤ C * R := Nat.mul_le_mul_left C hy
  rw [Nat.mul_succ] at h1
  omega

theorem grid_index_inj (C y a y' a' : Nat) (ha : a < C) (ha' : a' < C)
    (h : C * y + a = C * y' + a') : y = y' ∧ a = a' := by
  have hC : 0 < C := by omega
  have h1 : (C * y + a) / C = y := by
    rw [Nat.mul_add_div hC, Nat.div_eq_of_lt ha, Nat.add_zero]
  have h2 : (C * y' + a') / C = y' := by
    rw [Nat.mul_add_div hC, Nat.div_eq_of_lt ha', Nat.add_zero]
  have hy : y = y' := by rw [← h1, ← h2, h]
  subst hy
  exact ⟨rfl, by omega⟩

theorem grid_index_surj (C R k : Nat) (hk : k < C * R) :
    k / C < R ∧ k % C < C ∧ C * (k / C) + k % C = k := by
  have hC : 0 < C := by
    rcases Nat.eq_zero_or_pos C with h | h
    · subst h; simp at hk
    · exact h
  exact ⟨Nat.div_lt_of_lt_mul hk, Nat.mod_lt _ hC, Nat.div_add_mod k C⟩

/-- Two grids of `R` rows and `C` columns that agree at every column and row are equal. -/
theorem grid_ext {α : Type} (C R : Nat) (l1 l2 : List α) (h1 : l1.length = C * R)
    (h2 : l2.length = C * R)
    (h : ∀ x y, x < C → y < R → l1[cellIndex C x y]? = l2[cellIndex C x y]?) : l1 = l2 := by
  apply List.ext_getElem?
  intro k
  by_cases hk : k < C * R
  · obtain ⟨hy, hx, hk'⟩ := grid_index_surj C R k hk
    have := h (k % C) (k / C) hx hy
    unfold cellIndex at this
    rw [Nat.mul_comm, hk'] at this
    exact this
  · rw [List.getElem?_eq_none (by omega), List.getElem?_eq_none (by omega)]

/-! ## Lemmas on the transforms -/

/-- The cells of `flip_x(d)`: column `x` of every row holds the cell of column
`columns - 1 - x` of that row, its code mapped by `flip_code_x`. -/
theorem flip_x_cells (d : Doc) (cells : List Block) (h : d.data = some (cells.map some))
    (hlen : cells.length = d.columns * d.rows) :
    ∃ cells' : List Block, flip_x d = some { d with data := some (cells'.map some) } ∧
      cells'.length = cells.length ∧
      ∀ x y, x < d.columns → y < d.rows →
        cells'[cellIndex d.columns x y]? =
          (cells[cellIndex d.columns (d.columns - 1 - x) y]?).map
            (fun b => { b with code := b.code.map flip_code_x }) := by
  obtain ⟨cells', hloop, hl, hall⟩ := gridLoop_cells cells d.rows d.columns cells.length
    (fun _ _ i => i) (fun y x _ => d.columns * y + d.columns - 1 - x)
    (fun b => { b with code := b.code.map flip_code_x })
    (by
      intro y x hy hx
      have := grid_index_lt d.columns d.rows y x hy hx
      have := Nat.mul_comm d.columns y
      simp only; omega)
    (by
      intro y x hy hx
      have := grid_index_lt d.columns d.rows y (d.columns - 1 - x) hy (by omega)
      simp only; omega)
    (by
      intro y x y' x' hy hx hy' hx' heq
      simp only at heq
      have := grid_index_inj d.columns y (d.columns - 1 - x) y' (d.columns - 1 - x')
        (by omega) (by omega) (by omega)
      omega)
    (by
      intro k hk
      rw [hlen] at hk
      obtain ⟨hy, hx, hk'⟩ := grid_index_surj d.columns d.rows k hk
      exact ⟨k / d.columns, d.columns - 1 - k % d.columns, hy, by omega, by simp only; omega⟩)
  refine ⟨cells', ?_, hl, ?_⟩
  · unfold flip_x
    rw [h]
    simp only [List.length_map]
    rw [hloop]
    rfl
  · intro x y hx hy
    have := hall y (d.columns - 1 - x) hy (by omega)
    simp only at this
    have e1 : d.columns * y + d.columns - 1 - (d.columns - 1 - x) = cellIndex d.columns x y := by
      unfold cellIndex
      have := Nat.mul_comm d.columns y
      omega
    rw [e1] at this
    exact this


/-- The cells of `flip_y(d)`: row `y` of every column holds the cell of row
`rows - 1 - y` of that column, its code mapped by `flip_code_y`. -/
theorem flip_y_cells (d : Doc) (cells : List Block) (h : d.data = some (cells.map some))
    (hlen : cells.length = d.columns * d.rows) :
    ∃ cells' : List Block, flip_y d = some { d with data := some (cells'.map some) } ∧
      cells'.length = cells.length ∧
      ∀ x y, x < d.columns → y < d.rows →
        cells'[cellIndex d.columns x y]? =
          (cells[cellIndex d.columns x (d.rows - 1 - y)]?).map
            (fun b => { b with code := b.code.map flip_code_y }) := by
  obtain ⟨cells', hloop, hl, hall⟩ := gridLoop_cells cells d.rows d.columns cells.length
    (fun _ _ i => i) (fun y x _ => d.columns * (d.rows - 1 - y) + x)
    (fun b => { b with code := b.code.map flip_code_y })
    (by
      intro y x hy hx
      have := grid_index_lt d.columns d.rows y x hy hx
      have := Nat.mul_comm d.columns y
      simp only; omega)
    (by
      intro y x hy hx
      have := grid_index_lt d.columns d.rows (d.rows - 1 - y) x (by omega) hx
      simp only; omega)
    (by
      intro y x y' x' hy hx hy' hx' heq
      simp only at heq
      have := grid_index_inj d.columns (d.rows - 1 - y) x (d.rows - 1 - y') x' hx hx' heq
      omega)
    (by
      intro k hk
      rw [hlen] at hk
      obtain ⟨hy, hx, hk'⟩ := grid_index_surj d.columns d.rows k hk
      have aux : ∀ q, q < d.rows → d.rows - 1 - q < d.rows ∧ d.rows - 1 - (d.rows - 1 - q) = q :=
        fun q hq => by omega
      obtain ⟨a1, a2⟩ := aux _ hy
      refine ⟨d.rows - 1 - k / d.columns, k % d.columns, a1, hx, ?_⟩
      simp only [a2]
      exact hk')
  refine ⟨cells', ?_, hl, ?_⟩
  · unfold flip_y
    rw [h]
    simp only [List.length_map]
    rw [hloop]
    rfl
  · intro x y hx hy
    have := hall (d.rows - 1 - y) x (by omega) hx
    simp only at this
    have e : d.rows - 1 - (d.rows - 1 - y) = y := by omega
    rw [e, Nat.mul_comm] at this
    exact this

/-- The cells of `rotate(d)`: column `x`, row `y` of the new grid, which has
`rows` columns, holds the cell of column `y`, row `rows - 1 - x` of `d`, its code
mapped by `rotate_code`. -/
theorem rotate_cells (d : Doc) (cells : List Block) (h : d.data = some (cells.map some))
    (hlen : cells.length = d.columns * d.rows) :
    ∃ cells' : List Block,
      rotate d = some { d with data := some (cells'.map some), columns := d.rows,
                               rows := d.columns } ∧
      cells'.length = cells.length ∧
      ∀ x y, x < d.rows → y < d.columns →
        cells'[cellIndex d.rows x y]? =
          (cells[cellIndex d.columns y (d.rows - 1 - x)]?).map
            (fun b => { b with code := b.code.map rotate_code }) := by
  obtain ⟨cells', hloop, hl, hall⟩ := gridLoop_cells cells d.columns d.rows cells.length
    (fun y x _ => (d.rows - 1 - x) * d.columns + y) (fun _ _ i => i)
    (fun b => { b with code := b.code.map rotate_code })
    (by
      intro y x hy hx
      have := grid_index_lt d.columns d.rows (d.rows - 1 - x) y (by omega) hy
      have := Nat.mul_comm d.columns (d.rows - 1 - x)
      simp only; omega)
    (by
      intro y x hy hx
      have := grid_index_lt d.rows d.columns y x hy hx
      have := Nat.mul_comm d.rows y
      have := Nat.mul_comm d.rows d.columns
      simp only; omega)
    (by
      intro y x y' x' hy hx hy' hx' heq
      simp only at heq
      rw [Nat.mul_comm y, Nat.mul_comm y'] at heq
      exact grid_index_inj d.rows y x y' x' hx hx' heq)
    (by
      intro k hk
      rw [hlen, Nat.mul_comm] at hk
      obtain ⟨hy, hx, hk'⟩ := grid_index_surj d.rows d.columns k hk
      refine ⟨k / d.rows, k % d.rows, hy, hx, ?_⟩
      rw [Nat.mul_comm]
      exact hk')
  refine ⟨cells', ?_, hl, ?_⟩
  · unfold rotate
    rw [h]
    simp only [List.length_map]
    rw [hloop]
    rfl
  · intro x y hx hy
    exact hall y x hy hx

theorem flip_code_x_unlisted (c : Nat) (h : 256 ≤ c) : flip_code_x c = c := by
  unfold flip_code_x
  split <;> first | rfl | omega

set_option maxRecDepth 100000 in
theorem flip_code_x_twice_byte : ∀ c < 256, flip_code_x (flip_code_x c) = c := by
  decide

theorem flip_code_x_twice (c : Nat) : flip_code_x (flip_code_x c) = c := by
  rcases Nat.lt_or_ge c 256 with h | h
  · exact flip_code_x_twice_byte c h
  · rw [flip_code_x_unlisted c h, flip_code_x_unlisted c h]

theorem flip_code_y_unlisted (c : Nat) (h : 256 ≤ c) : flip_code_y c = c := by
  unfold flip_code_y
  split <;> first | rfl | omega

set_option maxRecDepth 100000 in
theorem flip_code_y_twice_byte : ∀ c < 256, flip_code_y (flip_code_y c) = c := by
  decide

theorem flip_code_y_twice (c : Nat) : flip_code_y (flip_code_y c) = c := by
  rcases Nat.lt_or_ge c 256 with h | h
  · exact flip_code_y_twice_byte c h
  · rw [flip_code_y_unlisted c h, flip_code_y_unlisted c h]

theorem map_code_twice (f : Nat → Nat) (hf : ∀ c, f (f c) = c) (o : Option Block) :
    (o.map (fun b => { b with code := b.code.map f })).map
      (fun b => { b with code := b.code.map f }) = o := by
  cases o with
  | none => rfl
  | some b =>
    cases b with
    | mk code fg bg fg_rgb bg_rgb =>
      cases code with
      | none => rfl
      | some c => simp [hf]

/-! ## Geometry transforms: the claims -/

/-- C7: for every well-formed Document (`data.length == columns * rows`),
`flip_x(flip_x(d)).data` equals `d.data`, and `flip_code_x` is self-inverse on
every code. -/
theorem flip_x_involutive (d : Doc) (cells : List Block) (h : d.data = some (cells.map some))
    (hlen : cells.length = d.columns * d.rows) :
    (∃ d1 d2, flip_x d = some d1 ∧ flip_x d1 = some d2 ∧ d2.data = d.data) ∧
    ∀ c, flip_code_x (flip_code_x c) = c := by
  refine ⟨?_, flip_code_x_twice⟩
  obtain ⟨c1, h1, l1, p1⟩ := flip_x_cells d cells h hlen
  obtain ⟨c2, h2, l2, p2⟩ := flip_x_cells { d with data := some (c1.map some) } c1 rfl
    (by rw [l1, hlen])
  refine ⟨_, _, h1, h2, ?_⟩
  have e : c2 = cells := by
    apply grid_ext d.columns d.rows c2 cells (by rw [l2, l1, hlen]) hlen
    intro x y hx hy
    have q2 := p2 x y hx hy
    have q1 := p1 (d.columns - 1 - x) y (by omega) hy
    have e : d.columns - 1 - (d.columns - 1 - x) = x := by omega
    simp only at q2
    rw [q2, q1, e]
    exact map_code_twice flip_code_x flip_code_x_twice _
  rw [h, e]

/-- Witness of C7 on a 3 x 2 Document. -/
theorem flip_x_involutive_witness :
    (documentOf 3 2 sampleCells).data = some (sampleCells.map some) ∧
    sampleCells.length = (documentOf 3 2 sampleCells).columns * (documentOf 3 2 sampleCells).rows ∧
    (∃ d1 d2, flip_x (documentOf 3 2 sampleCells) = some d1 ∧ flip_x d1 = some d2 ∧
      d2.data = (documentOf 3 2 sampleCells).data) ∧
    ∀ c, flip_code_x (flip_code_x c) = c :=
  ⟨rfl, rfl, flip_x_involutive (documentOf 3 2 sampleCells) sampleCells rfl rfl⟩

/-- C8: for every well-formed Document (`data.length == columns * rows`),
`flip_y(flip_y(d)).data` equals `d.data`, and `flip_code_y` is self-inverse on
every code. -/
theorem flip_y_involutive (d : Doc) (cells : List Block) (h : d.data = some (cells.map some))
    (hlen : cells.length = d.columns * d.rows) :
    (∃ d1 d2, flip_y d = some d1 ∧ flip_y d1 = some d2 ∧ d2.data = d.data) ∧
    ∀ c, flip_code_y (flip_code_y c) = c := by
  refine ⟨?_, flip_code_y_twice⟩
  obtain ⟨c1, h1, l1, p1⟩ := flip_y_cells d cells h hlen
  obtain ⟨c2, h2, l2, p2⟩ := flip_y_cells { d with data := some (c1.map some) } c1 rfl
    (by rw [l1, hlen])
  refine ⟨_, _, h1, h2, ?_⟩
  have e : c2 = cells := by
    apply grid_ext d.columns d.rows c2 cells (by rw [l2, l1, hlen]) hlen
    intro x y hx hy
    have q2 := p2 x y hx hy
    have q1 := p1 x (d.rows - 1 - y) hx (by omega)
    have e : d.rows - 1 - (d.rows - 1 - y) = y := by omega
    simp only at q2
    rw [q2, q1, e]
    exact map_code_twice flip_code_y flip_code_y_twice _
  rw [h, e]

/-- Witness of C8 on a 3 x 2 Document. -/
theorem flip_y_involutive_witness :
    (documentOf 3 2 sampleCells).data = some (sampleCells.map some) ∧
    sampleCells.length = (documentOf 3 2 sampleCells).columns * (documentOf 3 2 sampleCells).rows ∧
    (∃ d1 d2, flip_y (documentOf 3 2 sampleCells) = some d1 ∧ flip_y d1 = some d2 ∧
      d2.data = (documentOf 3 2 sampleCells).data) ∧
    ∀ c, flip_code_y (flip_code_y c) = c :=
  ⟨rfl, rfl, flip_y_involutive (documentOf 3 2 sampleCells) sampleCells rfl rfl⟩

/-- C9 fails on the code: four applications of `rotate` to the 1 x 1 Document
whose cell has code 187 return a Document whose cell has code 188, because
`rotate_code` sends 187 to 188 and leaves 188 where it is; 187 is the only code
in 0..255 that four applications of `rotate_code` do not bring back. -/
theorem rotate_four_times_code_187 :
    (((rotate (documentOf 1 1 [plainCell 187 7 0])).bind rotate).bind rotate).bind rotate
      = some (documentOf 1 1 [plainCell 188 7 0]) ∧
    rotate_code (rotate_code (rotate_code (rotate_code 187))) = 188 ∧
    (List.range 256).filter
      (fun c => rotate_code (rotate_code (rotate_code (rotate_code c))) != c) = [187] := by
  decide

/-- C10: for every well-formed Document with `R` rows and `C` columns, `rotate(d)`
has `R` columns and `C` rows, and for `x < R`, `y < C` its cell at column `x`,
row `y` is the cell of `d` at column `y`, row `R - 1 - x` with the code replaced by
`rotate_code(code)` and everything else unchanged; the top-left cell of `d` lands
in the top-right corner. -/
theorem rotate_quarter_turn (d : Doc) (cells : List Block) (h : d.data = some (cells.map some))
    (hlen : cells.length = d.columns * d.rows) :
    ∃ (d' : Doc) (cells' : List Block), rotate d = some d' ∧ d'.columns = d.rows ∧ d'.rows = d.columns ∧
      d'.data = some (cells'.map some) ∧ cells'.length = d'.columns * d'.rows ∧
      (∀ x y, x < d.rows → y < d.columns →
        ∃ b, cells[cellIndex d.columns y (d.rows - 1 - x)]? = some b ∧
          cells'[cellIndex d.rows x y]? = some { b with code := b.code.map rotate_code }) ∧
      (0 < d.rows → 0 < d.columns →
        ∃ b, cells[cellIndex d.columns 0 0]? = some b ∧
          cells'[cellIndex d.rows (d.rows - 1) 0]? =
            some { b with code := b.code.map rotate_code }) := by
  obtain ⟨cells', hr, hl, hp⟩ := rotate_cells d cells h hlen
  have key : ∀ x y, x < d.rows → y < d.columns →
      ∃ b, cells[cellIndex d.columns y (d.rows - 1 - x)]? = some b ∧
        cells'[cellIndex d.rows x y]? = some { b with code := b.code.map rotate_code } := by
    intro x y hx hy
    have hlt : cellIndex d.columns y (d.rows - 1 - x) < cells.length := by
      have := grid_index_lt d.columns d.rows (d.rows - 1 - x) y (by omega) hy
      have := Nat.mul_comm d.columns (d.rows - 1 - x)
      unfold cellIndex
      omega
    refine ⟨cells[cellIndex d.columns y (d.rows - 1 - x)], List.getElem?_eq_getElem hlt, ?_⟩
    rw [hp x y hx hy, List.getElem?_eq_getElem hlt]
    rfl
  refine ⟨_, cells', hr, rfl, rfl, rfl, ?_, key, ?_⟩
  · simp only
    rw [hl, hlen, Nat.mul_comm]
  · intro hR hC
    have := key (d.rows - 1) 0 (by omega) hC
    have e : d.rows - 1 - (d.rows - 1) = 0 := by omega
    rw [e] at this
    exact this

/-- Witness of C10 on a 3 x 2 Document. -/
theorem rotate_quarter_turn_witness :
    (documentOf 3 2 sampleCells).data = some (sampleCells.map some) ∧
    sampleCells.length = (documentOf 3 2 sampleCells).columns * (documentOf 3 2 sampleCells).rows ∧
    ∃ (d' : Doc) (cells' : List Block), rotate (documentOf 3 2 sampleCells) = some d' ∧ d'.columns = 2 ∧ d'.rows = 3 ∧
      d'.data = some (cells'.map some) ∧ cells'.length = d'.columns * d'.rows ∧
      (∀ x y, x < 2 → y < 3 →
        ∃ b, sampleCells[cellIndex 3 y (2 - 1 - x)]? = some b ∧
          cells'[cellIndex 2 x y]? = some { b with code := b.code.map rotate_code }) ∧
      (0 < 2 → 0 < 3 →
        ∃ b, sampleCells[cellIndex 3 0 0]? = some b ∧
          cells'[cellIndex 2 (2 - 1) 0]? = some { b with code := b.code.map rotate_code }) :=
  ⟨rfl, rfl, rotate_quarter_turn (documentOf 3 2 sampleCells) sampleCells rfl rfl⟩


/-! ## Lemmas on `resize_canvas` -/

theorem arrayPut_length {α : Type} (a : List (Option α)) (k : Nat) (v : Option α)
    (h : k < a.length) : (arrayPut a k v).length = a.length := by
  simp [arrayPut, h]

theorem arrayPut_getElem?_self {α : Type} (a : List (Option α)) (k : Nat) (v : Option α)
    (h : k < a.length) : (arrayPut a k v)[k]? = some v := by
  simp [arrayPut, h]

theorem arrayPut_getElem?_ne {α : Type} (a : List (Option α)) (k j : Nat) (v : Option α)
    (h : k < a.length) (hne : k ≠ j) : (arrayPut a k v)[j]? = a[j]? := by
  simp [arrayPut, h, List.getElem?_set_ne hne]

/-- The first loop of `resize_canvas` fills every slot. -/
theorem fill_loop {α : Type} (n : Nat) (b : α) :
    forLoop n (fun i new_data => some (arraySet new_data i b)) (newArray n)
      = some (List.replicate n (some b)) := by
  obtain ⟨nd, hnd, hl, hall⟩ := forLoop_invariant
    (fun k (nd : List (Option α)) => nd.length = n ∧
      ∀ j, j < n → nd[j]? = some (if j < k then some b else none))
    n (fun i new_data => some (arraySet new_data i b)) (newArray n)
    ⟨by simp [newArray], fun j hj => by simp [newArray, hj]⟩
    (by
      intro k st hk ⟨hl, hall⟩
      refine ⟨_, rfl, ?_, ?_⟩
      · rw [arraySet_length _ _ _ (by omega), hl]
      · intro j hj
        by_cases hjk : j = k
        · subst hjk
          rw [arraySet_getElem?_self _ _ _ (by omega)]
          simp
        · rw [arraySet_getElem?_ne _ _ _ _ (by omega) (fun h => hjk h.symm), hall j hj]
          have : (j < k + 1) = (j < k) := by
            apply propext
            omega
          simp only [this])
  rw [hnd]
  congr 1
  apply List.ext_getElem?
  intro j
  by_cases hj : j < n
  · rw [hall j hj]
    simp [hj]
  · rw [List.getElem?_eq_none (by omega), List.getElem?_eq_none (by simp; omega)]

/-- The cells of the document `resize_canvas` leaves: the given size, the cells of
the overlapping top-left rectangle copied, blank cells elsewhere. -/
theorem resize_canvas_cells (d : Doc) (cells : List Block) (columns rows : Nat)
    (h : d.data = some (cells.map some)) (hlen : cells.length = d.columns * d.rows) :
    ∃ cells' : List Block,
      resize_canvas d columns rows
        = some { d with data := some (cells'.map some), columns := columns, rows := rows } ∧
      cells'.length = columns * rows ∧
      ∀ x y, x < columns → y < rows →
        cells'[cellIndex columns x y]? =
          if x < min d.columns columns ∧ y < min d.rows rows
          then cells[cellIndex d.columns x y]? else some blankCell := by
  have hsrc : ∀ x y, x < min d.columns columns → y < min d.rows rows →
      y * d.columns + x < cells.length := by
    intro x y hx hy
    have := grid_index_lt d.columns d.rows y x (by omega) (by omega)
    have := Nat.mul_comm d.columns y
    omega
  have hdst : ∀ x y, x < columns → y < rows → y * columns + x < columns * rows := by
    intro x y hx hy
    have := grid_index_lt columns rows y x hy hx
    have := Nat.mul_comm columns y
    omega
  have hinj : ∀ x y x' y', x < columns → x' < columns →
      y * columns + x = y' * columns + x' → y = y' ∧ x = x' := by
    intro x y x' y' hx hx' heq
    rw [Nat.mul_comm y, Nat.mul_comm y'] at heq
    exact grid_index_inj columns y x y' x' hx hx' heq
  obtain ⟨nd, hnd, hl, hall⟩ := forLoop_invariant
    (fun y (nd : List (Option Block)) => nd.length = columns * rows ∧
      ∀ x' y', x' < columns → y' < rows →
        nd[y' * columns + x']? = some
          (if x' < min d.columns columns ∧ y' < y
           then cells[y' * d.columns + x']? else some blankCell))
    (min d.rows rows)
    (fun y new_data =>
        forLoop (min d.columns columns) (fun x new_data =>
          match d.data with
          | none => none
          | some data =>
            some (arrayPut new_data (y * columns + x) (arrayGet data (y * d.columns + x))))
          new_data)
    (List.replicate (columns * rows) (some blankCell))
    ⟨by simp, fun x' y' hx' hy' => by simp [hdst x' y' hx' hy']⟩
    (by
      intro y st hy ⟨hl, hprev⟩
      obtain ⟨st', hst', hl', hall'⟩ := forLoop_invariant
        (fun x (nd : List (Option Block)) => nd.length = columns * rows ∧
          ∀ x' y', x' < columns → y' < rows →
            nd[y' * columns + x']? = some
              (if x' < min d.columns columns ∧ (y' < y ∨ (y' = y ∧ x' < x))
               then cells[y' * d.columns + x']? else some blankCell))
        (min d.columns columns)
        (fun x new_data =>
          match d.data with
          | none => none
          | some data =>
            some (arrayPut new_data (y * columns + x) (arrayGet data (y * d.columns + x))))
        st
        ⟨hl, fun x' y' hx' hy' => by
          rw [hprev x' y' hx' hy']
          have : (x' < min d.columns columns ∧ (y' < y ∨ (y' = y ∧ x' < 0)))
              = (x' < min d.columns columns ∧ y' < y) := by
            apply propext
            omega
          simp only [this]⟩
        (by
          intro x st hx ⟨hl, hprev⟩
          have hd := hdst x y (by omega) (by omega)
          refine ⟨_, by rw [h], ?_, ?_⟩
          · rw [arrayPut_length _ _ _ (by omega), hl]
          · intro x' y' hx' hy'
            by_cases hsame : y' = y ∧ x' = x
            · obtain ⟨rfl, rfl⟩ := hsame
              rw [arrayPut_getElem?_self _ _ _ (by omega), arrayGet_map_some]
              have : (x' < min d.columns columns ∧ (y' < y' ∨ (y' = y' ∧ x' < x' + 1))) := by
                omega
              rw [if_pos this]
            · have hne : y * columns + x ≠ y' * columns + x' := by
                intro heq
                obtain ⟨e1, e2⟩ := hinj x y x' y' (by omega) hx' heq
                exact hsame ⟨e1.symm, e2.symm⟩
              rw [arrayPut_getElem?_ne _ _ _ _ (by omega) hne, hprev x' y' hx' hy']
              have : (x' < min d.columns columns ∧ (y' < y ∨ (y' = y ∧ x' < x + 1)))
                  = (x' < min d.columns columns ∧ (y' < y ∨ (y' = y ∧ x' < x))) := by
                apply propext
                omega
              simp only [this])
      refine ⟨st', hst', hl', ?_⟩
      intro x' y' hx' hy'
      rw [hall' x' y' hx' hy']
      have : (x' < min d.columns columns ∧ (y' < y ∨ (y' = y ∧ x' < min d.columns columns)))
          = (x' < min d.columns columns ∧ y' < y + 1) := by
        apply propext
        omega
      simp only [this])
  obtain ⟨cells', hc⟩ := all_defined nd (by
    intro k hk
    rw [hl] at hk
    obtain ⟨hy, hx, hk'⟩ := grid_index_surj columns rows k hk
    have := hall (k % columns) (k / columns) hx hy
    rw [Nat.mul_comm, hk'] at this
    rw [this]
    by_cases hp : k % columns < min d.columns columns ∧ k / columns < min d.rows rows
    · have hs := hsrc _ _ hp.1 hp.2
      rw [Nat.mul_comm] at hs
      simp only [hp, and_self, if_true]
      refine ⟨cells[d.columns * (k / columns) + k % columns], ?_⟩
      rw [Nat.mul_comm, List.getElem?_eq_getElem hs]
    · simp only [hp, if_false]
      exact ⟨blankCell, rfl⟩)
  subst hc
  refine ⟨cells', ?_, by simpa using hl, ?_⟩
  · unfold resize_canvas
    have hfill := fill_loop (columns * rows) blankCell
    unfold blankCell at hfill
    unfold blankCell at hnd
    dsimp only
    rw [hfill]
    simp only [Option.some_bind]
    rw [hnd]
    rfl
  · intro x y hx hy
    have := hall x y hx hy
    rw [List.getElem?_map] at this
    unfold cellIndex
    by_cases hp : x < min d.columns columns ∧ y < min d.rows rows
    · have hs := hsrc _ _ hp.1 hp.2
      simp only [hp, and_self, if_true] at this ⊢
      rw [List.getElem?_eq_getElem hs] at this ⊢
      cases hq : cells'[y * columns + x]? with
      | none => rw [hq] at this; simp at this
      | some b =>
        rw [hq] at this
        simp only [Option.map_some', Option.some.injEq] at this
        rw [this]
    · simp only [hp, if_false] at this ⊢
      cases hq : cells'[y * columns + x]? with
      | none => rw [hq] at this; simp at this
      | some b =>
        rw [hq] at this
        simp only [Option.map_some', Option.some.injEq] at this
        rw [this]

/-! ## Canvas resizing: the claims -/

/-- C11: for every well-formed Document and every `columns` and `rows` (those
`>= 1`, and zero as well), `resize_canvas` leaves a document with the new `columns` and `rows` and
`data.length == columns * rows` whose cell at `(x, y)` is the original cell at
`(x, y)` when `x < min(old columns, columns)` and `y < min(old rows, rows)`, and
the blank cell `{code: 32, fg: 7, bg: 0}` otherwise. -/
theorem resize_canvas_grid (d : Doc) (cells : List Block) (columns rows : Nat)
    (h : d.data = some (cells.map some)) (hlen : cells.length = d.columns * d.rows) :
    ∃ (d' : Doc) (cells' : List Block), resize_canvas d columns rows = some d' ∧
      d'.columns = columns ∧ d'.rows = rows ∧ d'.data = some (cells'.map some) ∧
      cells'.length = columns * rows ∧
      ∀ x y, x < columns → y < rows →
        (x < min d.columns columns ∧ y < min d.rows rows →
          ∃ b, cells[cellIndex d.columns x y]? = some b ∧
            cells'[cellIndex columns x y]? = some b) ∧
        (¬ (x < min d.columns columns ∧ y < min d.rows rows) →
          cells'[cellIndex columns x y]? = some blankCell) := by
  obtain ⟨cells', hres, hl, hp⟩ := resize_canvas_cells d cells columns rows h hlen
  refine ⟨_, cells', hres, rfl, rfl, rfl, hl, ?_⟩
  intro x y hx hy
  have hxy := hp x y hx hy
  constructor
  · intro hin
    rw [if_pos hin] at hxy
    have hlt : cellIndex d.columns x y < cells.length := by
      have := grid_index_lt d.columns d.rows y x (by omega) (by omega)
      have := Nat.mul_comm d.columns y
      unfold cellIndex
      omega
    exact ⟨cells[cellIndex d.columns x y], List.getElem?_eq_getElem hlt,
      by rw [hxy, List.getElem?_eq_getElem hlt]⟩
  · intro hout
    rw [if_neg hout] at hxy
    exact hxy

/-- Witness of C11: the 3 x 2 sample resized to 2 x 3. -/
theorem resize_canvas_grid_witness :
    (documentOf 3 2 sampleCells).data = some (sampleCells.map some) ∧
    sampleCells.length = (documentOf 3 2 sampleCells).columns * (documentOf 3 2 sampleCells).rows ∧
    ∃ (d' : Doc) (cells' : List Block),
      resize_canvas (documentOf 3 2 sampleCells) 2 3 = some d' ∧
      d'.columns = 2 ∧ d'.rows = 3 ∧ d'.data = some (cells'.map some) ∧
      cells'.length = 2 * 3 ∧
      ∀ x y, x < 2 → y < 3 →
        (x < min 3 2 ∧ y < min 2 3 →
          ∃ b, sampleCells[cellIndex 3 x y]? = some b ∧ cells'[cellIndex 2 x y]? = some b) ∧
        (¬ (x < min 3 2 ∧ y < min 2 3) → cells'[cellIndex 2 x y]? = some blankCell) :=
  ⟨rfl, rfl, resize_canvas_grid (documentOf 3 2 sampleCells) sampleCells 2 3 rfl rfl⟩

/-- C12: for every well-formed Document with `C` columns and `R` rows and every
`c <= C`, `r <= R` (those `>= 1`, and zero as well), resizing to `c x r` and then back to `C x R` gives a
`C x R` grid whose cell at `(x, y)` is the original cell when `x < c` and `y < r`
and the blank cell everywhere else. -/
theorem resize_down_and_back (d : Doc) (cells : List Block) (c r : Nat)
    (h : d.data = some (cells.map some)) (hlen : cells.length = d.columns * d.rows)
    (hc : c ≤ d.columns) (hr : r ≤ d.rows) :
    ∃ (d1 d2 : Doc) (cells2 : List Block),
      resize_canvas d c r = some d1 ∧ resize_canvas d1 d.columns d.rows = some d2 ∧
      d2.columns = d.columns ∧ d2.rows = d.rows ∧ d2.data = some (cells2.map some) ∧
      cells2.length = d.columns * d.rows ∧
      ∀ x y, x < d.columns → y < d.rows →
        cells2[cellIndex d.columns x y]? =
          if x < c ∧ y < r then cells[cellIndex d.columns x y]? else some blankCell := by
  obtain ⟨c1, hres1, hl1, hp1⟩ := resize_canvas_cells d cells c r h hlen
  obtain ⟨c2, hres2, hl2, hp2⟩ := resize_canvas_cells
    { d with data := some (c1.map some), columns := c, rows := r } c1 d.columns d.rows rfl hl1
  refine ⟨_, _, c2, hres1, hres2, rfl, rfl, rfl, hl2, ?_⟩
  intro x y hx hy
  have q2 := hp2 x y hx hy
  simp only at q2
  rw [q2]
  by_cases hin : x < c ∧ y < r
  · have q1 := hp1 x y hin.1 hin.2
    have e1 : (x < min c d.columns ∧ y < min r d.rows) := by omega
    have e2 : (x < min d.columns c ∧ y < min d.rows r) := by omega
    rw [if_pos e1, if_pos hin, q1, if_pos e2]
  · have e1 : ¬ (x < min c d.columns ∧ y < min r d.rows) := by omega
    rw [if_neg e1, if_neg hin]

/-- Witness of C12: 80 x 24 resized to 10 x 5 and back to 80 x 24. -/
theorem resize_down_and_back_witness :
    (documentOf 80 24 ((List.range 1920).map (fun i => plainCell (i % 256) 7 0))).data
      = some (((List.range 1920).map (fun i => plainCell (i % 256) 7 0)).map some) ∧
    ∃ (d1 d2 : Doc) (cells2 : List Block),
      resize_canvas (documentOf 80 24 ((List.range 1920).map (fun i => plainCell (i % 256) 7 0)))
        10 5 = some d1 ∧
      resize_canvas d1 80 24 = some d2 ∧
      d2.columns = 80 ∧ d2.rows = 24 ∧ d2.data = some (cells2.map some) ∧
      cells2.length = 80 * 24 ∧
      ∀ x y, x < 80 → y < 24 →
        cells2[cellIndex 80 x y]? =
          if x < 10 ∧ y < 5
          then ((List.range 1920).map (fun i => plainCell (i % 256) 7 0))[cellIndex 80 x y]?
          else some blankCell :=
  ⟨rfl, resize_down_and_back
    (documentOf 80 24 ((List.range 1920).map (fun i => plainCell (i % 256) 7 0)))
    ((List.range 1920).map (fun i => plainCell (i % 256) 7 0)) 10 5 rfl (by simp [documentOf])
    (by decide) (by decide)⟩

/-! ## Character-set tables: lemmas and claims -/

theorem cp437_roundtrip_byte :
    ∀ c < 256, 1 ≤ c → unicode_to_cp437 (cp437_to_unicode c) = c := by
  decide!

theorem unicode_cases_facts :
    ∀ p ∈ unicode_cases, 1 ≤ p.2 ∧ p.2 ≤ 255 ∧ (cp437_to_unicode p.2.toNat : Int) = p.1 ∧
      128 ≤ p.1 := by
  decide!

theorem lookup_mem {α β : Type} [BEq α] [LawfulBEq α] (l : List (α × β)) (k : α) (v : β)
    (h : l.lookup k = some v) : (k, v) ∈ l := by
  induction l with
  | nil => simp at h
  | cons p l ih =>
    obtain ⟨a, b⟩ := p
    rw [List.lookup_cons] at h
    by_cases hk : (k == a) = true
    · rw [hk] at h
      have hka : k = a := by simpa using hk
      simp only [Option.some.injEq] at h
      subst hka
      subst h
      exact List.mem_cons_self _ _
    · simp only [Bool.not_eq_true] at hk
      rw [hk] at h
      exact List.mem_cons_of_mem _ (ih h)

/-- C13: for every legacy code `1 <= c <= 255`, `unicode_to_cp437` of the code
point of `cp437_to_unicode(c)` is `c`, so `cp437_to_unicode` is injective on
1..255; code 0 maps to NBSP (U+00A0) like 255, and NBSP maps back to 255. -/
theorem cp437_unicode_roundtrip :
    (∀ c : Nat, 1 ≤ c → c ≤ 255 → unicode_to_cp437 (cp437_to_unicode c) = c) ∧
    (∀ c c' : Nat, 1 ≤ c → c ≤ 255 → 1 ≤ c' → c' ≤ 255 →
      cp437_to_unicode c = cp437_to_unicode c' → c = c') ∧
    cp437_to_unicode 0 = 0xA0 ∧ cp437_to_unicode 255 = 0xA0 ∧ unicode_to_cp437 0xA0 = 255 := by
  have key : ∀ c : Nat, 1 ≤ c → c ≤ 255 → unicode_to_cp437 (cp437_to_unicode c) = c :=
    fun c h1 h2 => cp437_roundtrip_byte c (by omega) h1
  refine ⟨key, ?_, by decide, by decide, by decide⟩
  intro c c' h1 h2 h1' h2' heq
  have e1 := key c h1 h2
  have e2 := key c' h1' h2'
  rw [heq, e2] at e1
  exact_mod_cast e1.symm

/-- Witness of C13 on the codes 1 and 219. -/
theorem cp437_unicode_roundtrip_witness :
    unicode_to_cp437 (cp437_to_unicode 219) = 219 ∧
    (cp437_to_unicode 1 = cp437_to_unicode 219 → 1 = 219) :=
  ⟨cp437_unicode_roundtrip.1 219 (by decide) (by decide),
   cp437_unicode_roundtrip.2.1 1 219 (by decide) (by decide) (by decide) (by decide)⟩

/-- C14: `unicode_to_cp437` is total with a result in 0..255; for every integer
`u` that is not the code point of `cp437_to_unicode(c)` for a `c` in 1..255 it
returns `u` when `0 <= u <= 127` and 0 otherwise; every `u` in 0..127 is a fixed
point. -/
theorem unicode_to_cp437_total :
    (∀ u : Int, 0 ≤ unicode_to_cp437 u ∧ unicode_to_cp437 u ≤ 255) ∧
    (∀ u : Int, (∀ c : Nat, 1 ≤ c → c ≤ 255 → (cp437_to_unicode c : Int) ≠ u) →
      unicode_to_cp437 u = if 0 ≤ u ∧ u ≤ 127 then u else 0) ∧
    (∀ u : Int, 0 ≤ u → u ≤ 127 → unicode_to_cp437 u = u) := by
  refine ⟨?_, ?_, ?_⟩
  · intro u
    unfold unicode_to_cp437
    cases hl : unicode_cases.lookup u with
    | some r =>
      obtain ⟨h1, h2, _, _⟩ := unicode_cases_facts _ (lookup_mem _ _ _ hl)
      simp only at h1 h2 ⊢
      omega
    | none =>
      simp only
      split <;> omega
  · intro u hu
    unfold unicode_to_cp437
    cases hl : unicode_cases.lookup u with
    | some r =>
      obtain ⟨h1, h2, h3, _⟩ := unicode_cases_facts _ (lookup_mem _ _ _ hl)
      simp only at h1 h2 h3
      exact absurd h3 (hu r.toNat (by omega) (by omega))
    | none =>
      simp only [ge_iff_le]
  · intro u h0 h1
    unfold unicode_to_cp437
    cases hl : unicode_cases.lookup u with
    | some r =>
      obtain ⟨_, _, _, h4⟩ := unicode_cases_facts _ (lookup_mem _ _ _ hl)
      simp only at h4
      omega
    | none =>
      simp only
      rw [if_pos ⟨h0, h1⟩]

/-- Witness of C14 on the integers 65, 300 and -5. -/
theorem unicode_to_cp437_total_witness :
    (0 ≤ unicode_to_cp437 (-5) ∧ unicode_to_cp437 (-5) ≤ 255) ∧
    unicode_to_cp437 65 = 65 ∧
    (0 ≤ unicode_to_cp437 300 ∧ unicode_to_cp437 300 ≤ 255) :=
  ⟨unicode_to_cp437_total.1 (-5), unicode_to_cp437_total.2.2 65 (by decide) (by decide),
   unicode_to_cp437_total.1 300⟩

/-! ## Lemmas on typed arrays, strings and 32-bit operators -/

theorem forEach_succ {σ : Type} (n : Nat) (body : Nat → σ → σ) (s : σ) :
    forEach (n + 1) body s = body n (forEach n body s) := by
  simp [forEach, List.range_succ, List.foldl_append]

theorem uint8Store_length (bytes : List Int) (k : Nat) (v : Int) :
    (uint8Store bytes k v).length = bytes.length := by
  unfold uint8Store
  split <;> simp

theorem uint8Store_getElem? (bytes : List Int) (k j : Nat) (v : Int) :
    (uint8Store bytes k v)[j]? =
      if j = k ∧ k < bytes.length then some (toUint8 v) else bytes[j]? := by
  unfold uint8Store
  by_cases hk : k < bytes.length
  · rw [if_pos hk]
    by_cases hj : j = k
    · subst hj
      simp [hk]
    · rw [List.getElem?_set_ne (fun h => hj h.symm)]
      simp [hj]
  · rw [if_neg hk]
    simp [hk]

theorem add_text_length (bytes : List Int) (pos : Nat) (text : List Nat) (max_length : Nat) :
    (add_text bytes pos text max_length).length = bytes.length := by
  unfold add_text
  induction max_length with
  | zero => rfl
  | succ m ih =>
    rw [forEach_succ]
    split <;> rw [uint8Store_length, ih]

/-- The elements after `add_text`: the field from `pos` on holds the text padded
with spaces, the rest is unchanged. -/
theorem add_text_getElem? (bytes : List Int) (pos : Nat) (text : List Nat)
    (max_length j : Nat) :
    (add_text bytes pos text max_length)[j]? =
      if pos ≤ j ∧ j < pos + max_length ∧ j < bytes.length
      then some (fieldByte text (j - pos)) else bytes[j]? := by
  induction max_length with
  | zero =>
    have : ¬ (pos ≤ j ∧ j < pos + 0 ∧ j < bytes.length) := by omega
    rw [if_neg this]
    rfl
  | succ m ih =>
    have hstep : add_text bytes pos text (m + 1) =
        uint8Store (add_text bytes pos text m) (pos + m) (fieldByte text m |>.toNat) := by
      unfold add_text
      rw [forEach_succ]
      unfold fieldByte toUint8
      split
      · unfold uint8Store toUint8
        simp only [forEach]
        congr 2
        omega
      · unfold uint8Store toUint8
        simp only [forEach]
        congr 2
    rw [hstep, uint8Store_getElem?, add_text_length, ih]
    have hfb : toUint8 ((fieldByte text m).toNat : Int) = fieldByte text m := by
      unfold fieldByte toUint8
      split <;> omega
    rw [hfb]
    by_cases hj : j = pos + m
    · subst hj
      by_cases hl : pos + m < bytes.length
      · have h1 : (pos + m = pos + m ∧ pos + m < bytes.length) := ⟨rfl, hl⟩
        have h2 : (pos ≤ pos + m ∧ pos + m < pos + (m + 1) ∧ pos + m < bytes.length) := by omega
        rw [if_pos h1, if_pos h2]
        congr 2
        omega
      · have h1 : ¬ (pos + m = pos + m ∧ pos + m < bytes.length) := by omega
        have h2 : ¬ (pos ≤ pos + m ∧ pos + m < pos + (m + 1) ∧ pos + m < bytes.length) := by
          omega
        have h3 : ¬ (pos ≤ pos + m ∧ pos + m < pos + m ∧ pos + m < bytes.length) := by omega
        rw [if_neg h1, if_neg h2, if_neg h3]
    · have h1 : ¬ (j = pos + m ∧ pos + m < bytes.length) := by omega
      rw [if_neg h1]
      by_cases h2 : pos ≤ j ∧ j < pos + m ∧ j < bytes.length
      · have h3 : pos ≤ j ∧ j < pos + (m + 1) ∧ j < bytes.length := by omega
        rw [if_pos h2, if_pos h3]
      · have h3 : ¬ (pos ≤ j ∧ j < pos + (m + 1) ∧ j < bytes.length) := by omega
        rw [if_neg h2, if_neg h3]

theorem fieldByte_range (text : List Nat) (t : Nat) :
    0 ≤ fieldByte text t ∧ fieldByte text t ≤ 255 := by
  unfold fieldByte toUint8
  split <;> omega

theorem relativeIndex_natCast (len k : Nat) : relativeIndex len (k : Int) = min k len := by
  unfold relativeIndex
  have : ¬ ((k : Int) < 0) := by omega
  rw [if_neg this]
  simp

/-- A `subarray` between two offsets inside the array. -/
theorem subarray_inside (a : List Int) (i j : Nat) (hij : i ≤ j) (hj : j ≤ a.length) :
    subarray a (i : Int) (j : Int) = (a.drop i).take (j - i) := by
  unfold subarray
  rw [relativeIndex_natCast, relativeIndex_natCast, Nat.min_eq_left hj,
    Nat.min_eq_left (Nat.le_trans hij hj)]

/-- The record `bytes.slice(-128)` of an array that ends with 128 elements `record`. -/
theorem subarray_record (front record : List Int) (hlen : record.length = 128) :
    subarray (front ++ record) (-128) ((front ++ record).length : Int) = record := by
  unfold subarray
  rw [relativeIndex_natCast, Nat.min_self]
  have h1 : relativeIndex (front ++ record).length (-128) = front.length := by
    unfold relativeIndex
    simp only [List.length_append, hlen]
    rw [if_pos (by omega)]
    omega
  rw [h1, List.drop_left]
  simp [hlen]

/-- The block between `front` and the record, as `get_sauce` cuts it out. -/
theorem subarray_block (front block record : List Int) (n : Nat)
    (hrec : record.length = 128) (hblock : block.length = n * 64 + 5) :
    subarray (front ++ block ++ record)
      (((front ++ block ++ record).length : Int) - ((n : Int) * 64 + 5) - 128)
      (((front ++ block ++ record).length : Int) - 128) = block := by
  have e1 : (((front ++ block ++ record).length : Int) - ((n : Int) * 64 + 5) - 128)
      = ((front.length : Nat) : Int) := by
    simp only [List.length_append, hrec, hblock]
    push_cast
    omega
  have e2 : (((front ++ block ++ record).length : Int) - 128)
      = ((front.length + block.length : Nat) : Int) := by
    simp only [List.length_append, hrec]
    push_cast
    omega
  rw [e1, e2, subarray_inside _ _ _ (by omega) (by simp)]
  rw [List.append_assoc, List.drop_left]
  simp

theorem toInt32_small (x : Int) (h1 : -2147483648 ≤ x) (h2 : x < 2147483648) :
    toInt32 x = x := by
  unfold toInt32
  split <;> omega

theorem toUint8_toInt8 (v : Int) : toUint8 (toInt8 v) = v % 256 := by
  unfold toUint8 toInt8
  split <;> omega

theorem toInt8_byte (v : Int) (h1 : 0 ≤ v) (h2 : v ≤ 127) : toInt8 v = v := by
  unfold toInt8
  split <;> omega

theorem toUint8_byte (v : Int) (h1 : 0 ≤ v) (h2 : v ≤ 255) : toUint8 v = v := by
  unfold toUint8
  omega

theorem fromCharCode_byte (v : Int) (h1 : 0 ≤ v) (h2 : v ≤ 255) :
    (fromCharCode v : Int) = v := by
  unfold fromCharCode
  omega

/-- On elements of a typed array, `String.fromCharCode` gives an ASCII code unit
only for the element equal to it. -/
theorem fromCharCode_ascii (v : Int) (c : Nat) (h1 : -128 ≤ v) (h2 : v ≤ 255) (hc : c < 128)
    (h : fromCharCode v = c) : v = c := by
  unfold fromCharCode at h
  omega

theorem map_fromCharCode_ascii (l : List Int) (t : List Nat)
    (hl : ∀ b ∈ l, -128 ≤ b ∧ b ≤ 255) (ht : ∀ c ∈ t, c < 128)
    (h : l.map fromCharCode = t) : l = t.map (fun c : Nat => (c : Int)) := by
  induction l generalizing t with
  | nil =>
    cases t with
    | nil => rfl
    | cons c t => simp at h
  | cons b l ih =>
    cases t with
    | nil => simp at h
    | cons c t =>
      simp only [List.map_cons, List.cons.injEq] at h
      obtain ⟨hb1, hb2⟩ := hl b (List.mem_cons_self _ _)
      rw [List.map_cons, fromCharCode_ascii b c hb1 hb2 (ht c (List.mem_cons_self _ _)) h.1,
        ih t (fun x hx => hl x (List.mem_cons_of_mem _ hx))
          (fun x hx => ht x (List.mem_cons_of_mem _ hx)) h.2]

/-! ### The method `trim` -/

theorem trim_length_le (s : List Nat) : (trim s).length ≤ s.length := by
  unfold trim
  rw [List.length_reverse]
  have h1 := (List.dropWhile_suffix isWhiteSpace (l := (s.dropWhile isWhiteSpace).reverse)).length_le
  have h2 := (List.dropWhile_suffix isWhiteSpace (l := s)).length_le
  rw [List.length_reverse] at h1
  omega

/-- A string that `trim` does not shorten is left as it is. -/
theorem trim_eq_self_of_length (s : List Nat) (h : (trim s).length = s.length) :
    trim s = s := by
  unfold trim at h ⊢
  rw [List.length_reverse] at h
  have s1 := List.dropWhile_suffix isWhiteSpace (l := (s.dropWhile isWhiteSpace).reverse)
  have s2 := List.dropWhile_suffix isWhiteSpace (l := s)
  have h1 := s1.length_le
  have h2 := s2.length_le
  rw [List.length_reverse] at h1
  have e2 : s.dropWhile isWhiteSpace = s := s2.eq_of_length (by omega)
  have e1 : ((s.dropWhile isWhiteSpace).reverse).dropWhile isWhiteSpace
      = (s.dropWhile isWhiteSpace).reverse :=
    s1.eq_of_length (by rw [List.length_reverse]; omega)
  rw [e1, List.reverse_reverse, e2]

/-- A padded field is trimmed back to its text when the text neither starts nor
ends with white space. -/
theorem trim_padded (s : List Nat) (k : Nat)
    (hfirst : ∀ c, s.head? = some c → isWhiteSpace c = false)
    (hlast : ∀ c, s.getLast? = some c → isWhiteSpace c = false) :
    trim (s ++ List.replicate k 32) = s := by
  unfold trim
  cases s with
  | nil =>
    have : List.dropWhile isWhiteSpace ([] ++ List.replicate k 32) = [] := by
      rw [List.nil_append, List.dropWhile_eq_nil_iff]
      intro x hx
      rw [List.eq_of_mem_replicate hx]
      rfl
    rw [this]
    rfl
  | cons a s =>
    have ha : isWhiteSpace a = false := hfirst a rfl
    have e1 : List.dropWhile isWhiteSpace (a :: s ++ List.replicate k 32)
        = a :: s ++ List.replicate k 32 := by
      rw [List.cons_append, List.dropWhile_cons_of_neg (by simp [ha])]
    rw [e1, List.reverse_append, List.reverse_replicate,
      List.dropWhile_append_of_pos (by
        intro x hx
        rw [List.eq_of_mem_replicate hx]
        rfl)]
    obtain ⟨b, hb⟩ : ∃ b, (a :: s).getLast? = some b := by
      cases hq : (a :: s).getLast? with
      | none => simp at hq
      | some b => exact ⟨b, rfl⟩
    have hbw : isWhiteSpace b = false := hlast b hb
    have hrev : (a :: s).reverse.head? = some b := by
      rw [List.head?_reverse]
      exact hb
    cases hr : (a :: s).reverse with
    | nil => rw [hr] at hrev; simp at hrev
    | cons c r =>
      rw [hr] at hrev
      simp only [List.head?_cons, Option.some.injEq] at hrev
      subst hrev
      rw [List.dropWhile_cons_of_neg (by simp [hbw]), ← hr, List.reverse_reverse]

/-! ## Lemmas on `get_sauce` -/

theorem bytes_to_string_inside (a : List Int) (offset size : Nat)
    (h : offset + size ≤ a.length) :
    bytes_to_string a offset size = trim (((a.drop offset).take size).map fromCharCode) := by
  unfold bytes_to_string
  have e : ((offset : Int) + (size : Int)) = ((offset + size : Nat) : Int) := by push_cast; rfl
  rw [e, subarray_inside a offset (offset + size) (by omega) h]
  congr 3
  omega

/-- A record that starts with "SAUCE00" passes both signature tests. -/
theorem signature_accepted (record : List Int) (hlen : record.length = 128)
    (hsig : record.take 7 = sauceSignature) :
    bytes_to_string record 0 5 = [83, 65, 85, 67, 69] ∧
    bytes_to_string record 5 2 = [48, 48] := by
  have h5 : record.take 5 = [83, 65, 85, 67, 69] := by
    have := congrArg (List.take 5) hsig
    rw [List.take_take] at this
    exact this
  have h2 : (record.drop 5).take 2 = [48, 48] := by
    have := congrArg (List.drop 5) hsig
    rw [List.drop_take] at this
    exact this
  constructor
  · rw [bytes_to_string_inside record 0 5 (by omega), List.drop_zero, h5]
    decide
  · rw [bytes_to_string_inside record 5 2 (by omega), h2]
    decide

/-- A record of typed-array elements that passes both signature tests starts with
"SAUCE00". -/
theorem signature_exact (record : List Int) (hlen : record.length = 128)
    (hrange : ∀ b ∈ record, -128 ≤ b ∧ b ≤ 255)
    (h1 : bytes_to_string record 0 5 = [83, 65, 85, 67, 69])
    (h2 : bytes_to_string record 5 2 = [48, 48]) :
    record.take 7 = sauceSignature := by
  rw [bytes_to_string_inside record 0 5 (by omega), List.drop_zero] at h1
  rw [bytes_to_string_inside record 5 2 (by omega)] at h2
  have e1 := trim_eq_self_of_length _ (by rw [h1]; simp [hlen])
  have e2 := trim_eq_self_of_length _ (by rw [h2]; simp [hlen])
  rw [e1] at h1
  rw [e2] at h2
  have f1 := map_fromCharCode_ascii _ _
    (fun b hb => hrange b (List.mem_of_mem_take hb)) (by decide) h1
  have f2 := map_fromCharCode_ascii _ _
    (fun b hb => hrange b (List.mem_of_mem_drop (List.mem_of_mem_take hb))) (by decide) h2
  have : record.take 7 = record.take 5 ++ (record.drop 5).take 2 := List.take_add record 5 2
  rw [this, f1, f2]
  rfl

/-- The record `get_sauce` returns for an array that ends with a record starting
with "SAUCE00", once the comments are read. -/
theorem get_sauce_record (front record : List Int) (comments : List (List Nat))
    (hlen : record.length = 128) (hsig : record.take 7 = sauceSignature)
    (hc : get_sauce_comments (front ++ record) (record.getD 104 0) = some comments) :
    get_sauce (front ++ record) = some
      { columns := some
          (if record.getD 94 0 = 5 then record.getD 95 0 * 2
           else shiftLeft (record.getD 97 0) 8 + record.getD 96 0),
        rows := some
          (if record.getD 94 0 = 5 then
            ((JsNumber.int (shiftLeft (record.getD 93 0) 24 + shiftLeft (record.getD 92 0) 16
              + shiftLeft (record.getD 91 0) 8 + record.getD 90 0)).divide
                (if record.getD 94 0 = 5 then record.getD 95 0 * 2
                 else shiftLeft (record.getD 97 0) 8 + record.getD 96 0)).divide 2
           else JsNumber.int (shiftLeft (record.getD 99 0) 8 + record.getD 98 0)),
        title := bytes_to_string record 7 35,
        author := bytes_to_string record 42 20,
        group := bytes_to_string record 62 20,
        date := some (bytes_to_string record 82 8),
        filesize :=
          if shiftLeft (record.getD 93 0) 24 + shiftLeft (record.getD 92 0) 16
              + shiftLeft (record.getD 91 0) 8 + record.getD 90 0 = 0 then
            if record.getD 104 0 ≠ 0 then 128 - (record.getD 104 0 * 64 + 5) else 128
          else shiftLeft (record.getD 93 0) 24 + shiftLeft (record.getD 92 0) 16
              + shiftLeft (record.getD 91 0) 8 + record.getD 90 0,
        ice_colors := decide (and0x01 (record.getD 105 0) = 1),
        use_9px_font := decide (and0x02 (shiftRight (record.getD 105 0) 1) = 2),
        font_name :=
          if (bytes_to_string record 106 22).filter (fun c => c ≠ 0) = []
          then [73, 66, 77, 32, 86, 71, 65]
          else (bytes_to_string record 106 22).filter (fun c => c ≠ 0),
        comments := comments } := by
  obtain ⟨s1, s2⟩ := signature_accepted record hlen hsig
  unfold get_sauce
  simp only [subarray_record front record hlen]
  rw [if_pos ⟨by simp [hlen], s1, s2⟩, hc]

/-- Without a record `get_sauce` returns the record `new Sauce()` with the length
of the input as `filesize`. -/
theorem get_sauce_fallback (bytes : List Int)
    (h : ¬ (bytes.length ≥ 128 ∧
      bytes_to_string (subarray bytes (-128) bytes.length) 0 5 = [83, 65, 85, 67, 69] ∧
      bytes_to_string (subarray bytes (-128) bytes.length) 5 2 = [48, 48])) :
    get_sauce bytes = some { Sauce.empty with filesize := bytes.length } := by
  unfold get_sauce
  simp only
  rw [if_neg h]

theorem get_sauce_comments_zero (bytes : List Int) : get_sauce_comments bytes 0 = some [] := by
  unfold get_sauce_comments
  simp

/-- The comments `get_sauce` reads from a block of `n` lines that starts with
"COMNT" and stands right before the record. -/
theorem get_sauce_comments_block (front block record : List Int) (n : Nat)
    (hrec : record.length = 128) (hblock : block.length = n * 64 + 5)
    (hsig : block.take 5 = commentSignature) (hn : n ≠ 0) :
    get_sauce_comments (front ++ block ++ record) (n : Int) =
      some ((List.range n).map (fun i => bytes_to_string block (5 + i * 64) 64)) := by
  unfold get_sauce_comments
  have h1 : ¬ ((n : Int) < 0) := by omega
  have h2 : (n : Int) ≠ 0 := by omega
  rw [if_neg h1, if_pos h2]
  simp only [subarray_block front block record n hrec hblock]
  have h3 : bytes_to_string block 0 5 = [67, 79, 77, 78, 84] := by
    rw [bytes_to_string_inside block 0 5 (by omega), List.drop_zero, hsig]
    decide
  rw [if_pos h3]
  simp

/-- A block that does not start with "COMNT" makes `get_sauce` throw. -/
theorem get_sauce_comments_bad (front block record : List Int) (n : Nat)
    (hrec : record.length = 128) (hblock : block.length = n * 64 + 5)
    (hsig : bytes_to_string block 0 5 ≠ [67, 79, 77, 78, 84]) (hn : n ≠ 0) :
    get_sauce_comments (front ++ block ++ record) (n : Int) = none := by
  unfold get_sauce_comments
  have h1 : ¬ ((n : Int) < 0) := by omega
  have h2 : (n : Int) ≠ 0 := by omega
  rw [if_neg h1, if_pos h2]
  simp only [subarray_block front block record n hrec hblock]
  rw [if_neg hsig]

/-- The comments of an input with a valid record: none when the count is zero, and
the lines of the "COMNT" block before the record otherwise. -/
theorem get_sauce_comments_valid (front block record : List Int) (n : Nat)
    (hlen : record.length = 128) (hn : record.getD 104 0 = (n : Int))
    (hblock : n ≠ 0 → block.length = n * 64 + 5 ∧ block.take 5 = commentSignature) :
    ∃ comments, get_sauce_comments (front ++ block ++ record) (record.getD 104 0)
      = some comments ∧ comments.length = n := by
  rw [hn]
  by_cases h0 : n = 0
  · subst h0
    exact ⟨[], get_sauce_comments_zero _, rfl⟩
  · obtain ⟨h1, h2⟩ := hblock h0
    exact ⟨_, get_sauce_comments_block front block record n hlen h1 h2 h0, by simp⟩

/-! ## The SAUCE record: the claims on `get_sauce` -/

/-- C17: if the input has fewer than 128 bytes, or its last 128 bytes do not begin
with "SAUCE" followed by "00", `get_sauce` does not throw and returns the
zero-value record (title, author, group empty; `ice_colors` and `use_9px_font`
false; font name "IBM VGA"; no comments; `columns`, `rows` and `date` undefined)
with `filesize` equal to the input length. -/
theorem get_sauce_without_record (bytes : List Int)
    (hrange : ∀ b ∈ bytes, -128 ≤ b ∧ b ≤ 255)
    (h : bytes.length < 128 ∨ (bytes.drop (bytes.length - 128)).take 7 ≠ sauceSignature) :
    ∃ s, get_sauce bytes = some s ∧ s.title = [] ∧ s.author = [] ∧ s.group = [] ∧
      s.ice_colors = false ∧ s.use_9px_font = false ∧
      s.font_name = [73, 66, 77, 32, 86, 71, 65] ∧ s.comments = [] ∧
      s.columns = none ∧ s.rows = none ∧ s.date = none ∧
      s.filesize = (bytes.length : Int) := by
  refine ⟨_, get_sauce_fallback bytes ?_, rfl, rfl, rfl, rfl, rfl, rfl, rfl, rfl, rfl, rfl, rfl⟩
  rintro ⟨hge, h1, h2⟩
  rcases h with h | h
  · omega
  · apply h
    have hsplit : bytes = bytes.take (bytes.length - 128) ++ bytes.drop (bytes.length - 128) :=
      (List.take_append_drop _ _).symm
    have hlen : (bytes.drop (bytes.length - 128)).length = 128 := by
      rw [List.length_drop]
      omega
    have hsub : subarray bytes (-128) bytes.length = bytes.drop (bytes.length - 128) := by
      have := subarray_record (bytes.take (bytes.length - 128))
        (bytes.drop (bytes.length - 128)) hlen
      rw [← hsplit] at this
      exact this
    rw [hsub] at h1 h2
    exact signature_exact _ hlen (fun b hb => hrange b (List.mem_of_mem_drop hb)) h1 h2

/-- Witness of C17 on an input of three bytes. -/
theorem get_sauce_without_record_witness :
    ([1, 2, 3] : List Int).length < 128 ∧
    ∃ s, get_sauce [1, 2, 3] = some s ∧ s.title = [] ∧ s.author = [] ∧ s.group = [] ∧
      s.ice_colors = false ∧ s.use_9px_font = false ∧
      s.font_name = [73, 66, 77, 32, 86, 71, 65] ∧ s.comments = [] ∧
      s.columns = none ∧ s.rows = none ∧ s.date = none ∧
      s.filesize = (([1, 2, 3] : List Int).length : Int) :=
  ⟨by decide, get_sauce_without_record [1, 2, 3] (by decide) (Or.inl (by decide))⟩

/-- C18 fails on the code: for the record "SAUCE00" whose byte 93 is 128 and whose
other bytes are zero, `get_sauce` returns the `filesize` -2147483648, not the
unsigned value 128 * 16777216 = 2147483648; with byte 93 equal to 127 the value is
the unsigned one. -/
theorem get_sauce_filesize_high_byte :
    Option.map Sauce.filesize (get_sauce (recordWith [(93, 128)])) = some (-2147483648) ∧
    Option.map Sauce.filesize (get_sauce (recordWith [(93, 255), (90, 1)])) = some (-16777215) ∧
    Option.map Sauce.filesize (get_sauce (recordWith [(93, 127), (90, 1)]))
      = some (127 * 16777216 + 1) := by
  decide!

/-- C19 as stated fails: with the flag byte 2 (bit 1 set) `get_sauce` returns
`use_9px_font == false`, and with the flag byte 4 (bit 1 clear) it returns
`use_9px_font == true`. -/
theorem use_9px_font_is_not_bit_1 :
    Option.map Sauce.use_9px_font (get_sauce (recordWith [(105, 2)])) = some false ∧
    Option.map Sauce.use_9px_font (get_sauce (recordWith [(105, 4)])) = some true := by
  decide!

/-- C19 amended: for every input with a valid SAUCE record (the record starts with
"SAUCE00", and a nonzero comment count `n` comes with a block of `5 + 64 * n`
bytes that starts with "COMNT" right before the record), `get_sauce` returns
`ice_colors == true` exactly when bit 0 of the flag byte at offset 105 is set, and
`use_9px_font == true` exactly when bit 2 (value 4) of that byte is set. -/
theorem get_sauce_flags (front block record : List Int) (n : Nat)
    (hlen : record.length = 128) (hsig : record.take 7 = sauceSignature)
    (hn : record.getD 104 0 = (n : Int))
    (hblock : n ≠ 0 → block.length = n * 64 + 5 ∧ block.take 5 = commentSignature)
    (hflags : 0 ≤ record.getD 105 0 ∧ record.getD 105 0 ≤ 255) :
    ∃ s, get_sauce (front ++ block ++ record) = some s ∧
      (s.ice_colors = true ↔ record.getD 105 0 % 2 = 1) ∧
      (s.use_9px_font = true ↔ record.getD 105 0 / 4 % 2 = 1) := by
  obtain ⟨comments, hc, _⟩ := get_sauce_comments_valid front block record n hlen hn hblock
  refine ⟨_, get_sauce_record (front ++ block) record comments hlen hsig hc, ?_, ?_⟩
  · simp only [decide_eq_true_eq]
    unfold and0x01
    rw [toInt32_small _ (by omega) (by omega)]
  · simp only [decide_eq_true_eq]
    unfold and0x02 shiftRight
    rw [toInt32_small (record.getD 105 0) (by omega) (by omega)]
    have e : (2 : Int) ^ (1 % 32) = 2 := by decide
    rw [e, toInt32_small _ (by omega) (by omega)]
    omega

set_option maxRecDepth 100000 in
/-- Witness of the amended C19: one comment line and the flag byte 5. -/
theorem get_sauce_flags_witness :
    (recordWith [(104, 1), (105, 5)]).length = 128 ∧
    ∃ s, get_sauce ([] ++ (commentSignature ++ List.replicate 64 32)
        ++ recordWith [(104, 1), (105, 5)]) = some s ∧
      (s.ice_colors = true ↔ (recordWith [(104, 1), (105, 5)]).getD 105 0 % 2 = 1) ∧
      (s.use_9px_font = true ↔ (recordWith [(104, 1), (105, 5)]).getD 105 0 / 4 % 2 = 1) :=
  ⟨by decide, get_sauce_flags [] (commentSignature ++ List.replicate 64 32)
    (recordWith [(104, 1), (105, 5)]) 1 (by decide) (by decide) (by decide)
    (fun _ => by decide) (by decide)⟩

/-- C20 fails on the code: for a valid record with stored `filesize` zero and one
comment line `get_sauce` returns `filesize == 59`, which is 128 - (5 + 64), where
the claim says 128 + (5 + 64) = 197; with two comment lines it returns -5, where
the claim says 261.  The code assigns `filesize = bytes.length = 128`, which has
the value 128 whatever the length of the input, and then subtracts the size of the
comment block.  Without comments it returns 128, as the claim says. -/
theorem get_sauce_zero_filesize_one_comment :
    Option.map Sauce.filesize
      (get_sauce (commentSignature ++ List.replicate 64 32 ++ recordWith [(104, 1)]))
      = some 59 ∧
    (59 : Int) ≠ 128 + (5 + 64 * 1) ∧
    Option.map Sauce.filesize
      (get_sauce (commentSignature ++ List.replicate 128 32 ++ recordWith [(104, 2)]))
      = some (-5) ∧
    (-5 : Int) ≠ 128 + (5 + 64 * 2) ∧
    Option.map Sauce.filesize (get_sauce (recordWith [])) = some 128 := by
  decide!

/-- What the code computes when the stored `filesize` is zero, for every input with
a valid SAUCE record: 128 when the comment count is zero, and
`128 - (5 + 64 * count)` when it is nonzero, whatever the length of the input. -/
theorem get_sauce_zero_filesize (front block record : List Int) (n : Nat)
    (hlen : record.length = 128) (hsig : record.take 7 = sauceSignature)
    (hn : record.getD 104 0 = (n : Int))
    (hblock : n ≠ 0 → block.length = n * 64 + 5 ∧ block.take 5 = commentSignature)
    (h90 : record.getD 90 0 = 0) (h91 : record.getD 91 0 = 0)
    (h92 : record.getD 92 0 = 0) (h93 : record.getD 93 0 = 0) :
    ∃ s, get_sauce (front ++ block ++ record) = some s ∧
      s.filesize = if n = 0 then 128 else 128 - (5 + 64 * (n : Int)) := by
  obtain ⟨comments, hc, _⟩ := get_sauce_comments_valid front block record n hlen hn hblock
  refine ⟨_, get_sauce_record (front ++ block) record comments hlen hsig hc, ?_⟩
  simp only [h90, h91, h92, h93, hn]
  have e : shiftLeft 0 24 + shiftLeft 0 16 + shiftLeft 0 8 + 0 = 0 := by decide
  rw [if_pos e]
  by_cases h0 : n = 0
  · subst h0
    simp
  · have : (n : Int) ≠ 0 := by omega
    rw [if_pos this, if_neg h0]
    omega

set_option maxRecDepth 100000 in
/-- The value computed for a record with stored `filesize` zero and one comment
line. -/
theorem get_sauce_zero_filesize_witness :
    (recordWith [(104, 1)]).length = 128 ∧
    ∃ s, get_sauce ([] ++ (commentSignature ++ List.replicate 64 32)
        ++ recordWith [(104, 1)]) = some s ∧
      s.filesize = if 1 = 0 then 128 else 128 - (5 + 64 * ((1 : Nat) : Int)) :=
  ⟨by decide, get_sauce_zero_filesize [] (commentSignature ++ List.replicate 64 32)
    (recordWith [(104, 1)]) 1 (by decide) (by decide) (by decide)
    (fun _ => by decide) (by decide) (by decide) (by decide) (by decide)⟩

/-! ## Lemmas on `add_sauce_bytes` -/

theorem isUint8Array_uint8Store (bytes : List Int) (k : Nat) (v : Int)
    (h : IsUint8Array bytes) : IsUint8Array (uint8Store bytes k v) := by
  unfold uint8Store
  split
  · intro b hb
    rcases List.mem_or_eq_of_mem_set hb with hb | hb
    · exact h b hb
    · subst hb
      unfold toUint8
      omega
  · exact h

theorem isUint8Array_add_text (bytes : List Int) (pos : Nat) (text : List Nat)
    (max_length : Nat) (h : IsUint8Array bytes) :
    IsUint8Array (add_text bytes pos text max_length) := by
  unfold add_text
  induction max_length with
  | zero => exact h
  | succ m ih =>
    rw [forEach_succ]
    split <;> exact isUint8Array_uint8Store _ _ _ ih

theorem isUint8Array_replicate (n : Nat) : IsUint8Array (List.replicate n 0) := by
  intro b hb
  rw [List.eq_of_mem_replicate hb]
  omega

theorem isUint8Array_ite (c : Prop) [Decidable c] (a b : List Int)
    (ha : IsUint8Array a) (hb : IsUint8Array b) : IsUint8Array (if c then a else b) := by
  split
  · exact ha
  · exact hb

/-- Reading an array of bytes back as unsigned bytes after a copy into an
`Int8Array` gives the bytes. -/
theorem map_toUint8_toInt8 (a : List Int) (h : IsUint8Array a) :
    (a.map toInt8).map toUint8 = a := by
  rw [List.map_map]
  conv_rhs => rw [← List.map_id a]
  apply List.map_congr_left
  intro b hb
  obtain ⟨h1, h2⟩ := h b hb
  simp only [Function.comp_apply, id_eq]
  unfold toUint8 toInt8
  split <;> omega

theorem map_toUint8_toInt8_twice (a : List Int) (h : IsUint8Array a) :
    ((a.map toInt8).map toInt8).map toUint8 = a := by
  rw [List.map_map, List.map_map]
  conv_rhs => rw [← List.map_id a]
  apply List.map_congr_left
  intro b hb
  obtain ⟨h1, h2⟩ := h b hb
  simp only [Function.comp_apply, id_eq]
  unfold toUint8 toInt8
  split <;> split <;> omega

theorem comment_loop_length (comments : List (List Nat)) (k : Nat) (bytes : List Int) :
    (forEach k (fun i bytes => add_text bytes (i * 64 + 5) (comments.getD i []) 64)
      bytes).length = bytes.length := by
  induction k with
  | zero => rfl
  | succ k ih => rw [forEach_succ, add_text_length, ih]

theorem isUint8Array_comment_loop (comments : List (List Nat)) (k : Nat) (bytes : List Int)
    (h : IsUint8Array bytes) :
    IsUint8Array (forEach k (fun i bytes =>
      add_text bytes (i * 64 + 5) (comments.getD i []) 64) bytes) := by
  induction k with
  | zero => exact h
  | succ k ih =>
    rw [forEach_succ]
    exact isUint8Array_add_text _ _ _ _ ih

/-- The elements after the loop of `add_comments_bytes` over the first `k` lines. -/
theorem comment_loop_getElem? (comments : List (List Nat)) (k j : Nat) (bytes : List Int) :
    (forEach k (fun i bytes => add_text bytes (i * 64 + 5) (comments.getD i []) 64)
      bytes)[j]? =
      if 5 ≤ j ∧ j < 5 + k * 64 ∧ j < bytes.length
      then some (fieldByte (comments.getD ((j - 5) / 64) []) ((j - 5) % 64))
      else bytes[j]? := by
  induction k with
  | zero =>
    have : ¬ (5 ≤ j ∧ j < 5 + 0 * 64 ∧ j < bytes.length) := by omega
    rw [if_neg this]
    rfl
  | succ k ih =>
    rw [forEach_succ, add_text_getElem?, comment_loop_length, ih]
    by_cases h1 : k * 64 + 5 ≤ j ∧ j < k * 64 + 5 + 64 ∧ j < bytes.length
    · have h2 : 5 ≤ j ∧ j < 5 + (k + 1) * 64 ∧ j < bytes.length := by omega
      have e1 : (j - 5) / 64 = k := by omega
      have e2 : (j - 5) % 64 = j - (k * 64 + 5) := by omega
      rw [if_pos h1, if_pos h2, e1, e2]
    · rw [if_neg h1]
      by_cases h2 : 5 ≤ j ∧ j < 5 + k * 64 ∧ j < bytes.length
      · have h3 : 5 ≤ j ∧ j < 5 + (k + 1) * 64 ∧ j < bytes.length := by omega
        rw [if_pos h2, if_pos h3]
      · have h3 : ¬ (5 ≤ j ∧ j < 5 + (k + 1) * 64 ∧ j < bytes.length) := by omega
        rw [if_neg h2, if_neg h3]

/-- The block `add_comments_bytes` puts before the record: `5 + 64 * n` bytes,
"COMNT" and then the lines padded with spaces to 64 bytes. -/
theorem add_comments_bytes_block (comments : List (List Nat)) (sauce_bytes : List Int) :
    ∃ block : List Int,
      add_comments_bytes comments sauce_bytes = (block ++ sauce_bytes).map toInt8 ∧
      block.length = comments.length * 64 + 5 ∧ IsUint8Array block ∧
      block.take 5 = commentSignature ∧
      ∀ i t, i < comments.length → t < 64 →
        block[5 + i * 64 + t]? = some (fieldByte (comments.getD i []) t) := by
  refine ⟨_, rfl, ?_, ?_, ?_, ?_⟩
  · rw [comment_loop_length, add_text_length, List.length_replicate]
    omega
  · exact isUint8Array_comment_loop _ _ _
      (isUint8Array_add_text _ _ _ _ (isUint8Array_replicate _))
  · apply List.ext_getElem?
    intro j
    rw [List.getElem?_take]
    by_cases hj : j < 5
    · rw [if_pos hj, comment_loop_getElem?, if_neg (by omega), add_text_getElem?,
        List.length_replicate, if_pos (by omega)]
      interval_cases j <;> rfl
    · rw [if_neg hj]
      unfold commentSignature
      rw [List.getElem?_eq_none (by simp; omega)]
  · intro i t hi ht
    rw [comment_loop_getElem?, add_text_length, List.length_replicate]
    have h1 : 5 ≤ 5 + i * 64 + t ∧ 5 + i * 64 + t < 5 + comments.length * 64 ∧
        5 + i * 64 + t < 5 + comments.length * 64 := by omega
    have e1 : (5 + i * 64 + t - 5) / 64 = i := by omega
    have e2 : (5 + i * 64 + t - 5) % 64 = t := by omega
    rw [if_pos h1, e1, e2]

theorem uint8Store_getElem?_ne (bytes : List Int) (k j : Nat) (v : Int) (h : j ≠ k) :
    (uint8Store bytes k v)[j]? = bytes[j]? := by
  rw [uint8Store_getElem?, if_neg (fun hh => h hh.1)]

theorem uint8Store_getElem?_self (bytes : List Int) (k : Nat) (v : Int)
    (h : k < bytes.length) : (uint8Store bytes k v)[k]? = some (toUint8 v) := by
  rw [uint8Store_getElem?, if_pos ⟨rfl, h⟩]

theorem add_text_getElem?_before (bytes : List Int) (pos : Nat) (text : List Nat)
    (max_length j : Nat) (h : j < pos) :
    (add_text bytes pos text max_length)[j]? = bytes[j]? := by
  rw [add_text_getElem?, if_neg (by omega)]

theorem add_text_getElem?_after (bytes : List Int) (pos : Nat) (text : List Nat)
    (max_length j : Nat) (h : pos + max_length ≤ j) :
    (add_text bytes pos text max_length)[j]? = bytes[j]? := by
  rw [add_text_getElem?, if_neg (by omega)]

theorem add_text_getElem?_field (bytes : List Int) (pos : Nat) (text : List Nat)
    (max_length j : Nat) (h1 : pos ≤ j) (h2 : j < pos + max_length) (h3 : j < bytes.length) :
    (add_text bytes pos text max_length)[j]? = some (fieldByte text (j - pos)) := by
  rw [add_text_getElem?, if_pos ⟨h1, h2, h3⟩]

/-- The function `add_sauce_bytes` in terms of the two stages of its record. -/
theorem add_sauce_bytes_eq (doc : Doc) (data_type file_type : Nat) (body : List Int)
    (today : List Nat) :
    add_sauce_bytes doc data_type file_type body today =
      (body ++ [27] ++ (if doc.comments.length ≠ 0
        then add_comments_bytes doc.comments
          (sauceFlags doc data_type (sauceHeader doc data_type file_type body.length today))
        else sauceFlags doc data_type
          (sauceHeader doc data_type file_type body.length today))).map toInt8 :=
  rfl

theorem sauceFlags_length (doc : Doc) (data_type : Nat) (bytes : List Int) :
    (sauceFlags doc data_type bytes).length = bytes.length := by
  unfold sauceFlags
  split
  · simp only
    split <;> split <;> split <;> simp [uint8Store_length, add_text_length]
  · rfl

theorem isUint8Array_sauceFlags (doc : Doc) (data_type : Nat) (bytes : List Int)
    (h : IsUint8Array bytes) : IsUint8Array (sauceFlags doc data_type bytes) := by
  unfold sauceFlags
  split
  · simp only
    split <;> split <;> split <;>
      first
        | exact isUint8Array_add_text _ _ _ _ (isUint8Array_uint8Store _ _ _
            (isUint8Array_uint8Store _ _ _ h))
        | exact isUint8Array_add_text _ _ _ _ (isUint8Array_uint8Store _ _ _ h)
        | exact isUint8Array_uint8Store _ _ _ (isUint8Array_uint8Store _ _ _ h)
        | exact isUint8Array_uint8Store _ _ _ h
  · exact h

/-- The flag and font stores leave the bytes before offset 105 as they are. -/
theorem sauceFlags_getElem? (doc : Doc) (data_type : Nat) (bytes : List Int) (j : Nat)
    (hj : j < 105) : (sauceFlags doc data_type bytes)[j]? = bytes[j]? := by
  unfold sauceFlags
  split
  · simp only
    split <;> split <;> split <;>
      simp only [add_text_getElem?_before _ _ _ _ _ (show j < 106 by omega),
        uint8Store_getElem?_ne _ _ _ _ (show j ≠ 105 by omega)]
  · rfl

theorem sauceHeader_length (doc : Doc) (data_type file_type file_length : Nat)
    (today : List Nat) : (sauceHeader doc data_type file_type file_length today).length = 128 := by
  unfold sauceHeader
  generalize hz : List.replicate 128 (0 : Int) = zeros
  have hzl : zeros.length = 128 := by
    rw [← hz]
    exact List.length_replicate _ _
  simp only
  rw [uint8Store_length]
  split
  · repeat rw [uint8Store_length]
    repeat rw [add_text_length]
    exact hzl
  · repeat rw [uint8Store_length]
    repeat rw [add_text_length]
    exact hzl

theorem isUint8Array_sauceHeader (doc : Doc) (data_type file_type file_length : Nat)
    (today : List Nat) : IsUint8Array (sauceHeader doc data_type file_type file_length today) := by
  unfold sauceHeader
  generalize hz : List.replicate 128 (0 : Int) = zeros
  have hzb : IsUint8Array zeros := by
    rw [← hz]
    exact isUint8Array_replicate _
  simp only
  have hbase := isUint8Array_uint8Store _ 94 data_type
    (isUint8Array_uint8Store _ 93 (shiftRight file_length 24)
    (isUint8Array_uint8Store _ 92 (and0xff (shiftRight file_length 16))
    (isUint8Array_uint8Store _ 91 (and0xff (shiftRight file_length 8))
    (isUint8Array_uint8Store _ 90 (and0xff file_length)
    (isUint8Array_add_text _ 82 today 8
    (isUint8Array_add_text _ 62 doc.group 20
    (isUint8Array_add_text _ 42 doc.author 20
    (isUint8Array_add_text _ 7 doc.title 35
    (isUint8Array_add_text _ 0 [83, 65, 85, 67, 69, 48, 48] 7 hzb)))))))))
  refine isUint8Array_uint8Store _ _ _ ?_
  split
  · exact isUint8Array_uint8Store _ _ _ hbase
  · exact isUint8Array_uint8Store _ _ _ (isUint8Array_uint8Store _ _ _
      (isUint8Array_uint8Store _ _ _ (isUint8Array_uint8Store _ _ _
      (isUint8Array_uint8Store _ _ _ hbase))))

theorem ite_getElem? (c : Prop) [Decidable c] (a b : List Int) (j : Nat) :
    (if c then a else b)[j]? = if c then a[j]? else b[j]? := by
  split <;> rfl

theorem ite_length (c : Prop) [Decidable c] (a b : List Int) :
    (if c then a else b).length = if c then a.length else b.length := by
  split <;> rfl

/-- The bytes of the header that the later claims read: the signature, the data
type, the comment count and, except for the data type BIN, `columns` and `rows`. -/
theorem sauceHeader_bytes (doc : Doc) (data_type file_type file_length : Nat)
    (today : List Nat) :
    (sauceHeader doc data_type file_type file_length today).take 7 = sauceSignature ∧
    (sauceHeader doc data_type file_type file_length today)[94]? = some (toUint8 data_type) ∧
    (sauceHeader doc data_type file_type file_length today)[104]?
      = some (toUint8 doc.comments.length) ∧
    (data_type ≠ 5 →
      (sauceHeader doc data_type file_type file_length today)[96]?
        = some (toUint8 (and0xff doc.columns)) ∧
      (sauceHeader doc data_type file_type file_length today)[97]?
        = some (toUint8 (shiftRight doc.columns 8)) ∧
      (sauceHeader doc data_type file_type file_length today)[98]?
        = some (toUint8 (and0xff doc.rows)) ∧
      (sauceHeader doc data_type file_type file_length today)[99]?
        = some (toUint8 (shiftRight doc.rows 8))) := by
  unfold sauceHeader
  generalize hz : List.replicate 128 (0 : Int) = zeros
  have hzl : zeros.length = 128 := by
    rw [← hz]
    exact List.length_replicate _ _
  simp only
  refine ⟨?_, ?_, ?_, ?_⟩
  · apply List.ext_getElem?
    intro j
    rw [List.getElem?_take]
    by_cases hj : j < 7
    · rw [if_pos hj]
      simp only [ite_getElem?, ite_length, uint8Store_getElem?, add_text_getElem?,
        uint8Store_length, add_text_length, hzl]
      interval_cases j <;> simp <;> rfl
    · rw [if_neg hj]
      unfold sauceSignature
      rw [List.getElem?_eq_none (by simp; omega)]
  · simp only [ite_getElem?, ite_length, uint8Store_getElem?, add_text_getElem?,
      uint8Store_length, add_text_length, hzl]
    simp
  · simp only [ite_getElem?, ite_length, uint8Store_getElem?, add_text_getElem?,
      uint8Store_length, add_text_length, hzl]
    simp
  · intro h5
    simp only [ite_getElem?, ite_length, uint8Store_getElem?, add_text_getElem?,
      uint8Store_length, add_text_length, hzl, h5]
    simp

theorem sauceFlags_take (doc : Doc) (data_type : Nat) (bytes : List Int) (j : Nat)
    (hj : j ≤ 105) : (sauceFlags doc data_type bytes).take j = bytes.take j := by
  apply List.ext_getElem?
  intro t
  rw [List.getElem?_take, List.getElem?_take]
  by_cases ht : t < j
  · rw [if_pos ht, if_pos ht, sauceFlags_getElem? _ _ _ _ (by omega)]
  · rw [if_neg ht, if_neg ht]

/-- The record `add_sauce_bytes` builds: 128 unsigned bytes that start with
"SAUCE00" and hold the data type at offset 94, the comment count at 104 and,
except for the data type BIN, `columns` and `rows` at 96 to 99. -/
theorem sauce_record_bytes (doc : Doc) (data_type file_type file_length : Nat)
    (today : List Nat) (record : List Int)
    (hrec : record = sauceFlags doc data_type
      (sauceHeader doc data_type file_type file_length today)) :
    record.length = 128 ∧ IsUint8Array record ∧ record.take 7 = sauceSignature ∧
    record.getD 94 0 = toUint8 data_type ∧
    record.getD 104 0 = toUint8 doc.comments.length ∧
    (data_type ≠ 5 →
      record.getD 96 0 = toUint8 (and0xff doc.columns) ∧
      record.getD 97 0 = toUint8 (shiftRight doc.columns 8) ∧
      record.getD 98 0 = toUint8 (and0xff doc.rows) ∧
      record.getD 99 0 = toUint8 (shiftRight doc.rows 8)) := by
  obtain ⟨h7, h94, h104, hdims⟩ := sauceHeader_bytes doc data_type file_type file_length today
  subst hrec
  refine ⟨?_, ?_, ?_, ?_, ?_, ?_⟩
  · rw [sauceFlags_length, sauceHeader_length]
  · exact isUint8Array_sauceFlags _ _ _ (isUint8Array_sauceHeader _ _ _ _ _)
  · rw [sauceFlags_take _ _ _ _ (by omega), h7]
  · rw [List.getD_eq_getElem?_getD, sauceFlags_getElem? _ _ _ _ (by omega), h94]
    rfl
  · rw [List.getD_eq_getElem?_getD, sauceFlags_getElem? _ _ _ _ (by omega), h104]
    rfl
  · intro h5
    obtain ⟨h96, h97, h98, h99⟩ := hdims h5
    refine ⟨?_, ?_, ?_, ?_⟩
    · rw [List.getD_eq_getElem?_getD, sauceFlags_getElem? _ _ _ _ (by omega), h96]
      rfl
    · rw [List.getD_eq_getElem?_getD, sauceFlags_getElem? _ _ _ _ (by omega), h97]
      rfl
    · rw [List.getD_eq_getElem?_getD, sauceFlags_getElem? _ _ _ _ (by omega), h98]
      rfl
    · rw [List.getD_eq_getElem?_getD, sauceFlags_getElem? _ _ _ _ (by omega), h99]
      rfl

/-- A 16-bit number is read back from its two bytes. -/
theorem two_bytes_decoded (c : Nat) (hc : c ≤ 65535) :
    shiftLeft (toUint8 (shiftRight c 8)) 8 + toUint8 (and0xff c) = (c : Int) := by
  have e : (2 : Int) ^ (8 % 32) = 256 := by norm_num
  unfold shiftLeft shiftRight and0xff toUint8
  rw [e, toInt32_small (c : Int) (by omega) (by omega),
    toInt32_small ((c : Int) / 256 % 256) (by omega) (by omega),
    toInt32_small ((c : Int) / 256 % 256 * 256) (by omega) (by omega)]
  omega

/-- A comment line that `add_comments_bytes` wrote is read back by
`bytes_to_string` when it has at most 64 Latin-1 characters and neither starts
nor ends with white space. -/
theorem comment_line_decoded (block : List Int) (cmt : List Nat) (i : Nat)
    (hfield : ∀ t, t < 64 → block[5 + i * 64 + t]? = some (fieldByte cmt t))
    (hblock : 5 + i * 64 + 64 ≤ block.length)
    (hc : cmt.length ≤ 64) (hlatin : ∀ u ∈ cmt, u ≤ 255)
    (hfirst : ∀ u, cmt.head? = some u → isWhiteSpace u = false)
    (hlast : ∀ u, cmt.getLast? = some u → isWhiteSpace u = false) :
    bytes_to_string block (5 + i * 64) 64 = cmt := by
  rw [bytes_to_string_inside block (5 + i * 64) 64 hblock]
  have hpad : ((block.drop (5 + i * 64)).take 64).map fromCharCode
      = cmt ++ List.replicate (64 - cmt.length) 32 := by
    apply List.ext_getElem?
    intro t
    rw [List.getElem?_map, List.getElem?_take, List.getElem?_drop]
    by_cases ht : t < 64
    · rw [if_pos ht, hfield t ht]
      by_cases htc : t < cmt.length
      · rw [List.getElem?_append_left htc, List.getElem?_eq_getElem htc]
        have hu := hlatin cmt[t] (List.getElem_mem _)
        simp only [Option.map_some', Option.some.injEq]
        unfold fieldByte fromCharCode toUint8
        rw [if_pos htc, List.getD_eq_getElem?_getD, List.getElem?_eq_getElem htc]
        simp only [Option.getD_some]
        omega
      · rw [List.getElem?_append_right (by omega), List.getElem?_replicate,
          if_pos (by omega)]
        simp only [Option.map_some', Option.some.injEq]
        unfold fieldByte
        rw [if_neg htc]
        rfl
    · rw [if_neg ht]
      rw [List.getElem?_eq_none (by simp; omega)]
      rfl
  rw [hpad]
  exact trim_padded cmt _ hfirst hlast

theorem toInt8_toInt8 (v : Int) : toInt8 (toInt8 v) = toInt8 v := by
  unfold toInt8
  split <;> split <;> omega

theorem isUint8Array_append (a b : List Int) (ha : IsUint8Array a) (hb : IsUint8Array b) :
    IsUint8Array (a ++ b) := by
  intro x hx
  rcases List.mem_append.mp hx with h | h
  · exact ha x h
  · exact hb x h

/-- The parts of the array `add_sauce_bytes` returns: the body, the number 27, the
comment block (empty without comments) and the record, all copied into an
`Int8Array`; read back as unsigned bytes, the block and the record are the bytes
that were stored. -/
theorem add_sauce_bytes_parts (doc : Doc) (data_type file_type : Nat) (body : List Int)
    (today : List Nat) :
    ∃ block : List Int,
      add_sauce_bytes doc data_type file_type body today =
        body.map toInt8 ++ [27] ++ (block ++ sauceFlags doc data_type
          (sauceHeader doc data_type file_type body.length today)).map toInt8 ∧
      (add_sauce_bytes doc data_type file_type body today).map toUint8 =
        (body.map toInt8).map toUint8 ++ [27] ++ block ++ sauceFlags doc data_type
          (sauceHeader doc data_type file_type body.length today) ∧
      IsUint8Array block ∧
      block.length = (if doc.comments.length = 0 then 0 else 5 + 64 * doc.comments.length) ∧
      (doc.comments.length ≠ 0 →
        block.take 5 = commentSignature ∧
        ∀ i t, i < doc.comments.length → t < 64 →
          block[5 + i * 64 + t]? = some (fieldByte (doc.comments.getD i []) t)) := by
  have hR : IsUint8Array (sauceFlags doc data_type
      (sauceHeader doc data_type file_type body.length today)) :=
    isUint8Array_sauceFlags _ _ _ (isUint8Array_sauceHeader _ _ _ _ _)
  by_cases hn : doc.comments.length = 0
  · refine ⟨[], ?_, ?_, ?_, ?_, ?_⟩
    · rw [add_sauce_bytes_eq, if_neg (by omega)]
      simp [toInt8]
    · rw [add_sauce_bytes_eq, if_neg (by omega)]
      simp only [List.map_append, List.append_nil, map_toUint8_toInt8 _ hR]
      rfl
    · intro x hx
      simp at hx
    · rw [if_pos hn]
      rfl
    · intro h
      exact absurd hn h
  · obtain ⟨block, hb, hl, hu, h5, hf⟩ := add_comments_bytes_block doc.comments
      (sauceFlags doc data_type (sauceHeader doc data_type file_type body.length today))
    have hidem : ((block ++ sauceFlags doc data_type
        (sauceHeader doc data_type file_type body.length today)).map toInt8).map toInt8
        = (block ++ sauceFlags doc data_type
          (sauceHeader doc data_type file_type body.length today)).map toInt8 := by
      rw [List.map_map]
      apply List.map_congr_left
      intro x _
      exact toInt8_toInt8 x
    refine ⟨block, ?_, ?_, hu, ?_, ?_⟩
    · rw [add_sauce_bytes_eq, if_pos hn, hb, List.map_append, List.map_append, hidem]
      rfl
    · rw [add_sauce_bytes_eq, if_pos hn, hb, List.map_append, List.map_append, hidem,
        List.map_append, List.map_append,
        map_toUint8_toInt8 _ (isUint8Array_append _ _ hu hR)]
      simp only [List.append_assoc]
      rfl
    · rw [if_neg hn, hl]
      omega
    · intro _
      exact ⟨h5, hf⟩

/-! ## The SAUCE record: the claims on `add_sauce_bytes` -/

/-- C15 as stated fails: `add_sauce_for_ans` returns an `Int8Array`, and `get_sauce`
applied to it reads the byte 200 of a Document with 200 columns as -56. -/
theorem get_sauce_of_int8_array :
    Option.map Sauce.columns
      (get_sauce (add_sauce_for_ans (headerOf 200 30 [[104, 101, 108, 108, 111]])
        [65, 66, 67] sampleDate)) = some (some (-56)) := by
  decide!

/-- C15 amended: for every Document with `columns` and `rows` up to 65535 and at
most 255 comment lines, each of at most 64 Latin-1 characters without leading or
trailing white space, for every body and date, `get_sauce` applied to the bytes
that `add_sauce_for_ans` produces, read as unsigned bytes (the elements of a
`Uint8Array` or `Buffer` over the same bytes), returns a record with the
`columns`, the `rows` and the `comments` of the Document. -/
theorem sauce_roundtrip_ans (doc : Doc) (body : List Int) (today : List Nat)
    (hcolumns : doc.columns ≤ 65535) (hrows : doc.rows ≤ 65535)
    (hcount : doc.comments.length ≤ 255)
    (hlines : ∀ cmt ∈ doc.comments, cmt.length ≤ 64 ∧ (∀ u ∈ cmt, u ≤ 255) ∧
      (∀ u, cmt.head? = some u → isWhiteSpace u = false) ∧
      (∀ u, cmt.getLast? = some u → isWhiteSpace u = false)) :
    ∃ s, get_sauce ((add_sauce_for_ans doc body today).map toUint8) = some s ∧
      s.columns = some (doc.columns : Int) ∧ s.rows = some (JsNumber.int doc.rows) ∧
      s.comments = doc.comments := by
  unfold add_sauce_for_ans
  obtain ⟨block, _, hout, _, hblen, hblock⟩ := add_sauce_bytes_parts doc 1 1 body today
  obtain ⟨hlen, _, hsig, h94, h104, hdims⟩ := sauce_record_bytes doc 1 1 body.length today _ rfl
  obtain ⟨h96, h97, h98, h99⟩ := hdims (by decide)
  have hn : (sauceFlags doc 1 (sauceHeader doc 1 1 body.length today)).getD 104 0
      = (doc.comments.length : Int) := by
    rw [h104]
    unfold toUint8
    omega
  have hcomments : get_sauce_comments
      ((body.map toInt8).map toUint8 ++ [27] ++ block ++
        sauceFlags doc 1 (sauceHeader doc 1 1 body.length today))
      ((sauceFlags doc 1 (sauceHeader doc 1 1 body.length today)).getD 104 0)
      = some doc.comments := by
    rw [hn]
    by_cases h0 : doc.comments.length = 0
    · rw [h0]
      have : doc.comments = [] := List.length_eq_zero.mp h0
      rw [this]
      exact get_sauce_comments_zero _
    · obtain ⟨h5, hf⟩ := hblock h0
      rw [if_neg h0] at hblen
      rw [get_sauce_comments_block _ block _ doc.comments.length hlen (by omega) h5 h0]
      congr 1
      apply List.ext_getElem (by simp)
      intro i h1 h2
      simp only [List.length_map, List.length_range] at h1
      rw [List.getElem_map, List.getElem_range]
      have hget : doc.comments.getD i [] = doc.comments[i] := by
        rw [List.getD_eq_getElem?_getD, List.getElem?_eq_getElem h2]
        rfl
      obtain ⟨q1, q2, q3, q4⟩ := hlines doc.comments[i] (List.getElem_mem _)
      exact comment_line_decoded block doc.comments[i] i
        (fun t ht => by rw [hf i t h1 ht, hget]) (by omega) q1 q2 q3 q4
  rw [hout]
  refine ⟨_, get_sauce_record _ _ doc.comments hlen hsig hcomments, ?_, ?_, rfl⟩
  · have e94 : ¬ ((sauceFlags doc 1 (sauceHeader doc 1 1 body.length today)).getD 94 0 = 5) := by
      rw [h94]
      decide
    simp only [if_neg e94, h96, h97]
    rw [two_bytes_decoded doc.columns hcolumns]
  · have e94 : ¬ ((sauceFlags doc 1 (sauceHeader doc 1 1 body.length today)).getD 94 0 = 5) := by
      rw [h94]
      decide
    simp only [if_neg e94, h98, h99]
    rw [two_bytes_decoded doc.rows hrows]

/-- Witness of the amended C15: a 90 x 30 Document with the comment "hello". -/
theorem sauce_roundtrip_ans_witness :
    (headerOf 90 30 [[104, 101, 108, 108, 111]]).columns ≤ 65535 ∧
    (headerOf 90 30 [[104, 101, 108, 108, 111]]).comments.length ≤ 255 ∧
    ∃ s, get_sauce ((add_sauce_for_ans (headerOf 90 30 [[104, 101, 108, 108, 111]])
        [65, 66, 67] sampleDate).map toUint8) = some s ∧
      s.columns = some ((headerOf 90 30 [[104, 101, 108, 108, 111]]).columns : Int) ∧
      s.rows = some (JsNumber.int (headerOf 90 30 [[104, 101, 108, 108, 111]]).rows) ∧
      s.comments = (headerOf 90 30 [[104, 101, 108, 108, 111]]).comments :=
  ⟨by decide, by decide,
    sauce_roundtrip_ans (headerOf 90 30 [[104, 101, 108, 108, 111]]) [65, 66, 67] sampleDate
      (by decide) (by decide) (by decide) (by decide)⟩

/-- C16 fails on the code: for every Document and body the element of the result
of `add_sauce_bytes` at index `body.length` is 27 (0x1B, ESC), not 0x1A (26, SUB).
The rest of the layout is as the claim says: the first `body.length` elements are
the body, then come the comment block of `5 + 64 * n` bytes when there are
`n > 0` comments and the record, whose 128 bytes are the last ones and begin with
"SAUCE00". -/
theorem add_sauce_bytes_separator (doc : Doc) (data_type file_type : Nat) (body : List Int)
    (today : List Nat) :
    (add_sauce_bytes doc data_type file_type body today)[body.length]? = some 27 ∧
    (27 : Int) ≠ 0x1A ∧
    (add_sauce_bytes doc data_type file_type body today).take body.length
      = body.map toInt8 ∧
    (add_sauce_bytes doc data_type file_type body today).length
      = body.length + 1 +
        (if doc.comments.length = 0 then 0 else 5 + 64 * doc.comments.length) + 128 ∧
    ((add_sauce_bytes doc data_type file_type body today).drop
      (body.length + 1 +
        (if doc.comments.length = 0 then 0 else 5 + 64 * doc.comments.length))).take 7
      = sauceSignature := by
  obtain ⟨block, hout, _, _, hblen, _⟩ :=
    add_sauce_bytes_parts doc data_type file_type body today
  obtain ⟨hlen, _, hsig, _, _, _⟩ :=
    sauce_record_bytes doc data_type file_type body.length today _ rfl
  rw [hout, ← hblen]
  refine ⟨?_, by decide, ?_, ?_, ?_⟩
  · rw [List.append_assoc, List.getElem?_append_right (by simp)]
    simp
  · rw [List.append_assoc, List.take_append_of_le_length (by simp)]
    simp
  · simp only [List.length_append, List.length_map, List.length_cons, List.length_nil, hlen]
    omega
  · have e : body.length + 1 + block.length
        = (List.map toInt8 body ++ [27] ++ List.map toInt8 block).length := by
      simp
      omega
    rw [List.map_append, ← List.append_assoc, e, List.drop_left, ← List.map_take, hsig]
    decide

/-- The failing input of C16: a Document without comments and the body "ABC". -/
theorem add_sauce_bytes_separator_example :
    (add_sauce_for_ans (headerOf 80 25 []) [65, 66, 67] sampleDate).take 11
      = [65, 66, 67, 27, 83, 65, 85, 67, 69, 48, 48] := by
  decide!


/-! ## The flips cell by cell -/

set_option maxRecDepth 100000 in
theorem flip_code_x_off_keys_byte :
    ∀ c < 256, c ∉ flip_code_x_keys → flip_code_x c = c := by
  decide

set_option maxRecDepth 100000 in
theorem flip_code_y_off_keys_byte :
    ∀ c < 256, c ∉ flip_code_y_keys → flip_code_y c = c := by
  decide

/-- C25: for every well-formed Document `d` with `C` columns and every `x < C`,
`y < rows`, the cell of `flip_x(d)` at `(x, y)` is the cell of `d` at
`(C - 1 - x, y)` with its code replaced by `flip_code_x(code)` and every other
field unchanged; `flip_code_x` returns its argument for every code that is not one
of its 40 case labels, which are pairwise different and each of which it moves. -/
theorem flip_x_cell_by_cell (d : Doc) (cells : List Block)
    (h : d.data = some (cells.map some)) (hlen : cells.length = d.columns * d.rows) :
    (∃ (d' : Doc) (cells' : List Block), flip_x d = some d' ∧
      d'.columns = d.columns ∧ d'.rows = d.rows ∧ d'.data = some (cells'.map some) ∧
      cells'.length = d.columns * d.rows ∧
      ∀ x y, x < d.columns → y < d.rows →
        ∃ b, cells[cellIndex d.columns (d.columns - 1 - x) y]? = some b ∧
          cells'[cellIndex d.columns x y]? =
            some { code := b.code.map flip_code_x, fg := b.fg, bg := b.bg,
                   fg_rgb := b.fg_rgb, bg_rgb := b.bg_rgb }) ∧
    (∀ c, c ∉ flip_code_x_keys → flip_code_x c = c) ∧
    flip_code_x_keys.length = 40 ∧ flip_code_x_keys.Nodup ∧
    ∀ c ∈ flip_code_x_keys, flip_code_x c ≠ c := by
  refine ⟨?_, ?_, rfl, by decide, by decide⟩
  · obtain ⟨cells', hf, hl, hp⟩ := flip_x_cells d cells h hlen
    refine ⟨_, cells', hf, rfl, rfl, rfl, by rw [hl, hlen], ?_⟩
    intro x y hx hy
    have hlt : cellIndex d.columns (d.columns - 1 - x) y < cells.length := by
      have := grid_index_lt d.columns d.rows y (d.columns - 1 - x) hy (by omega)
      have := Nat.mul_comm d.columns y
      unfold cellIndex
      omega
    refine ⟨cells[cellIndex d.columns (d.columns - 1 - x) y], List.getElem?_eq_getElem hlt, ?_⟩
    rw [hp x y hx hy, List.getElem?_eq_getElem hlt]
    rfl
  · intro c hc
    rcases Nat.lt_or_ge c 256 with h256 | h256
    · exact flip_code_x_off_keys_byte c h256 hc
    · exact flip_code_x_unlisted c h256

/-- Witness of C25 on a 3 x 2 Document. -/
theorem flip_x_cell_by_cell_witness :
    (documentOf 3 2 sampleCells).data = some (sampleCells.map some) ∧
    (∃ (d' : Doc) (cells' : List Block), flip_x (documentOf 3 2 sampleCells) = some d' ∧
      d'.columns = 3 ∧ d'.rows = 2 ∧ d'.data = some (cells'.map some) ∧
      cells'.length = 3 * 2 ∧
      ∀ x y, x < 3 → y < 2 →
        ∃ b, sampleCells[cellIndex 3 (3 - 1 - x) y]? = some b ∧
          cells'[cellIndex 3 x y]? =
            some { code := b.code.map flip_code_x, fg := b.fg, bg := b.bg,
                   fg_rgb := b.fg_rgb, bg_rgb := b.bg_rgb }) ∧
    (∀ c, c ∉ flip_code_x_keys → flip_code_x c = c) ∧
    flip_code_x_keys.length = 40 ∧ flip_code_x_keys.Nodup ∧
    ∀ c ∈ flip_code_x_keys, flip_code_x c ≠ c :=
  ⟨rfl, flip_x_cell_by_cell (documentOf 3 2 sampleCells) sampleCells rfl rfl⟩

/-- C26: for every well-formed Document `d` with `R` rows and every `x < columns`,
`y < R`, the cell of `flip_y(d)` at `(x, y)` is the cell of `d` at
`(x, R - 1 - y)` with its code replaced by `flip_code_y(code)` and every other
field unchanged; `flip_code_y` returns its argument for every code that is not one
of its 26 case labels, which are pairwise different and each of which it moves. -/
theorem flip_y_cell_by_cell (d : Doc) (cells : List Block)
    (h : d.data = some (cells.map some)) (hlen : cells.length = d.columns * d.rows) :
    (∃ (d' : Doc) (cells' : List Block), flip_y d = some d' ∧
      d'.columns = d.columns ∧ d'.rows = d.rows ∧ d'.data = some (cells'.map some) ∧
      cells'.length = d.columns * d.rows ∧
      ∀ x y, x < d.columns → y < d.rows →
        ∃ b, cells[cellIndex d.columns x (d.rows - 1 - y)]? = some b ∧
          cells'[cellIndex d.columns x y]? =
            some { code := b.code.map flip_code_y, fg := b.fg, bg := b.bg,
                   fg_rgb := b.fg_rgb, bg_rgb := b.bg_rgb }) ∧
    (∀ c, c ∉ flip_code_y_keys → flip_code_y c = c) ∧
    flip_code_y_keys.length = 26 ∧ flip_code_y_keys.Nodup ∧
    ∀ c ∈ flip_code_y_keys, flip_code_y c ≠ c := by
  refine ⟨?_, ?_, rfl, by decide, by decide⟩
  · obtain ⟨cells', hf, hl, hp⟩ := flip_y_cells d cells h hlen
    refine ⟨_, cells', hf, rfl, rfl, rfl, by rw [hl, hlen], ?_⟩
    intro x y hx hy
    have hlt : cellIndex d.columns x (d.rows - 1 - y) < cells.length := by
      have := grid_index_lt d.columns d.rows (d.rows - 1 - y) x (by omega) hx
      have := Nat.mul_comm d.columns (d.rows - 1 - y)
      unfold cellIndex
      omega
    refine ⟨cells[cellIndex d.columns x (d.rows - 1 - y)], List.getElem?_eq_getElem hlt, ?_⟩
    rw [hp x y hx hy, List.getElem?_eq_getElem hlt]
    rfl
  · intro c hc
    rcases Nat.lt_or_ge c 256 with h256 | h256
    · exact flip_code_y_off_keys_byte c h256 hc
    · exact flip_code_y_unlisted c h256

/-- Witness of C26 on a 3 x 2 Document. -/
theorem flip_y_cell_by_cell_witness :
    (documentOf 3 2 sampleCells).data = some (sampleCells.map some) ∧
    (∃ (d' : Doc) (cells' : List Block), flip_y (documentOf 3 2 sampleCells) = some d' ∧
      d'.columns = 3 ∧ d'.rows = 2 ∧ d'.data = some (cells'.map some) ∧
      cells'.length = 3 * 2 ∧
      ∀ x y, x < 3 → y < 2 →
        ∃ b, sampleCells[cellIndex 3 x (2 - 1 - y)]? = some b ∧
          cells'[cellIndex 3 x y]? =
            some { code := b.code.map flip_code_y, fg := b.fg, bg := b.bg,
                   fg_rgb := b.fg_rgb, bg_rgb := b.bg_rgb }) ∧
    (∀ c, c ∉ flip_code_y_keys → flip_code_y c = c) ∧
    flip_code_y_keys.length = 26 ∧ flip_code_y_keys.Nodup ∧
    ∀ c ∈ flip_code_y_keys, flip_code_y c ≠ c :=
  ⟨rfl, flip_y_cell_by_cell (documentOf 3 2 sampleCells) sampleCells rfl rfl⟩

/-! ## The two flips together -/

/-- C28 fails on the code: `flip_code_x` has no case for 184 and 213, the mirror
images of each other, while `flip_code_y` exchanges 184 with 190 and 212 with 213
and `flip_code_x` exchanges 190 with 212.  So `flip_code_y(flip_code_x(184))` is
190 and `flip_code_x(flip_code_y(184))` is 212; the two orders differ on 184, 190,
212 and 213 and on no other code in 0..255, and on the 1 x 1 Document whose cell
has code 184 the two orders of the flips leave the codes 190 and 212. -/
theorem flip_codes_do_not_commute :
    flip_code_y (flip_code_x 184) = 190 ∧ flip_code_x (flip_code_y 184) = 212 ∧
    (List.range 256).filter
      (fun c => flip_code_y (flip_code_x c) != flip_code_x (flip_code_y c))
        = [184, 190, 212, 213] ∧
    (flip_x (documentOf 1 1 [plainCell 184 7 0])).bind flip_y
      = some (documentOf 1 1 [plainCell 190 7 0]) ∧
    (flip_y (documentOf 1 1 [plainCell 184 7 0])).bind flip_x
      = some (documentOf 1 1 [plainCell 212 7 0]) := by
  decide

/-! ## Lemmas on `trim` and on a record whose comments cannot be read -/

/-- The method `trim` removes white space at both ends and nothing else. -/
theorem trim_isTrimOf (s : List Nat) : IsTrimOf s (trim s) := by
  have hs : s = s.takeWhile isWhiteSpace ++ s.dropWhile isWhiteSpace :=
    (List.takeWhile_append_dropWhile isWhiteSpace s).symm
  have hu : (s.dropWhile isWhiteSpace).reverse
      = (s.dropWhile isWhiteSpace).reverse.takeWhile isWhiteSpace
        ++ (s.dropWhile isWhiteSpace).reverse.dropWhile isWhiteSpace :=
    (List.takeWhile_append_dropWhile isWhiteSpace _).symm
  have hu2 : s.dropWhile isWhiteSpace
      = trim s ++ ((s.dropWhile isWhiteSpace).reverse.takeWhile isWhiteSpace).reverse := by
    have := congrArg List.reverse hu
    rw [List.reverse_reverse, List.reverse_append] at this
    exact this
  refine ⟨s.takeWhile isWhiteSpace,
    ((s.dropWhile isWhiteSpace).reverse.takeWhile isWhiteSpace).reverse, ?_, ?_, ?_, ?_, ?_⟩
  · rw [List.append_assoc, ← hu2]
    exact hs
  · intro c hc
    exact List.mem_takeWhile_imp hc
  · intro c hc
    exact List.mem_takeWhile_imp (List.mem_reverse.mp hc)
  · intro c hc
    -- the head of `trim s` is the head of `s.dropWhile isWhiteSpace`
    have hne : trim s ≠ [] := by
      intro h
      rw [h] at hc
      simp at hc
    have hhead : (s.dropWhile isWhiteSpace).head? = some c := by
      rw [hu2, List.head?_append_of_ne_nil _ hne]
      exact hc
    have := List.head?_dropWhile_not isWhiteSpace s
    rw [hhead] at this
    simpa using this
  · intro c hc
    unfold trim at hc
    rw [List.getLast?_reverse] at hc
    have := List.head?_dropWhile_not isWhiteSpace (s.dropWhile isWhiteSpace).reverse
    rw [hc] at this
    simpa using this

/-- When the comments cannot be read, `get_sauce` throws. -/
theorem get_sauce_throws (front record : List Int)
    (hlen : record.length = 128) (hsig : record.take 7 = sauceSignature)
    (hc : get_sauce_comments (front ++ record) (record.getD 104 0) = none) :
    get_sauce (front ++ record) = none := by
  obtain ⟨s1, s2⟩ := signature_accepted record hlen hsig
  unfold get_sauce
  simp only [subarray_record front record hlen]
  rw [if_pos ⟨by simp [hlen], s1, s2⟩, hc]

/-- A block of typed-array elements whose first five decode to "COMNT" starts with
these five bytes. -/
theorem comment_signature_exact (block : List Int) (hlen : 5 ≤ block.length)
    (hrange : ∀ b ∈ block, -128 ≤ b ∧ b ≤ 255)
    (h : bytes_to_string block 0 5 = [67, 79, 77, 78, 84]) :
    block.take 5 = commentSignature := by
  rw [bytes_to_string_inside block 0 5 (by omega), List.drop_zero] at h
  have e := trim_eq_self_of_length _ (by rw [h]; simp; omega)
  rw [e] at h
  have f := map_fromCharCode_ascii _ _
    (fun b hb => hrange b (List.mem_of_mem_take hb)) (by decide) h
  rw [f]
  rfl

/-! ## The SAUCE record: the comment block and the text fields -/

/-- C21: for every input that ends with a block of `5 + 64 * count` bytes and a
valid SAUCE record (128 bytes that start with "SAUCE00") whose comment count byte
at offset 104 is `count`, `get_sauce` throws exactly when `count > 0` and the first
5 bytes of the block are not "COMNT"; otherwise it returns a record with exactly
`count` comments, the `i`-th being the 64 bytes at offset `5 + 64 * i` of the block
turned into characters and trimmed. -/
theorem get_sauce_comment_block_contract (front block record : List Int) (n : Nat)
    (hlen : record.length = 128) (hsig : record.take 7 = sauceSignature)
    (hn : record.getD 104 0 = (n : Int)) (hblock : block.length = 5 + 64 * n)
    (hrange : ∀ b ∈ block, -128 ≤ b ∧ b ≤ 255) :
    (get_sauce (front ++ block ++ record) = none ↔
      0 < n ∧ block.take 5 ≠ commentSignature) ∧
    (¬ (0 < n ∧ block.take 5 ≠ commentSignature) →
      ∃ s, get_sauce (front ++ block ++ record) = some s ∧ s.comments.length = n ∧
        ∀ i, i < n →
          s.comments[i]? =
            some (trim (((block.drop (5 + 64 * i)).take 64).map fromCharCode))) := by
  have hb : block.length = n * 64 + 5 := by omega
  by_cases h0 : n = 0
  · subst h0
    have hc : get_sauce_comments (front ++ block ++ record) (record.getD 104 0) = some [] := by
      rw [hn]
      exact get_sauce_comments_zero _
    have hs := get_sauce_record (front ++ block) record [] hlen hsig hc
    refine ⟨?_, ?_⟩
    · rw [hs]
      simp
    · intro _
      exact ⟨_, hs, rfl, fun i hi => absurd hi (Nat.not_lt_zero _)⟩
  · by_cases hsg : block.take 5 = commentSignature
    · have hc : get_sauce_comments (front ++ block ++ record) (record.getD 104 0)
          = some ((List.range n).map (fun i => bytes_to_string block (5 + i * 64) 64)) := by
        rw [hn]
        exact get_sauce_comments_block front block record n hlen hb hsg h0
      have hs := get_sauce_record (front ++ block) record _ hlen hsig hc
      refine ⟨?_, ?_⟩
      · rw [hs]
        simp [hsg]
      · intro _
        refine ⟨_, hs, by simp, ?_⟩
        intro i hi
        simp only
        rw [List.getElem?_map, List.getElem?_range hi]
        simp only [Option.map_some', Option.some.injEq]
        rw [bytes_to_string_inside block (5 + i * 64) 64 (by omega), Nat.mul_comm i 64]
    · have hbad : bytes_to_string block 0 5 ≠ [67, 79, 77, 78, 84] :=
        fun h => hsg (comment_signature_exact block (by omega) hrange h)
      have hc : get_sauce_comments (front ++ block ++ record) (record.getD 104 0) = none := by
        rw [hn]
        exact get_sauce_comments_bad front block record n hlen hb hbad h0
      have hs := get_sauce_throws (front ++ block) record hlen hsig hc
      refine ⟨?_, ?_⟩
      · rw [hs]
        simp only [true_iff]
        exact ⟨by omega, hsg⟩
      · intro hnot
        exact absurd ⟨by omega, hsg⟩ hnot

set_option maxRecDepth 100000 in
/-- Witness of C21: one comment line "hi" after "COMNT". -/
theorem get_sauce_comment_block_contract_witness :
    (recordWith [(104, 1)]).take 7 = sauceSignature ∧
    ((get_sauce ([1, 2, 3] ++ (commentSignature ++ ([104, 105] ++ List.replicate 62 32))
        ++ recordWith [(104, 1)]) = none ↔
      0 < 1 ∧ (commentSignature ++ ([104, 105] ++ List.replicate 62 32)).take 5
        ≠ commentSignature) ∧
    (¬ (0 < 1 ∧ (commentSignature ++ ([104, 105] ++ List.replicate 62 32)).take 5
        ≠ commentSignature) →
      ∃ s, get_sauce ([1, 2, 3] ++ (commentSignature ++ ([104, 105] ++ List.replicate 62 32))
          ++ recordWith [(104, 1)]) = some s ∧ s.comments.length = 1 ∧
        ∀ i, i < 1 →
          s.comments[i]? =
            some (trim ((((commentSignature ++ ([104, 105] ++ List.replicate 62 32)).drop
              (5 + 64 * i)).take 64).map fromCharCode)))) :=
  ⟨by decide, get_sauce_comment_block_contract [1, 2, 3]
    (commentSignature ++ ([104, 105] ++ List.replicate 62 32))
    (recordWith [(104, 1)]) 1 (by decide) (by decide) (by decide) (by decide) (by decide)⟩

/-- C22 as stated fails: for a record whose title field is a space, the letter A
and 33 spaces, `get_sauce` returns the title "A": the leading space is removed
together with the trailing ones. -/
theorem get_sauce_drops_leading_space :
    ((recordWithTitle.drop 7).take 35).map Int.toNat = [32, 65] ++ List.replicate 33 32 ∧
    Option.map Sauce.title (get_sauce recordWithTitle) = some [65] := by
  decide!

/-- C22 amended: for every input with a valid SAUCE record of unsigned bytes (the
record starts with "SAUCE00", and a nonzero comment count `n` comes with a block of
`5 + 64 * n` bytes that starts with "COMNT" right before the record), the title,
author, group and date that `get_sauce` returns are the bytes of their fields (35
at offset 7, 20 at 42, 20 at 62, 8 at 82) decoded as Latin-1 with white space
removed at both ends: the field is `pre ++ text ++ post` with `pre` and `post`
made of white space, and the text neither starts nor ends with white space.
Leading spaces are removed like trailing ones. -/
theorem get_sauce_text_fields (front block record : List Int) (n : Nat)
    (hlen : record.length = 128) (hsig : record.take 7 = sauceSignature)
    (hn : record.getD 104 0 = (n : Int))
    (hblock : n ≠ 0 → block.length = n * 64 + 5 ∧ block.take 5 = commentSignature)
    (hbytes : IsUint8Array record) :
    ∃ s date, get_sauce (front ++ block ++ record) = some s ∧ s.date = some date ∧
      IsTrimOf (latin1Field record 7 35) s.title ∧
      IsTrimOf (latin1Field record 42 20) s.author ∧
      IsTrimOf (latin1Field record 62 20) s.group ∧
      IsTrimOf (latin1Field record 82 8) date := by
  obtain ⟨comments, hc, _⟩ := get_sauce_comments_valid front block record n hlen hn hblock
  have key : ∀ offset size, offset + size ≤ 128 →
      IsTrimOf (latin1Field record offset size) (bytes_to_string record offset size) := by
    intro offset size h
    rw [bytes_to_string_inside record offset size (by omega)]
    have e : ((record.drop offset).take size).map fromCharCode
        = latin1Field record offset size := by
      unfold latin1Field
      apply List.map_congr_left
      intro b hb
      obtain ⟨h1, h2⟩ := hbytes b (List.mem_of_mem_drop (List.mem_of_mem_take hb))
      unfold fromCharCode
      congr 1
      omega
    rw [e]
    exact trim_isTrimOf _
  exact ⟨_, _, get_sauce_record (front ++ block) record comments hlen hsig hc, rfl,
    key 7 35 (by omega), key 42 20 (by omega), key 62 20 (by omega), key 82 8 (by omega)⟩

set_option maxRecDepth 100000 in
/-- Witness of the amended C22: the record whose title field starts with a space. -/
theorem get_sauce_text_fields_witness :
    recordWithTitle.length = 128 ∧
    ∃ s date, get_sauce ([] ++ [] ++ recordWithTitle) = some s ∧ s.date = some date ∧
      IsTrimOf (latin1Field recordWithTitle 7 35) s.title ∧
      IsTrimOf (latin1Field recordWithTitle 42 20) s.author ∧
      IsTrimOf (latin1Field recordWithTitle 62 20) s.group ∧
      IsTrimOf (latin1Field recordWithTitle 82 8) date :=
  ⟨by decide, get_sauce_text_fields [] [] recordWithTitle 0 (by decide) (by decide)
    (by decide) (fun h => absurd rfl h) (by unfold IsUint8Array; decide)⟩

/-! ## Lemmas on the bytes of the record `add_sauce_bytes` builds -/

/-- The stores of the header after the text fields leave the bytes before offset
90 and from offset 105 on as the text fields left them. -/
theorem sauceHeader_outside_stores (doc : Doc) (data_type file_type file_length : Nat)
    (today : List Nat) (j : Nat) (hj : j < 90 ∨ 105 ≤ j) :
    (sauceHeader doc data_type file_type file_length today)[j]? =
      (add_text (add_text (add_text (add_text (add_text (List.replicate 128 (0 : Int))
        0 [83, 65, 85, 67, 69, 48, 48] 7) 7 doc.title 35) 42 doc.author 20)
        62 doc.group 20) 82 today 8)[j]? := by
  unfold sauceHeader
  generalize List.replicate 128 (0 : Int) = zeros
  simp only
  rw [uint8Store_getElem?_ne _ _ _ _ (show j ≠ 104 by omega), ite_getElem?]
  simp only [uint8Store_getElem?_ne _ _ _ _ (show j ≠ 99 by omega),
    uint8Store_getElem?_ne _ _ _ _ (show j ≠ 98 by omega),
    uint8Store_getElem?_ne _ _ _ _ (show j ≠ 97 by omega),
    uint8Store_getElem?_ne _ _ _ _ (show j ≠ 96 by omega),
    uint8Store_getElem?_ne _ _ _ _ (show j ≠ 95 by omega),
    uint8Store_getElem?_ne _ _ _ _ (show j ≠ 94 by omega),
    uint8Store_getElem?_ne _ _ _ _ (show j ≠ 93 by omega),
    uint8Store_getElem?_ne _ _ _ _ (show j ≠ 92 by omega),
    uint8Store_getElem?_ne _ _ _ _ (show j ≠ 91 by omega),
    uint8Store_getElem?_ne _ _ _ _ (show j ≠ 90 by omega), ite_self]

/-- The text fields of the header: the signature, then the title, the author, the
group and the date, each padded with spaces to the width of its field. -/
theorem sauceHeader_text (doc : Doc) (data_type file_type file_length : Nat)
    (today : List Nat) (j : Nat) (hj : j < 90) :
    (sauceHeader doc data_type file_type file_length today)[j]? =
      if j < 7 then some (fieldByte [83, 65, 85, 67, 69, 48, 48] j)
      else if j < 42 then some (fieldByte doc.title (j - 7))
      else if j < 62 then some (fieldByte doc.author (j - 42))
      else if j < 82 then some (fieldByte doc.group (j - 62))
      else some (fieldByte today (j - 82)) := by
  rw [sauceHeader_outside_stores _ _ _ _ _ _ (Or.inl hj)]
  generalize hz : List.replicate 128 (0 : Int) = zeros
  have hzl : zeros.length = 128 := by
    rw [← hz]
    exact List.length_replicate _ _
  by_cases h82 : 82 ≤ j
  · rw [add_text_getElem?_field _ _ _ _ _ h82 (by omega) (by simp [add_text_length, hzl]; omega),
      if_neg (by omega), if_neg (by omega), if_neg (by omega), if_neg (by omega)]
  · rw [add_text_getElem?_before _ _ _ _ _ (by omega)]
    by_cases h62 : 62 ≤ j
    · rw [add_text_getElem?_field _ _ _ _ _ h62 (by omega)
          (by simp [add_text_length, hzl]; omega),
        if_neg (by omega), if_neg (by omega), if_neg (by omega), if_pos (by omega)]
    · rw [add_text_getElem?_before _ _ _ _ _ (by omega)]
      by_cases h42 : 42 ≤ j
      · rw [add_text_getElem?_field _ _ _ _ _ h42 (by omega)
            (by simp [add_text_length, hzl]; omega),
          if_neg (by omega), if_neg (by omega), if_pos (by omega)]
      · rw [add_text_getElem?_before _ _ _ _ _ (by omega)]
        by_cases h7 : 7 ≤ j
        · rw [add_text_getElem?_field _ _ _ _ _ h7 (by omega)
              (by simp [add_text_length, hzl]; omega),
            if_neg (by omega), if_pos (by omega)]
        · rw [add_text_getElem?_before _ _ _ _ _ (by omega),
            add_text_getElem?_field _ _ _ _ _ (Nat.zero_le j) (by omega)
              (by simp [hzl]; omega),
            if_pos (by omega)]
          rfl

/-- The bytes of the header from offset 105 on are zero. -/
theorem sauceHeader_tail (doc : Doc) (data_type file_type file_length : Nat)
    (today : List Nat) (j : Nat) (h1 : 105 ≤ j) (h2 : j < 128) :
    (sauceHeader doc data_type file_type file_length today)[j]? = some 0 := by
  rw [sauceHeader_outside_stores _ _ _ _ _ _ (Or.inr h1)]
  rw [add_text_getElem?_after _ _ _ _ _ (by omega), add_text_getElem?_after _ _ _ _ _ (by omega),
    add_text_getElem?_after _ _ _ _ _ (by omega), add_text_getElem?_after _ _ _ _ _ (by omega),
    add_text_getElem?_after _ _ _ _ _ (by omega), List.getElem?_replicate, if_pos h2]

/-- The bytes of the header that hold the size of the file and, at offset 95, half
the columns for the data type BIN and the file type otherwise. -/
theorem sauceHeader_size_bytes (doc : Doc) (data_type file_type file_length : Nat)
    (today : List Nat) :
    (sauceHeader doc data_type file_type file_length today)[90]?
      = some (toUint8 (and0xff file_length)) ∧
    (sauceHeader doc data_type file_type file_length today)[91]?
      = some (toUint8 (and0xff (shiftRight file_length 8))) ∧
    (sauceHeader doc data_type file_type file_length today)[92]?
      = some (toUint8 (and0xff (shiftRight file_length 16))) ∧
    (sauceHeader doc data_type file_type file_length today)[93]?
      = some (toUint8 (shiftRight file_length 24)) ∧
    (sauceHeader doc data_type file_type file_length today)[95]?
      = some (if data_type = 5 then toUint8 ((doc.columns / 2 : Nat) : Int)
          else toUint8 file_type) := by
  unfold sauceHeader
  generalize hz : List.replicate 128 (0 : Int) = zeros
  have hzl : zeros.length = 128 := by
    rw [← hz]
    exact List.length_replicate _ _
  simp only
  refine ⟨?_, ?_, ?_, ?_, ?_⟩
  · simp only [ite_getElem?, ite_length, uint8Store_getElem?, add_text_getElem?,
      uint8Store_length, add_text_length, hzl]
    simp
  · simp only [ite_getElem?, ite_length, uint8Store_getElem?, add_text_getElem?,
      uint8Store_length, add_text_length, hzl]
    simp
  · simp only [ite_getElem?, ite_length, uint8Store_getElem?, add_text_getElem?,
      uint8Store_length, add_text_length, hzl]
    simp
  · simp only [ite_getElem?, ite_length, uint8Store_getElem?, add_text_getElem?,
      uint8Store_length, add_text_length, hzl]
    simp
  · simp only [ite_getElem?, ite_length, uint8Store_getElem?, add_text_getElem?,
      uint8Store_length, add_text_length, hzl]
    by_cases h5 : data_type = 5 <;> simp [h5]

/-- A field of `size` bytes that `add_text` filled with a Latin-1 text holds the
first `size` characters of the text, padded with spaces to the width of the
field. -/
theorem padded_field (l : List Int) (text : List Nat) (offset size : Nat)
    (h : ∀ t, t < size → l[offset + t]? = some (fieldByte text t))
    (hlatin : ∀ u ∈ text, u ≤ 255) :
    (l.drop offset).take size =
      (text.take size ++ List.replicate (size - text.length) 32).map
        (fun u : Nat => (u : Int)) := by
  apply List.ext_getElem?
  intro t
  rw [List.getElem?_take, List.getElem?_drop, List.getElem?_map]
  by_cases ht : t < size
  · rw [if_pos ht, h t ht]
    by_cases htc : t < text.length
    · rw [List.getElem?_append_left (by simp; omega), List.getElem?_take, if_pos ht,
        List.getElem?_eq_getElem htc]
      have hu := hlatin text[t] (List.getElem_mem _)
      simp only [Option.map_some', Option.some.injEq]
      unfold fieldByte toUint8
      rw [if_pos htc, List.getD_eq_getElem?_getD, List.getElem?_eq_getElem htc]
      simp only [Option.getD_some]
      omega
    · rw [List.getElem?_append_right (by simp; omega), List.getElem?_replicate,
        if_pos (by simp; omega)]
      simp only [Option.map_some', Option.some.injEq]
      unfold fieldByte
      rw [if_neg htc]
      rfl
  · rw [if_neg ht, List.getElem?_eq_none (by simp; omega)]
    rfl

/-! ## The SAUCE record: the text fields `add_sauce_bytes` writes -/

/-- C23: for every Document with Latin-1 title, author and group of any length,
every data type, file type, body and date, the last 128 bytes of the result of
`add_sauce_bytes` (the elements of the `Int8Array` taken modulo 256) are a record
that holds "SAUCE00" at offsets 0..6 and, at 7..41, 42..61 and 62..81, the first
35, 20 and 20 characters of title, author and group, each padded with spaces (32)
to the width of its field; the date field at 82..89 holds the date, so text beyond
the width of a field reaches no other field. -/
theorem add_sauce_bytes_text_fields (doc : Doc) (data_type file_type : Nat) (body : List Int)
    (today : List Nat) (htitle : ∀ u ∈ doc.title, u ≤ 255)
    (hauthor : ∀ u ∈ doc.author, u ≤ 255) (hgroup : ∀ u ∈ doc.group, u ≤ 255) :
    ∃ front record : List Int,
      (add_sauce_bytes doc data_type file_type body today).map toUint8 = front ++ record ∧
      record.length = 128 ∧ record.take 7 = sauceSignature ∧
      (record.drop 7).take 35 =
        (doc.title.take 35 ++ List.replicate (35 - doc.title.length) 32).map
          (fun u : Nat => (u : Int)) ∧
      (record.drop 42).take 20 =
        (doc.author.take 20 ++ List.replicate (20 - doc.author.length) 32).map
          (fun u : Nat => (u : Int)) ∧
      (record.drop 62).take 20 =
        (doc.group.take 20 ++ List.replicate (20 - doc.group.length) 32).map
          (fun u : Nat => (u : Int)) ∧
      ∀ t, t < 8 → record[82 + t]? = some (fieldByte today t) := by
  obtain ⟨block, _, hout, _, _, _⟩ := add_sauce_bytes_parts doc data_type file_type body today
  obtain ⟨hlen, _, hsig, _, _, _⟩ :=
    sauce_record_bytes doc data_type file_type body.length today _ rfl
  have hfield : ∀ j, j < 90 →
      (sauceFlags doc data_type (sauceHeader doc data_type file_type body.length today))[j]? =
      if j < 7 then some (fieldByte [83, 65, 85, 67, 69, 48, 48] j)
      else if j < 42 then some (fieldByte doc.title (j - 7))
      else if j < 62 then some (fieldByte doc.author (j - 42))
      else if j < 82 then some (fieldByte doc.group (j - 62))
      else some (fieldByte today (j - 82)) := by
    intro j hj
    rw [sauceFlags_getElem? _ _ _ _ (by omega), sauceHeader_text _ _ _ _ _ _ hj]
  refine ⟨_, _, hout, hlen, hsig, ?_, ?_, ?_, ?_⟩
  · apply padded_field _ _ _ _ _ htitle
    intro t ht
    rw [hfield _ (by omega), if_neg (by omega), if_pos (by omega)]
    congr 2
    omega
  · apply padded_field _ _ _ _ _ hauthor
    intro t ht
    rw [hfield _ (by omega), if_neg (by omega), if_neg (by omega), if_pos (by omega)]
    congr 2
    omega
  · apply padded_field _ _ _ _ _ hgroup
    intro t ht
    rw [hfield _ (by omega), if_neg (by omega), if_neg (by omega), if_neg (by omega),
      if_pos (by omega)]
    congr 2
    omega
  · intro t ht
    rw [hfield _ (by omega), if_neg (by omega), if_neg (by omega), if_neg (by omega),
      if_neg (by omega)]
    congr 2
    omega

/-- Witness of C23: a title of 40 characters, an author of one and a group of 20. -/
theorem add_sauce_bytes_text_fields_witness :
    (∀ u ∈ longTitleDoc.title, u ≤ 255) ∧
    ∃ front record : List Int,
      (add_sauce_bytes longTitleDoc 1 1 [65, 66, 67] sampleDate).map toUint8
        = front ++ record ∧
      record.length = 128 ∧ record.take 7 = sauceSignature ∧
      (record.drop 7).take 35 =
        (longTitleDoc.title.take 35 ++ List.replicate (35 - longTitleDoc.title.length) 32).map
          (fun u : Nat => (u : Int)) ∧
      (record.drop 42).take 20 =
        (longTitleDoc.author.take 20
          ++ List.replicate (20 - longTitleDoc.author.length) 32).map
          (fun u : Nat => (u : Int)) ∧
      (record.drop 62).take 20 =
        (longTitleDoc.group.take 20 ++ List.replicate (20 - longTitleDoc.group.length) 32).map
          (fun u : Nat => (u : Int)) ∧
      ∀ t, t < 8 → record[82 + t]? = some (fieldByte sampleDate t) :=
  ⟨by decide, add_sauce_bytes_text_fields longTitleDoc 1 1 [65, 66, 67] sampleDate
    (by decide) (by decide) (by decide)⟩

/-! ## Lemmas on `new_document` and on the indices of the loops -/

theorem forLoop_some {σ : Type} (n : Nat) (body : Nat → σ → σ) (s : σ) :
    forLoop n (fun k st => some (body k st)) s = some (forEach n body s) := by
  induction n with
  | zero => rfl
  | succ n ih => rw [forLoop_succ, ih, forEach_succ]; rfl

/-- The loop of `new_document` fills every slot. -/
theorem fill_forEach {α : Type} (n : Nat) (b : α) :
    forEach n (fun i data => arraySet data i b) (newArray n) = List.replicate n (some b) := by
  have h := fill_loop n b
  rw [forLoop_some] at h
  exact Option.some.inj h

theorem mem_loopIndices (Y X : Nat) (f : Nat → Nat → Nat) (k : Nat) :
    k ∈ loopIndices Y X f ↔ ∃ y x, y < Y ∧ x < X ∧ f y x = k := by
  unfold loopIndices
  simp only [List.mem_flatMap, List.mem_map, List.mem_range]
  constructor
  · rintro ⟨y, hy, x, hx, h⟩
    exact ⟨y, x, hy, hx, h⟩
  · rintro ⟨y, x, hy, hx, h⟩
    exact ⟨y, hy, x, hx, h⟩

/-- An index expression that takes different values in different iterations takes
no value twice. -/
theorem nodup_loopIndices (Y X : Nat) (f : Nat → Nat → Nat)
    (hinj : ∀ y x y' x', y < Y → x < X → y' < Y → x' < X → f y x = f y' x' →
      y = y' ∧ x = x') :
    (loopIndices Y X f).Nodup := by
  unfold loopIndices
  rw [List.nodup_flatMap]
  constructor
  · intro y hy
    rw [List.mem_range] at hy
    apply List.Nodup.map_on _ (List.nodup_range X)
    intro x hx x' hx' h
    rw [List.mem_range] at hx hx'
    exact (hinj y x y x' hy hx hy hx' h).2
  · apply List.Pairwise.imp_of_mem _ (List.pairwise_lt_range Y)
    intro y y' hy hy' hlt
    rw [List.mem_range] at hy hy'
    simp only [Function.onFun]
    rw [List.disjoint_left]
    intro k hk hk'
    rw [List.mem_map] at hk hk'
    obtain ⟨x, hx, h1⟩ := hk
    obtain ⟨x', hx', h2⟩ := hk'
    rw [List.mem_range] at hx hx'
    have := (hinj y x y' x' hy hx hy' hx' (h1.trans h2.symm)).1
    omega

/-- The loops give an index once when some iteration gives it, and never
otherwise. -/
theorem count_loopIndices (Y X : Nat) (f : Nat → Nat → Nat)
    (hinj : ∀ y x y' x', y < Y → x < X → y' < Y → x' < X → f y x = f y' x' →
      y = y' ∧ x = x') (k : Nat) :
    ((∃ y x, y < Y ∧ x < X ∧ f y x = k) → (loopIndices Y X f).count k = 1) ∧
    ((¬ ∃ y x, y < Y ∧ x < X ∧ f y x = k) → (loopIndices Y X f).count k = 0) := by
  constructor
  · intro h
    exact List.count_eq_one_of_mem (nodup_loopIndices Y X f hinj)
      ((mem_loopIndices Y X f k).mpr h)
  · intro h
    exact List.count_eq_zero_of_not_mem (fun hm => h ((mem_loopIndices Y X f k).mp hm))

theorem count_range (n k : Nat) : (List.range n).count k = if k < n then 1 else 0 := by
  rw [List.count_eq_of_nodup (List.nodup_range n)]
  simp only [List.mem_range]

theorem wellFormed_of_cells (d : Doc) (cells : List Block) (h : d.data = some (cells.map some))
    (hlen : cells.length = d.columns * d.rows) : WellFormed d :=
  ⟨cells, h, hlen⟩

/-- The Document `new_document` returns is well-formed when the supplied `data` is
absent, has another length than `columns * rows`, or has a cell in every slot. -/
theorem new_document_wellFormed (options : Doc) (today : List Nat)
    (hdata : ∀ data, options.data = some data →
      data.length = options.columns * options.rows → ∃ cells : List Block, data = cells.map some) :
    WellFormed (new_document options today) := by
  have hfresh : ∀ n : Nat, ∃ cells : List Block,
      forEach n (fun i data => arraySet data i
        ({ fg := some 7, bg := some 0, code := some 32, fg_rgb := none, bg_rgb := none } : Block))
        (newArray n) = cells.map some ∧ cells.length = n := by
    intro n
    refine ⟨List.replicate n blankCell, ?_, by simp⟩
    rw [fill_forEach, List.map_replicate]
    rfl
  obtain ⟨fresh, hf, hfl⟩ := hfresh (options.columns * options.rows)
  unfold WellFormed new_document
  simp only
  cases hd : options.data with
  | none => exact ⟨fresh, by rw [hf], hfl⟩
  | some data =>
    by_cases hl : data.length = options.columns * options.rows
    · obtain ⟨cells, hc⟩ := hdata data hd hl
      refine ⟨cells, ?_, ?_⟩
      · simp only
        rw [if_neg (not_not.mpr hl), hc]
      · rw [hc, List.length_map] at hl
        exact hl
    · exact ⟨fresh, by simp only; rw [if_pos hl, hf], hfl⟩

/-- The loops of `flip_x` assign every slot of the new grid exactly once. -/
theorem flip_x_writes_once (d : Doc) :
    (∀ k, k < d.columns * d.rows → (flip_x_writes d).count k = 1) ∧
    ∀ k ∈ flip_x_writes d, k < d.columns * d.rows := by
  have hinj : ∀ y x y' x', y < d.rows → x < d.columns → y' < d.rows → x' < d.columns →
      d.columns * y + d.columns - 1 - x = d.columns * y' + d.columns - 1 - x' →
      y = y' ∧ x = x' := by
    intro y x y' x' hy hx hy' hx' heq
    have := grid_index_inj d.columns y (d.columns - 1 - x) y' (d.columns - 1 - x')
      (by omega) (by omega) (by omega)
    omega
  constructor
  · intro k hk
    apply (count_loopIndices _ _ _ hinj k).1
    obtain ⟨hy, hx, hk'⟩ := grid_index_surj d.columns d.rows k hk
    exact ⟨k / d.columns, d.columns - 1 - k % d.columns, hy, by omega, by omega⟩
  · intro k hk
    obtain ⟨y, x, hy, hx, h⟩ := (mem_loopIndices _ _ _ k).mp hk
    have := grid_index_lt d.columns d.rows y (d.columns - 1 - x) hy (by omega)
    omega

/-- The loops of `flip_y` assign every slot of the new grid exactly once. -/
theorem flip_y_writes_once (d : Doc) :
    (∀ k, k < d.columns * d.rows → (flip_y_writes d).count k = 1) ∧
    ∀ k ∈ flip_y_writes d, k < d.columns * d.rows := by
  have hinj : ∀ y x y' x', y < d.rows → x < d.columns → y' < d.rows → x' < d.columns →
      d.columns * (d.rows - 1 - y) + x = d.columns * (d.rows - 1 - y') + x' →
      y = y' ∧ x = x' := by
    intro y x y' x' hy hx hy' hx' heq
    have := grid_index_inj d.columns (d.rows - 1 - y) x (d.rows - 1 - y') x' hx hx' heq
    omega
  constructor
  · intro k hk
    apply (count_loopIndices _ _ _ hinj k).1
    obtain ⟨hy, hx, hk'⟩ := grid_index_surj d.columns d.rows k hk
    have aux : ∀ q, q < d.rows → d.rows - 1 - q < d.rows ∧ d.rows - 1 - (d.rows - 1 - q) = q :=
      fun q hq => by omega
    obtain ⟨a1, a2⟩ := aux _ hy
    refine ⟨d.rows - 1 - k / d.columns, k % d.columns, a1, hx, ?_⟩
    simp only [a2]
    exact hk'
  · intro k hk
    obtain ⟨y, x, hy, hx, h⟩ := (mem_loopIndices _ _ _ k).mp hk
    have := grid_index_lt d.columns d.rows (d.rows - 1 - y) x (by omega) hx
    omega

/-- The counter of `rotate` assigns every slot of the new grid exactly once. -/
theorem rotate_writes_once (d : Doc) :
    (∀ k, k < d.rows * d.columns → (rotate_writes d).count k = 1) ∧
    ∀ k ∈ rotate_writes d, k < d.rows * d.columns := by
  unfold rotate_writes
  constructor
  · intro k hk
    rw [count_range, if_pos (by rw [Nat.mul_comm]; exact hk)]
  · intro k hk
    rw [List.mem_range, Nat.mul_comm] at hk
    exact hk

/-- The indices `rotate` reads lie in the grid. -/
theorem rotate_reads_in_bounds (d : Doc) : ∀ k ∈ rotate_reads d, k < d.columns * d.rows := by
  intro k hk
  obtain ⟨y, x, hy, hx, h⟩ := (mem_loopIndices _ _ _ k).mp hk
  have := grid_index_lt d.columns d.rows (d.rows - 1 - x) y (by omega) hy
  have := Nat.mul_comm d.columns (d.rows - 1 - x)
  omega

/-- The indices `resize_canvas` reads lie in the grid. -/
theorem resize_canvas_reads_in_bounds (d : Doc) (columns rows : Nat) :
    ∀ k ∈ resize_canvas_reads d columns rows, k < d.columns * d.rows := by
  intro k hk
  obtain ⟨y, x, hy, hx, h⟩ := (mem_loopIndices _ _ _ k).mp hk
  have := grid_index_lt d.columns d.rows y x (by omega) (by omega)
  have := Nat.mul_comm d.columns y
  omega

/-- The first loop of `resize_canvas` assigns every slot of the new grid once, and
the second loop assigns the slots of the copied rectangle once more. -/
theorem resize_canvas_writes_count (d : Doc) (columns rows : Nat) :
    (∀ k, k < columns * rows → (resize_canvas_writes d columns rows).count k =
      if k % columns < min d.columns columns ∧ k / columns < min d.rows rows then 2 else 1) ∧
    ∀ k ∈ resize_canvas_writes d columns rows, k < columns * rows := by
  have hinj : ∀ y x y' x', y < min d.rows rows → x < min d.columns columns →
      y' < min d.rows rows → x' < min d.columns columns →
      y * columns + x = y' * columns + x' → y = y' ∧ x = x' := by
    intro y x y' x' hy hx hy' hx' heq
    rw [Nat.mul_comm y, Nat.mul_comm y'] at heq
    exact grid_index_inj columns y x y' x' (by omega) (by omega) heq
  constructor
  · intro k hk
    unfold resize_canvas_writes
    rw [List.count_append, count_range, if_pos hk]
    obtain ⟨hy, hx, hk'⟩ := grid_index_surj columns rows k hk
    by_cases h : k % columns < min d.columns columns ∧ k / columns < min d.rows rows
    · rw [if_pos h, (count_loopIndices _ _ _ hinj k).1
        ⟨k / columns, k % columns, h.2, h.1, by rw [Nat.mul_comm]; exact hk'⟩]
    · rw [if_neg h, (count_loopIndices _ _ _ hinj k).2 (by
        rintro ⟨y, x, hy', hx', he⟩
        apply h
        rw [Nat.mul_comm] at he
        have := grid_index_inj columns y x (k / columns) (k % columns) (by omega) hx
          (he.trans hk'.symm)
        omega)]
  · intro k hk
    unfold resize_canvas_writes at hk
    rcases List.mem_append.mp hk with h | h
    · exact List.mem_range.mp h
    · obtain ⟨y, x, hy, hx, he⟩ := (mem_loopIndices _ _ _ k).mp h
      have := grid_index_lt columns rows y x (by omega) (by omega)
      have := Nat.mul_comm columns y
      omega

/-! ## Well-formedness -/

/-- C27 as stated fails in two places.  `new_document` keeps a supplied `data` of
the right length as it is, so six holes supplied for a 3 x 2 grid stay six holes;
and `resize_canvas` assigns slot 0 of the new grid twice, once in the loop that
fills the grid and once in the loop that copies, when it resizes the 3 x 2 sample
to 2 x 3. -/
theorem new_document_keeps_holes :
    (new_document { documentOf 3 2 [] with data := some (newArray 6) } sampleDate).data
      = some [none, none, none, none, none, none] ∧
    ¬ WellFormed (new_document { documentOf 3 2 [] with data := some (newArray 6) } sampleDate) ∧
    (resize_canvas_writes (documentOf 3 2 sampleCells) 2 3).count 0 = 2 ∧
    resize_canvas_writes (documentOf 3 2 sampleCells) 2 3
      = [0, 1, 2, 3, 4, 5, 0, 1, 2, 3] := by
  refine ⟨by decide, ?_, by decide, by decide⟩
  rintro ⟨cells, h, _⟩
  have h0 : (new_document { documentOf 3 2 [] with data := some (newArray 6) } sampleDate).data
      = some [none, none, none, none, none, none] := by decide
  rw [h0] at h
  cases cells with
  | nil => simp at h
  | cons b cells => simp at h

/-- C27 amended: `new_document` returns a well-formed Document
(`data.length == columns * rows` with a cell in every slot) for every `columns`
and `rows` and every supplied `data` that, when it has the length
`columns * rows`, has a cell in every slot; a `data` of another length is replaced
by a blank grid, and one of that length is kept as supplied.  On a well-formed
Document `flip_x`, `flip_y`, `rotate` and
`resize_canvas` do not throw and return a well-formed Document; every index they
read is in bounds; `flip_x`, `flip_y` and `rotate` assign every slot of the new
grid exactly once; `resize_canvas` assigns every slot of the new grid once in its
first loop and the slots of the copied rectangle a second time in its second
loop. -/
theorem well_formed_documents (options : Doc) (today : List Nat) (d : Doc)
    (columns rows : Nat)
    (hdata : ∀ data, options.data = some data →
      data.length = options.columns * options.rows → ∃ cells : List Block, data = cells.map some)
    (hd : WellFormed d) :
    WellFormed (new_document options today) ∧
    (∀ data, options.data = some data → data.length ≠ options.columns * options.rows →
      (new_document options today).data
        = some (List.replicate (options.columns * options.rows) (some blankCell))) ∧
    (∀ data, options.data = some data → data.length = options.columns * options.rows →
      (new_document options today).data = some data) ∧
    ((∃ d', flip_x d = some d' ∧ WellFormed d') ∧
      (∀ k ∈ flip_x_reads d, k < d.columns * d.rows) ∧
      (∀ k, k < d.columns * d.rows → (flip_x_writes d).count k = 1) ∧
      (∀ k ∈ flip_x_writes d, k < d.columns * d.rows)) ∧
    ((∃ d', flip_y d = some d' ∧ WellFormed d') ∧
      (∀ k ∈ flip_y_reads d, k < d.columns * d.rows) ∧
      (∀ k, k < d.columns * d.rows → (flip_y_writes d).count k = 1) ∧
      (∀ k ∈ flip_y_writes d, k < d.columns * d.rows)) ∧
    ((∃ d', rotate d = some d' ∧ WellFormed d' ∧ d'.columns = d.rows ∧ d'.rows = d.columns) ∧
      (∀ k ∈ rotate_reads d, k < d.columns * d.rows) ∧
      (∀ k, k < d.rows * d.columns → (rotate_writes d).count k = 1) ∧
      (∀ k ∈ rotate_writes d, k < d.rows * d.columns)) ∧
    ((∃ d', resize_canvas d columns rows = some d' ∧ WellFormed d' ∧
        d'.columns = columns ∧ d'.rows = rows) ∧
      (∀ k ∈ resize_canvas_reads d columns rows, k < d.columns * d.rows) ∧
      (∀ k, k < columns * rows → (resize_canvas_writes d columns rows).count k =
        if k % columns < min d.columns columns ∧ k / columns < min d.rows rows
        then 2 else 1) ∧
      (∀ k ∈ resize_canvas_writes d columns rows, k < columns * rows)) := by
  obtain ⟨cells, h, hlen⟩ := hd
  have hreads : ∀ k ∈ List.range (d.rows * d.columns), k < d.columns * d.rows := by
    intro k hk
    rw [List.mem_range, Nat.mul_comm] at hk
    exact hk
  refine ⟨new_document_wellFormed options today hdata, ?_, ?_,
    ⟨?_, hreads, flip_x_writes_once d⟩,
    ⟨?_, hreads, flip_y_writes_once d⟩,
    ⟨?_, rotate_reads_in_bounds d, rotate_writes_once d⟩,
    ⟨?_, resize_canvas_reads_in_bounds d columns rows, resize_canvas_writes_count d columns rows⟩⟩
  · intro data hsome hl
    unfold new_document
    simp only [hsome]
    rw [if_pos hl, fill_forEach]
    rfl
  · intro data hsome hl
    unfold new_document
    simp only [hsome]
    rw [if_neg (not_not.mpr hl)]
  · obtain ⟨cells', hf, hl, _⟩ := flip_x_cells d cells h hlen
    exact ⟨_, hf, cells', rfl, by rw [hl, hlen]⟩
  · obtain ⟨cells', hf, hl, _⟩ := flip_y_cells d cells h hlen
    exact ⟨_, hf, cells', rfl, by rw [hl, hlen]⟩
  · obtain ⟨cells', hf, hl, _⟩ := rotate_cells d cells h hlen
    exact ⟨_, hf, ⟨cells', rfl, by rw [hl, hlen, Nat.mul_comm]⟩, rfl, rfl⟩
  · obtain ⟨cells', hf, hl, _⟩ := resize_canvas_cells d cells columns rows h hlen
    exact ⟨_, hf, ⟨cells', rfl, hl⟩, rfl, rfl⟩

/-- Witness of the amended C27: the 3 x 2 sample supplied to `new_document`, then
flipped and resized to 2 x 3. -/
theorem well_formed_documents_witness :
    WellFormed (documentOf 3 2 sampleCells) ∧
    WellFormed (new_document (documentOf 3 2 sampleCells) sampleDate) ∧
    (∀ data, (documentOf 3 2 sampleCells).data = some data →
      data.length = (documentOf 3 2 sampleCells).columns * (documentOf 3 2 sampleCells).rows →
      (new_document (documentOf 3 2 sampleCells) sampleDate).data = some data) ∧
    (∃ d', flip_x (documentOf 3 2 sampleCells) = some d' ∧ WellFormed d') ∧
    (∃ d', resize_canvas (documentOf 3 2 sampleCells) 2 3 = some d' ∧ WellFormed d' ∧
      d'.columns = 2 ∧ d'.rows = 3) :=
  ⟨⟨sampleCells, rfl, rfl⟩,
    (well_formed_documents (documentOf 3 2 sampleCells) sampleDate (documentOf 3 2 sampleCells)
      2 3 (fun _ h _ => ⟨sampleCells, (Option.some.inj h).symm⟩) ⟨sampleCells, rfl, rfl⟩).1,
    (well_formed_documents (documentOf 3 2 sampleCells) sampleDate (documentOf 3 2 sampleCells)
      2 3 (fun _ h _ => ⟨sampleCells, (Option.some.inj h).symm⟩)
      ⟨sampleCells, rfl, rfl⟩).2.2.1,
    (well_formed_documents (documentOf 3 2 sampleCells) sampleDate (documentOf 3 2 sampleCells)
      2 3 (fun _ h _ => ⟨sampleCells, (Option.some.inj h).symm⟩)
      ⟨sampleCells, rfl, rfl⟩).2.2.2.1.1,
    (well_formed_documents (documentOf 3 2 sampleCells) sampleDate (documentOf 3 2 sampleCells)
      2 3 (fun _ h _ => ⟨sampleCells, (Option.some.inj h).symm⟩)
      ⟨sampleCells, rfl, rfl⟩).2.2.2.2.2.2.1⟩

/-! ## Lemmas on reading back what `add_sauce_bytes` wrote -/

theorem getD_map_lt (l : List Int) (g : Int → Int) (k : Nat) (h : k < l.length) :
    (l.map g).getD k 0 = g (l.getD k 0) := by
  rw [List.getD_eq_getElem?_getD, List.getD_eq_getElem?_getD, List.getElem?_map,
    List.getElem?_eq_getElem h]
  rfl

theorem getD_of_getElem? (l : List Int) (k : Nat) (v : Int) (h : l[k]? = some v) :
    l.getD k 0 = v := by
  rw [List.getD_eq_getElem?_getD, h]
  rfl

/-- The size of a file below 2^31 is read back from its four bytes. -/
theorem four_bytes_decoded (n : Nat) (hn : n < 2147483648) :
    shiftLeft (toUint8 (shiftRight n 24)) 24
      + shiftLeft (toUint8 (and0xff (shiftRight n 16))) 16
      + shiftLeft (toUint8 (and0xff (shiftRight n 8))) 8 + toUint8 (and0xff n) = (n : Int) := by
  have e24 : (2 : Int) ^ (24 % 32) = 16777216 := by norm_num
  have e16 : (2 : Int) ^ (16 % 32) = 65536 := by norm_num
  have e8 : (2 : Int) ^ (8 % 32) = 256 := by norm_num
  have hn0 : toInt32 (n : Int) = n := toInt32_small _ (by omega) (by omega)
  have r24 : shiftRight n 24 = (n : Int) / 16777216 := by
    unfold shiftRight
    rw [hn0, e24]
  have r16 : shiftRight n 16 = (n : Int) / 65536 := by
    unfold shiftRight
    rw [hn0, e16]
  have r8 : shiftRight n 8 = (n : Int) / 256 := by
    unfold shiftRight
    rw [hn0, e8]
  have a0 : and0xff (n : Int) = (n : Int) % 256 := by
    unfold and0xff
    rw [hn0]
  have a8 : and0xff ((n : Int) / 256) = (n : Int) / 256 % 256 := by
    unfold and0xff
    rw [toInt32_small _ (by omega) (by omega)]
  have a16 : and0xff ((n : Int) / 65536) = (n : Int) / 65536 % 256 := by
    unfold and0xff
    rw [toInt32_small _ (by omega) (by omega)]
  have l24 : shiftLeft (toUint8 ((n : Int) / 16777216)) 24 = (n : Int) / 16777216 * 16777216 := by
    unfold shiftLeft toUint8
    rw [e24, toInt32_small ((n : Int) / 16777216 % 256) (by omega) (by omega),
      toInt32_small _ (by omega) (by omega)]
    omega
  have l16 : shiftLeft (toUint8 ((n : Int) / 65536 % 256)) 16
      = (n : Int) / 65536 % 256 * 65536 := by
    unfold shiftLeft toUint8
    rw [e16, toInt32_small ((n : Int) / 65536 % 256 % 256) (by omega) (by omega),
      toInt32_small _ (by omega) (by omega)]
    omega
  have l8 : shiftLeft (toUint8 ((n : Int) / 256 % 256)) 8 = (n : Int) / 256 % 256 * 256 := by
    unfold shiftLeft toUint8
    rw [e8, toInt32_small ((n : Int) / 256 % 256 % 256) (by omega) (by omega),
      toInt32_small _ (by omega) (by omega)]
    omega
  rw [r24, r16, r8, a0, a8, a16, l24, l16, l8]
  unfold toUint8
  omega

/-- The flag byte `add_sauce_bytes` writes for a data type other than XBIN: 1 for
`ice_colors`, plus 4 for `use_9px_font` and 2 otherwise. -/
theorem sauceFlags_flag_byte (doc : Doc) (data_type : Nat) (bytes : List Int)
    (hdt : data_type ≠ 6) (hlen : bytes.length = 128) (h105 : bytes[105]? = some 0) :
    (sauceFlags doc data_type bytes)[105]? =
      some ((if doc.ice_colors then 1 else 0) + (if doc.use_9px_font then 4 else 2)) := by
  have hg : bytes.getD 105 0 = 0 := getD_of_getElem? _ _ _ h105
  have hs : (uint8Store bytes 105 1).getD 105 0 = 1 :=
    getD_of_getElem? _ _ _ (by rw [uint8Store_getElem?_self _ _ _ (by omega)]; rfl)
  unfold sauceFlags
  rw [if_pos hdt]
  simp only
  rw [ite_getElem?, add_text_getElem?_before _ _ _ _ _ (by omega), ite_self]
  cases hi : doc.ice_colors <;> cases h9 : doc.use_9px_font <;>
    simp only [if_true, if_false, Bool.false_eq_true] <;>
    rw [uint8Store_getElem?_self _ _ _ (by simp [uint8Store_length, hlen])] <;>
    first
      | (rw [hg]; rfl)
      | (rw [hs]; rfl)

/-- The font name `add_sauce_bytes` writes for a data type other than XBIN: the
characters of `font_name` from offset 106 on, without padding. -/
theorem sauceFlags_font (doc : Doc) (data_type : Nat) (bytes : List Int)
    (hdt : data_type ≠ 6) (hlen : bytes.length = 128) (t : Nat) (ht : 106 + t < 128) :
    (sauceFlags doc data_type bytes)[106 + t]? =
      if t < doc.font_name.length then some (fieldByte doc.font_name t)
      else bytes[106 + t]? := by
  have key : ∀ flagged : List Int, flagged.length = 128 →
      flagged[106 + t]? = bytes[106 + t]? →
      (if doc.font_name ≠ [] then add_text flagged 106 doc.font_name doc.font_name.length
        else flagged)[106 + t]? =
      if t < doc.font_name.length then some (fieldByte doc.font_name t)
      else bytes[106 + t]? := by
    intro flagged hfl hsame
    by_cases hf : doc.font_name = []
    · have h1 : ¬ (doc.font_name ≠ []) := not_not.mpr hf
      have h2 : ¬ (t < doc.font_name.length) := by
        rw [hf]
        simp
      rw [if_neg h1, if_neg h2, hsame]
    · rw [if_pos hf, add_text_getElem?]
      by_cases htl : t < doc.font_name.length
      · rw [if_pos ⟨by omega, by omega, by omega⟩, if_pos htl]
        congr 2
        omega
      · rw [if_neg (by omega), if_neg htl, hsame]
  unfold sauceFlags
  rw [if_pos hdt]
  simp only
  apply key
  · split <;> split <;> simp [uint8Store_length, hlen]
  · split <;> split <;>
      simp only [uint8Store_getElem?_ne _ _ _ _ (show 106 + t ≠ 105 by omega)]

/-- A reading of bytes that leaves the values 0..127 as they are, the signed reading
`toInt8` for one, leaves a list of such values as it is. -/
theorem map_ascii (l : List Int) (g : Int → Int) (hg : ∀ v, 0 ≤ v → v ≤ 127 → g v = v)
    (hl : ∀ b ∈ l, 0 ≤ b ∧ b ≤ 127) : l.map g = l := by
  conv_rhs => rw [← List.map_id l]
  apply List.map_congr_left
  intro b hb
  exact hg b (hl b hb).1 (hl b hb).2

/-- The comments `get_sauce` reads from a block and a record that
`add_sauce_bytes` wrote, under a reading `g` of the bytes that leaves the values
0..127 and the comment count as they are. -/
theorem get_sauce_comments_view (front block record : List Int) (g : Int → Int) (n : Nat)
    (hg : ∀ v, 0 ≤ v → v ≤ 127 → g v = v)
    (hlen : record.length = 128) (hsig : record.take 7 = sauceSignature)
    (hcount : record.getD 104 0 = (n : Int)) (hgn : g n = n)
    (hblen : block.length = if n = 0 then 0 else 5 + 64 * n)
    (hb5 : n ≠ 0 → block.take 5 = commentSignature) :
    (record.map g).length = 128 ∧ (record.map g).take 7 = sauceSignature ∧
    ∃ comments, get_sauce_comments (front ++ block.map g ++ record.map g)
      ((record.map g).getD 104 0) = some comments ∧ comments.length = n := by
  refine ⟨by simp [hlen], ?_, ?_⟩
  · rw [← List.map_take, hsig]
    exact map_ascii _ g hg (by decide)
  · apply get_sauce_comments_valid front (block.map g) (record.map g) n (by simp [hlen])
    · rw [getD_map_lt _ _ _ (by omega), hcount, hgn]
    · intro h0
      rw [if_neg h0] at hblen
      refine ⟨by rw [List.length_map, hblen]; omega, ?_⟩
      rw [← List.map_take, hb5 h0]
      exact map_ascii _ g hg (by decide)

/-- A text field that `add_text` wrote is read back by `bytes_to_string`, under a
reading `g` of the bytes that leaves the values 0..127 as they are, when the text
is ASCII, fits the field and neither starts nor ends with white space. -/
theorem field_decoded (l : List Int) (g : Int → Int) (text : List Nat) (offset size : Nat)
    (hg : ∀ v, 0 ≤ v → v ≤ 127 → g v = v)
    (hfield : ∀ t, t < size → l[offset + t]? = some (fieldByte text t))
    (hl : offset + size ≤ l.length) (hlen : text.length ≤ size)
    (hascii : ∀ u ∈ text, u ≤ 127)
    (hfirst : ∀ u, text.head? = some u → isWhiteSpace u = false)
    (hlast : ∀ u, text.getLast? = some u → isWhiteSpace u = false) :
    bytes_to_string (l.map g) offset size = text := by
  rw [bytes_to_string_inside (l.map g) offset size (by simpa using hl)]
  have hpad : (((l.map g).drop offset).take size).map fromCharCode
      = text ++ List.replicate (size - text.length) 32 := by
    apply List.ext_getElem?
    intro t
    rw [List.getElem?_map, List.getElem?_take, List.getElem?_drop, List.getElem?_map]
    by_cases ht : t < size
    · rw [if_pos ht, hfield t ht]
      by_cases htc : t < text.length
      · rw [List.getElem?_append_left htc, List.getElem?_eq_getElem htc]
        have hu := hascii text[t] (List.getElem_mem _)
        have hfb : fieldByte text t = (text[t] : Int) := by
          unfold fieldByte toUint8
          rw [if_pos htc, List.getD_eq_getElem?_getD, List.getElem?_eq_getElem htc]
          simp only [Option.getD_some]
          omega
        simp only [Option.map_some', Option.some.injEq]
        rw [hfb, hg _ (by omega) (by omega)]
        unfold fromCharCode
        omega
      · rw [List.getElem?_append_right (by omega), List.getElem?_replicate,
          if_pos (by omega)]
        simp only [Option.map_some', Option.some.injEq]
        have hfb : fieldByte text t = 32 := by
          unfold fieldByte
          rw [if_neg htc]
          rfl
        rw [hfb, hg 32 (by omega) (by omega)]
        rfl
    · rw [if_neg ht]
      rw [List.getElem?_eq_none (by simp; omega)]
      rfl
  rw [hpad]
  exact trim_padded text _ hfirst hlast

/-- The fields of the record `get_sauce` returns for an input that ends with a
record starting with "SAUCE00", once the comments are read. -/
theorem get_sauce_fields (front record : List Int) (comments : List (List Nat))
    (hlen : record.length = 128) (hsig : record.take 7 = sauceSignature)
    (hc : get_sauce_comments (front ++ record) (record.getD 104 0) = some comments) :
    ∃ s, get_sauce (front ++ record) = some s ∧
      s.columns = some
        (if record.getD 94 0 = 5 then record.getD 95 0 * 2
         else shiftLeft (record.getD 97 0) 8 + record.getD 96 0) ∧
      s.rows = some
        (if record.getD 94 0 = 5 then
          ((JsNumber.int (shiftLeft (record.getD 93 0) 24 + shiftLeft (record.getD 92 0) 16
            + shiftLeft (record.getD 91 0) 8 + record.getD 90 0)).divide
              (if record.getD 94 0 = 5 then record.getD 95 0 * 2
               else shiftLeft (record.getD 97 0) 8 + record.getD 96 0)).divide 2
         else JsNumber.int (shiftLeft (record.getD 99 0) 8 + record.getD 98 0)) ∧
      s.title = bytes_to_string record 7 35 ∧
      s.author = bytes_to_string record 42 20 ∧
      s.group = bytes_to_string record 62 20 ∧
      s.filesize =
        (if shiftLeft (record.getD 93 0) 24 + shiftLeft (record.getD 92 0) 16
            + shiftLeft (record.getD 91 0) 8 + record.getD 90 0 = 0 then
          if record.getD 104 0 ≠ 0 then 128 - (record.getD 104 0 * 64 + 5) else 128
        else shiftLeft (record.getD 93 0) 24 + shiftLeft (record.getD 92 0) 16
            + shiftLeft (record.getD 91 0) 8 + record.getD 90 0) ∧
      s.ice_colors = decide (and0x01 (record.getD 105 0) = 1) ∧
      s.use_9px_font = decide (and0x02 (shiftRight (record.getD 105 0) 1) = 2) ∧
      s.font_name =
        (if (bytes_to_string record 106 22).filter (fun c => c ≠ 0) = []
         then [73, 66, 77, 32, 86, 71, 65]
         else (bytes_to_string record 106 22).filter (fun c => c ≠ 0)) ∧
      s.comments = comments :=
  ⟨_, get_sauce_record front record comments hlen hsig hc,
    rfl, rfl, rfl, rfl, rfl, rfl, rfl, rfl, rfl, rfl⟩

/-- The result of `add_sauce_bytes` under its two readings, as the elements of the
`Int8Array` and as unsigned bytes: the body, the number 27, the comment block and
the record. -/
theorem add_sauce_bytes_views (doc : Doc) (data_type file_type : Nat) (body : List Int)
    (today : List Nat) :
    ∃ block : List Int,
      add_sauce_bytes doc data_type file_type body today =
        (body.map toInt8 ++ [27]) ++ block.map toInt8 ++
          (sauceFlags doc data_type
            (sauceHeader doc data_type file_type body.length today)).map toInt8 ∧
      (add_sauce_bytes doc data_type file_type body today).map toUint8 =
        ((body.map toInt8).map toUint8 ++ [27]) ++ block.map id ++
          (sauceFlags doc data_type
            (sauceHeader doc data_type file_type body.length today)).map id ∧
      block.length = (if doc.comments.length = 0 then 0 else 5 + 64 * doc.comments.length) ∧
      (doc.comments.length ≠ 0 →
        block.take 5 = commentSignature ∧
        ∀ i t, i < doc.comments.length → t < 64 →
          block[5 + i * 64 + t]? = some (fieldByte (doc.comments.getD i []) t)) := by
  obtain ⟨block, h1, h2, _, h4, h5⟩ := add_sauce_bytes_parts doc data_type file_type body today
  refine ⟨block, ?_, ?_, h4, h5⟩
  · rw [h1, List.map_append]
    simp only [List.append_assoc]
  · rw [h2, List.map_id, List.map_id]

/-- Under a reading `g` of the bytes that leaves the values 0..127 and the comment
count as they are, `get_sauce` returns a record for the block and the record that
`add_sauce_bytes` wrote, whatever stands before them. -/
theorem get_sauce_written (doc : Doc) (data_type file_type file_length : Nat)
    (today : List Nat) (front block : List Int) (g : Int → Int)
    (hg : ∀ v, 0 ≤ v → v ≤ 127 → g v = v)
    (hcount : doc.comments.length ≤ 255)
    (hgn : g doc.comments.length = doc.comments.length)
    (hblen : block.length
      = if doc.comments.length = 0 then 0 else 5 + 64 * doc.comments.length)
    (hb5 : doc.comments.length ≠ 0 → block.take 5 = commentSignature) :
    (sauceFlags doc data_type (sauceHeader doc data_type file_type file_length today)).length
      = 128 ∧
    ∃ comments, get_sauce_comments
      (front ++ block.map g ++ (sauceFlags doc data_type
        (sauceHeader doc data_type file_type file_length today)).map g)
      (((sauceFlags doc data_type
        (sauceHeader doc data_type file_type file_length today)).map g).getD 104 0)
        = some comments ∧
      ((sauceFlags doc data_type
        (sauceHeader doc data_type file_type file_length today)).map g).length = 128 ∧
      ((sauceFlags doc data_type
        (sauceHeader doc data_type file_type file_length today)).map g).take 7
          = sauceSignature := by
  obtain ⟨hlen, _, hsig, _, h104, _⟩ :=
    sauce_record_bytes doc data_type file_type file_length today _ rfl
  have hn : (sauceFlags doc data_type
      (sauceHeader doc data_type file_type file_length today)).getD 104 0
      = (doc.comments.length : Int) := by
    rw [h104]
    unfold toUint8
    omega
  obtain ⟨v1, v2, comments, v3, _⟩ := get_sauce_comments_view front block _ g
    doc.comments.length hg hlen hsig hn hgn hblen hb5
  exact ⟨hlen, comments, v3, v1, v2⟩

/-- With 257 empty comment lines the comment count is stored as 1, and the 69 bytes
before the record, which `get_sauce` takes for the comment block, are spaces: under
every reading that leaves the values 0..127 as they are, `get_sauce` throws. -/
theorem get_sauce_wrapped_count (doc : Doc) (data_type file_type file_length : Nat)
    (today : List Nat) (front block : List Int) (g : Int → Int)
    (hg : ∀ v, 0 ≤ v → v ≤ 127 → g v = v)
    (hdoc : doc.comments = List.replicate 257 [])
    (hblen : block.length = 5 + 64 * 257)
    (hfield : ∀ i t, i < 257 → t < 64 →
      block[5 + i * 64 + t]? = some (fieldByte (doc.comments.getD i []) t)) :
    get_sauce (front ++ block.map g ++ (sauceFlags doc data_type
      (sauceHeader doc data_type file_type file_length today)).map g) = none := by
  obtain ⟨hlen, _, hsig, _, h104, _⟩ :=
    sauce_record_bytes doc data_type file_type file_length today _ rfl
  have hsig' : ((sauceFlags doc data_type
      (sauceHeader doc data_type file_type file_length today)).map g).take 7
      = sauceSignature := by
    rw [← List.map_take, hsig]
    exact map_ascii _ g hg (by decide)
  have hn : ((sauceFlags doc data_type
      (sauceHeader doc data_type file_type file_length today)).map g).getD 104 0
      = ((1 : Nat) : Int) := by
    rw [getD_map_lt _ _ _ (by omega), h104, hdoc, List.length_replicate]
    have : toUint8 ((257 : Nat) : Int) = 1 := by decide
    rw [this]
    exact hg 1 (by omega) (by omega)
  apply get_sauce_throws _ _ (by simp [hlen]) hsig'
  rw [hn]
  have hsplit : block.map g = (block.map g).take 16384 ++ (block.map g).drop 16384 :=
    (List.take_append_drop _ _).symm
  have hspaces : ((block.map g).drop 16384).take 5 = [32, 32, 32, 32, 32] := by
    apply List.ext_getElem?
    intro j
    rw [List.getElem?_take, List.getElem?_drop, List.getElem?_map]
    by_cases hj : j < 5
    · have e : 16384 + j = 5 + 255 * 64 + (59 + j) := by omega
      rw [if_pos hj, e, hfield 255 (59 + j) (by omega) (by omega), hdoc]
      have hb : fieldByte ((List.replicate 257 ([] : List Nat)).getD 255 []) (59 + j) = 32 := by
        have he : (List.replicate 257 ([] : List Nat)).getD 255 [] = [] := by
          rw [List.getD_eq_getElem?_getD, List.getElem?_replicate, if_pos (by omega)]
          rfl
        rw [he]
        unfold fieldByte
        rw [if_neg (by simp)]
        rfl
      rw [hb]
      simp only [Option.map_some']
      rw [hg 32 (by omega) (by omega)]
      interval_cases j <;> rfl
    · rw [if_neg hj]
      symm
      apply List.getElem?_eq_none
      simp only [List.length_cons, List.length_nil]
      omega
  have hbad : bytes_to_string ((block.map g).drop 16384) 0 5 ≠ [67, 79, 77, 78, 84] := by
    rw [bytes_to_string_inside _ 0 5 (by rw [List.length_drop, List.length_map, hblen]; omega),
      List.drop_zero, hspaces]
    decide
  have := get_sauce_comments_bad (front ++ (block.map g).take 16384)
    ((block.map g).drop 16384) ((sauceFlags doc data_type
      (sauceHeader doc data_type file_type file_length today)).map g) 1
    (by rw [List.length_map, hlen]) (by rw [List.length_drop, List.length_map, hblen])
    hbad (by omega)
  rw [List.append_assoc front, ← hsplit] at this
  exact this

/-- With 128 to 255 comment lines the comment count, read from the `Int8Array`
that `add_sauce_bytes` returns, is negative, and `get_sauce` throws. -/
theorem get_sauce_negative_count (doc : Doc) (data_type file_type : Nat) (body : List Int)
    (today : List Nat) (h1 : 128 ≤ doc.comments.length) (h2 : doc.comments.length ≤ 255) :
    get_sauce (add_sauce_bytes doc data_type file_type body today) = none := by
  obtain ⟨block, hout, _, _, _⟩ := add_sauce_bytes_views doc data_type file_type body today
  obtain ⟨hlen, _, hsig, _, h104, _⟩ :=
    sauce_record_bytes doc data_type file_type body.length today _ rfl
  rw [hout]
  apply get_sauce_throws _ _ (by simp [hlen])
  · rw [← List.map_take, hsig]
    decide
  · rw [getD_map_lt _ _ _ (by omega), h104]
    have hneg : toInt8 (toUint8 (doc.comments.length : Int)) < 0 := by
      unfold toInt8 toUint8
      split <;> omega
    unfold get_sauce_comments
    rw [if_pos hneg]

/-- The bytes of the record that hold the size of the file and, at offset 95, half
the columns for the data type BIN and the file type otherwise. -/
theorem sauce_record_size (doc : Doc) (data_type file_type file_length : Nat)
    (today : List Nat) :
    (sauceFlags doc data_type (sauceHeader doc data_type file_type file_length today)).getD 90 0
      = toUint8 (and0xff file_length) ∧
    (sauceFlags doc data_type (sauceHeader doc data_type file_type file_length today)).getD 91 0
      = toUint8 (and0xff (shiftRight file_length 8)) ∧
    (sauceFlags doc data_type (sauceHeader doc data_type file_type file_length today)).getD 92 0
      = toUint8 (and0xff (shiftRight file_length 16)) ∧
    (sauceFlags doc data_type (sauceHeader doc data_type file_type file_length today)).getD 93 0
      = toUint8 (shiftRight file_length 24) ∧
    (sauceFlags doc data_type (sauceHeader doc data_type file_type file_length today)).getD 95 0
      = (if data_type = 5 then toUint8 ((doc.columns / 2 : Nat) : Int)
          else toUint8 file_type) := by
  obtain ⟨h90, h91, h92, h93, h95⟩ :=
    sauceHeader_size_bytes doc data_type file_type file_length today
  refine ⟨?_, ?_, ?_, ?_, ?_⟩
  · exact getD_of_getElem? _ _ _ (by rw [sauceFlags_getElem? _ _ _ _ (by omega), h90])
  · exact getD_of_getElem? _ _ _ (by rw [sauceFlags_getElem? _ _ _ _ (by omega), h91])
  · exact getD_of_getElem? _ _ _ (by rw [sauceFlags_getElem? _ _ _ _ (by omega), h92])
  · exact getD_of_getElem? _ _ _ (by rw [sauceFlags_getElem? _ _ _ _ (by omega), h93])
  · exact getD_of_getElem? _ _ _ (by rw [sauceFlags_getElem? _ _ _ _ (by omega), h95])

/-- A division whose quotient is an integer. -/
theorem divide_exact (a b : Int) (hb : b ≠ 0) (hd : b ∣ a) :
    (JsNumber.int a).divide b = JsNumber.int (a / b) := by
  simp only [JsNumber.divide]
  rw [if_pos ⟨hb, hd⟩]

/-- The `columns` and `rows` that `get_sauce` returns for the unsigned bytes of
the result of `add_sauce_for_bin`, in terms of the bytes stored for half the
columns and for the size of the body. -/
theorem bin_record_read (doc : Doc) (body : List Int) (today : List Nat)
    (hcount : doc.comments.length ≤ 255) :
    ∃ s, get_sauce ((add_sauce_for_bin doc body today).map toUint8) = some s ∧
      s.columns = some (toUint8 ((doc.columns / 2 : Nat) : Int) * 2) ∧
      s.rows = some (((JsNumber.int
        (shiftLeft (toUint8 (shiftRight body.length 24)) 24
          + shiftLeft (toUint8 (and0xff (shiftRight body.length 16))) 16
          + shiftLeft (toUint8 (and0xff (shiftRight body.length 8))) 8
          + toUint8 (and0xff body.length))).divide
            (toUint8 ((doc.columns / 2 : Nat) : Int) * 2)).divide 2) := by
  unfold add_sauce_for_bin
  obtain ⟨block, _, hout, hblen, hblock⟩ := add_sauce_bytes_views doc 5 0 body today
  obtain ⟨hlen, comments, hc, hl, hsig⟩ := get_sauce_written doc 5 0 body.length today
    ((body.map toInt8).map toUint8 ++ [27]) block id (fun _ _ _ => rfl) hcount rfl hblen
    (fun h => (hblock h).1)
  obtain ⟨s, hs, hcols, hrows, _⟩ := get_sauce_fields _ _ comments hl hsig hc
  obtain ⟨_, _, _, h94, _, _⟩ := sauce_record_bytes doc 5 0 body.length today _ rfl
  obtain ⟨h90, h91, h92, h93, h95⟩ := sauce_record_size doc 5 0 body.length today
  have e94 : (sauceFlags doc 5 (sauceHeader doc 5 0 body.length today)).getD 94 0 = 5 := by
    rw [h94]
    rfl
  rw [List.map_id] at hcols hrows
  rw [if_pos rfl] at h95
  rw [hout]
  refine ⟨s, hs, ?_, ?_⟩
  · rw [hcols, if_pos e94, h95]
  · rw [hrows, if_pos e94, if_pos e94, h90, h91, h92, h93, h95]

/-! ## The SAUCE record: the data type BIN -/

/-- C24 as stated fails in three ways.  `add_sauce_for_bin` returns an
`Int8Array`, and `get_sauce` applied to it reads the byte 128, which is half of
256 columns, as -128 and returns -256 columns.  With 257 comment lines the count
is stored as 1 and `get_sauce` throws, also on the unsigned bytes.  With a body of
2^31 bytes for 2 columns and 2^29 rows the size is read as -2^31 and the rows as
-2^29, also on the unsigned bytes. -/
theorem get_sauce_bin_signed_wrapped_large :
    Option.map Sauce.columns
      (get_sauce (add_sauce_for_bin (headerOf 256 1 []) (List.replicate 512 0) sampleDate))
      = some (some (-256)) ∧
    get_sauce ((add_sauce_for_bin (manyCommentsDoc 2 1) [0, 0, 0, 0] sampleDate).map toUint8)
      = none ∧
    Option.map Sauce.rows
      (get_sauce ((add_sauce_for_bin (headerOf 2 536870912 [])
        (List.replicate 2147483648 0) sampleDate).map toUint8))
      = some (some (JsNumber.int (-536870912))) := by
  refine ⟨by decide!, ?_, ?_⟩
  · unfold add_sauce_for_bin
    obtain ⟨block, _, hout, hblen, hblock⟩ :=
      add_sauce_bytes_views (manyCommentsDoc 2 1) 5 0 [0, 0, 0, 0] sampleDate
    have hl : (manyCommentsDoc 2 1).comments.length = 257 := List.length_replicate _ _
    rw [hl, if_neg (by omega)] at hblen
    rw [hout]
    exact get_sauce_wrapped_count (manyCommentsDoc 2 1) 5 0 _ sampleDate _ block id
      (fun _ _ _ => rfl) rfl hblen
      (fun i t hi ht => (hblock (by omega)).2 i t (by omega) ht)
  · obtain ⟨s, hs, _, hrows⟩ := bin_record_read (headerOf 2 536870912 [])
      (List.replicate 2147483648 0) sampleDate (by decide)
    rw [hs, List.length_replicate] at *
    simp only [Option.map_some', hrows]
    decide

/-- C24 amended: for every Document with even `columns` in 2..510, at most 255
comment lines and any `rows`, and every body of exactly `columns * rows * 2` bytes
that is shorter than 2^31 bytes, `add_sauce_for_bin` stores `columns / 2` at offset
95 of the record, and `get_sauce` applied to the result read as unsigned bytes (the
elements of a `Uint8Array` or `Buffer` over the same bytes) returns
`columns == doc.columns` and `rows == doc.rows`. -/
theorem sauce_roundtrip_bin (doc : Doc) (body : List Int) (today : List Nat)
    (hmin : 2 ≤ doc.columns) (hmax : doc.columns ≤ 510) (heven : doc.columns % 2 = 0)
    (hbody : body.length = doc.columns * doc.rows * 2) (hsize : body.length < 2147483648)
    (hcount : doc.comments.length ≤ 255) :
    ∃ (front record : List Int) (s : Sauce),
      (add_sauce_for_bin doc body today).map toUint8 = front ++ record ∧
      record.length = 128 ∧ record[95]? = some ((doc.columns / 2 : Nat) : Int) ∧
      get_sauce ((add_sauce_for_bin doc body today).map toUint8) = some s ∧
      s.columns = some (doc.columns : Int) ∧ s.rows = some (JsNumber.int doc.rows) := by
  obtain ⟨s, hs, hcols, hrows⟩ := bin_record_read doc body today hcount
  obtain ⟨block, _, hout, _, _⟩ := add_sauce_bytes_parts doc 5 0 body today
  obtain ⟨hlen, _, _, _, _, _⟩ := sauce_record_bytes doc 5 0 body.length today _ rfl
  obtain ⟨_, _, _, _, h95⟩ := sauceHeader_size_bytes doc 5 0 body.length today
  have hhalf : toUint8 ((doc.columns / 2 : Nat) : Int) = ((doc.columns / 2 : Nat) : Int) := by
    unfold toUint8
    omega
  have hc2 : toUint8 ((doc.columns / 2 : Nat) : Int) * 2 = (doc.columns : Int) := by
    rw [hhalf]
    omega
  refine ⟨_, _, s, hout, hlen, ?_, hs, ?_, ?_⟩
  · rw [sauceFlags_getElem? _ _ _ _ (by omega), h95, if_pos rfl, hhalf]
  · rw [hcols, hc2]
  · rw [hrows, hc2, four_bytes_decoded body.length hsize]
    have hc0 : (doc.columns : Int) ≠ 0 := by omega
    have hL : ((body.length : Nat) : Int) = (doc.columns : Int) * ((doc.rows : Int) * 2) := by
      rw [hbody]
      push_cast
      ring
    rw [divide_exact _ _ hc0 (by rw [hL]; exact Dvd.intro _ rfl), hL,
      Int.mul_ediv_cancel_left _ hc0,
      divide_exact _ 2 (by decide) (Dvd.intro_left _ rfl), Int.mul_ediv_cancel _ (by decide)]

/-- Witness of the amended C24: a 4 x 2 Document and a body of 16 bytes. -/
theorem sauce_roundtrip_bin_witness :
    ([1, 7, 2, 7, 3, 7, 4, 7, 5, 7, 6, 7, 7, 7, 8, 7] : List Int).length
      = (headerOf 4 2 []).columns * (headerOf 4 2 []).rows * 2 ∧
    ∃ (front record : List Int) (s : Sauce),
      (add_sauce_for_bin (headerOf 4 2 [])
        [1, 7, 2, 7, 3, 7, 4, 7, 5, 7, 6, 7, 7, 7, 8, 7] sampleDate).map toUint8
          = front ++ record ∧
      record.length = 128 ∧ record[95]? = some (((headerOf 4 2 []).columns / 2 : Nat) : Int) ∧
      get_sauce ((add_sauce_for_bin (headerOf 4 2 [])
        [1, 7, 2, 7, 3, 7, 4, 7, 5, 7, 6, 7, 7, 7, 8, 7] sampleDate).map toUint8) = some s ∧
      s.columns = some ((headerOf 4 2 []).columns : Int) ∧
      s.rows = some (JsNumber.int (headerOf 4 2 []).rows) :=
  ⟨by decide, sauce_roundtrip_bin (headerOf 4 2 [])
    [1, 7, 2, 7, 3, 7, 4, 7, 5, 7, 6, 7, 7, 7, 8, 7] sampleDate
    (by decide) (by decide) (by decide) (by decide) (by decide) (by decide)⟩

/-- The font name that `add_sauce_bytes` wrote is read back by `get_sauce`, under
a reading `g` of the bytes that leaves the values 0..127 as they are. -/
theorem font_name_decoded (record : List Int) (g : Int → Int) (font_name : List Nat)
    (hg : ∀ v, 0 ≤ v → v ≤ 127 → g v = v) (hlen : record.length = 128)
    (hfield : ∀ t, 106 + t < 128 → record[106 + t]? =
      if t < font_name.length then some (fieldByte font_name t) else some 0)
    (hfont : IsPlainFontName font_name) :
    (bytes_to_string (record.map g) 106 22).filter (fun c => c ≠ 0) = font_name := by
  obtain ⟨hne, hl, hp, hfirst, hlast⟩ := hfont
  rw [bytes_to_string_inside (record.map g) 106 22 (by simp [hlen])]
  have hpad : (((record.map g).drop 106).take 22).map fromCharCode
      = font_name ++ List.replicate (22 - font_name.length) 0 := by
    apply List.ext_getElem?
    intro t
    rw [List.getElem?_map, List.getElem?_take, List.getElem?_drop, List.getElem?_map]
    by_cases ht : t < 22
    · rw [if_pos ht, hfield t (by omega)]
      by_cases htc : t < font_name.length
      · rw [if_pos htc, List.getElem?_append_left htc, List.getElem?_eq_getElem htc]
        have hu := hp font_name[t] (List.getElem_mem _)
        have hfb : fieldByte font_name t = (font_name[t] : Int) := by
          unfold fieldByte toUint8
          rw [if_pos htc, List.getD_eq_getElem?_getD, List.getElem?_eq_getElem htc]
          simp only [Option.getD_some]
          omega
        simp only [Option.map_some', Option.some.injEq]
        rw [hfb, hg _ (by omega) (by omega)]
        unfold fromCharCode
        omega
      · rw [if_neg htc, List.getElem?_append_right (by omega), List.getElem?_replicate,
          if_pos (by omega)]
        simp only [Option.map_some', Option.some.injEq]
        rw [hg 0 (by omega) (by omega)]
        rfl
    · rw [if_neg ht]
      rw [List.getElem?_eq_none (by simp; omega)]
      rfl
  rw [hpad]
  have htrim : trim (font_name ++ List.replicate (22 - font_name.length) 0)
      = font_name ++ List.replicate (22 - font_name.length) 0 := by
    have := trim_padded (font_name ++ List.replicate (22 - font_name.length) 0) 0 (by
      intro u hu
      rw [List.head?_append_of_ne_nil _ hne] at hu
      exact hfirst u hu) (by
      intro u hu
      by_cases h22 : font_name.length = 22
      · have : 22 - font_name.length = 0 := by omega
        rw [this, List.replicate_zero, List.append_nil] at hu
        exact hlast h22 u hu
      · have hz : List.replicate (22 - font_name.length) (0 : Nat)
            = List.replicate (22 - font_name.length - 1) 0 ++ [0] := by
          have e : 22 - font_name.length = (22 - font_name.length - 1) + 1 := by omega
          rw [e, List.replicate_succ']
          simp
        rw [hz, ← List.append_assoc, List.getLast?_concat] at hu
        rw [← Option.some.inj hu]
        rfl)
    rw [List.replicate_zero, List.append_nil] at this
    exact this
  rw [htrim, List.filter_append]
  have h1 : font_name.filter (fun c => c ≠ 0) = font_name := by
    rw [List.filter_eq_self]
    intro u hu
    have := hp u hu
    simp only [ne_eq, decide_not, Bool.not_eq_eq_eq_not, Bool.not_true, decide_eq_false_iff_not]
    omega
  have h2 : (List.replicate (22 - font_name.length) (0 : Nat)).filter (fun c => c ≠ 0) = [] := by
    rw [List.filter_eq_nil_iff]
    intro u hu
    rw [List.eq_of_mem_replicate hu]
    simp
  rw [h1, h2, List.append_nil]

/-- The text fields, the font name and the flags that `get_sauce` returns for what
`add_sauce_for_ans` wrote, under a reading `g` of the bytes that leaves the values
0..127 and the comment count as they are. -/
theorem get_sauce_described (doc : Doc) (file_length : Nat) (today : List Nat)
    (front block : List Int) (g : Int → Int)
    (hg : ∀ v, 0 ≤ v → v ≤ 127 → g v = v)
    (hcount : doc.comments.length ≤ 255)
    (hgn : g doc.comments.length = doc.comments.length)
    (hblen : block.length
      = if doc.comments.length = 0 then 0 else 5 + 64 * doc.comments.length)
    (hb5 : doc.comments.length ≠ 0 → block.take 5 = commentSignature)
    (htitle : IsPlainText doc.title 35) (hauthor : IsPlainText doc.author 20)
    (hgroup : IsPlainText doc.group 20) (hfont : IsPlainFontName doc.font_name) :
    ∃ s, get_sauce (front ++ block.map g ++
        (sauceFlags doc 1 (sauceHeader doc 1 1 file_length today)).map g) = some s ∧
      s.title = doc.title ∧ s.author = doc.author ∧ s.group = doc.group ∧
      s.font_name = doc.font_name ∧ s.ice_colors = doc.ice_colors ∧
      s.use_9px_font = doc.use_9px_font := by
  obtain ⟨hlen, comments, hc, hl, hsig⟩ := get_sauce_written doc 1 1 file_length today
    front block g hg hcount hgn hblen hb5
  obtain ⟨s, hs, _, _, ht, ha, hgr, _, hice, h9, hfn, _⟩ :=
    get_sauce_fields _ _ comments hl hsig hc
  have hfield : ∀ j, j < 90 →
      (sauceFlags doc 1 (sauceHeader doc 1 1 file_length today))[j]? =
      if j < 7 then some (fieldByte [83, 65, 85, 67, 69, 48, 48] j)
      else if j < 42 then some (fieldByte doc.title (j - 7))
      else if j < 62 then some (fieldByte doc.author (j - 42))
      else if j < 82 then some (fieldByte doc.group (j - 62))
      else some (fieldByte today (j - 82)) := by
    intro j hj
    rw [sauceFlags_getElem? _ _ _ _ (by omega), sauceHeader_text _ _ _ _ _ _ hj]
  have hflag := sauceFlags_flag_byte doc 1 (sauceHeader doc 1 1 file_length today)
    (by decide) (sauceHeader_length _ _ _ _ _) (sauceHeader_tail _ _ _ _ _ 105 (by omega) (by omega))
  have hfontbytes : ∀ t, 106 + t < 128 →
      (sauceFlags doc 1 (sauceHeader doc 1 1 file_length today))[106 + t]? =
      if t < doc.font_name.length then some (fieldByte doc.font_name t) else some 0 := by
    intro t ht
    rw [sauceFlags_font doc 1 _ (by decide) (sauceHeader_length _ _ _ _ _) t ht,
      sauceHeader_tail _ _ _ _ _ _ (by omega) ht]
  refine ⟨s, hs, ?_, ?_, ?_, ?_, ?_, ?_⟩
  · rw [ht]
    obtain ⟨q1, q2, q3, q4⟩ := htitle
    apply field_decoded _ g doc.title 7 35 hg _ (by omega) q1
      (fun u hu => by have := q2 u hu; omega) q3 q4
    intro t ht
    rw [hfield _ (by omega), if_neg (by omega), if_pos (by omega)]
    congr 2
    omega
  · rw [ha]
    obtain ⟨q1, q2, q3, q4⟩ := hauthor
    apply field_decoded _ g doc.author 42 20 hg _ (by omega) q1
      (fun u hu => by have := q2 u hu; omega) q3 q4
    intro t ht
    rw [hfield _ (by omega), if_neg (by omega), if_neg (by omega), if_pos (by omega)]
    congr 2
    omega
  · rw [hgr]
    obtain ⟨q1, q2, q3, q4⟩ := hgroup
    apply field_decoded _ g doc.group 62 20 hg _ (by omega) q1
      (fun u hu => by have := q2 u hu; omega) q3 q4
    intro t ht
    rw [hfield _ (by omega), if_neg (by omega), if_neg (by omega), if_neg (by omega),
      if_pos (by omega)]
    congr 2
    omega
  · rw [hfn, font_name_decoded _ g doc.font_name hg hlen hfontbytes hfont, if_neg hfont.1]
  · rw [hice, getD_map_lt _ _ _ (by omega), getD_of_getElem? _ _ _ hflag]
    cases doc.ice_colors <;> cases doc.use_9px_font <;>
      simp only [if_true, if_false, Bool.false_eq_true] <;>
      rw [hg _ (by decide) (by decide)] <;> decide
  · rw [h9, getD_map_lt _ _ _ (by omega), getD_of_getElem? _ _ _ hflag]
    cases doc.ice_colors <;> cases doc.use_9px_font <;>
      simp only [if_true, if_false, Bool.false_eq_true] <;>
      rw [hg _ (by decide) (by decide)] <;> decide

/-! ## The SAUCE record: the descriptive fields and the flags -/

/-- C29 as stated fails: for a Document whose font name is " VGA", which is
printable ASCII, `get_sauce` applied to the result of `add_sauce_for_ans` returns
the font name "VGA" without the leading space, on the `Int8Array` and on its
unsigned bytes alike; and for a Document with 128 comment lines the comment count
read from the `Int8Array` is -128 and `get_sauce` throws. -/
theorem get_sauce_font_name_leading_space :
    Option.map Sauce.font_name
      (get_sauce (add_sauce_for_ans spacedFontDoc [65, 66, 67] sampleDate))
      = some [86, 71, 65] ∧
    Option.map Sauce.font_name
      (get_sauce ((add_sauce_for_ans spacedFontDoc [65, 66, 67] sampleDate).map toUint8))
      = some [86, 71, 65] ∧
    get_sauce (add_sauce_for_ans (headerOf 80 25 (List.replicate 128 [])) [65, 66, 67]
      sampleDate) = none := by
  refine ⟨by decide!, by decide!, ?_⟩
  exact get_sauce_negative_count _ 1 1 _ _
    (by rw [show (headerOf 80 25 (List.replicate 128 [])).comments.length = 128 from
      List.length_replicate _ _])
    (by rw [show (headerOf 80 25 (List.replicate 128 [])).comments.length = 128 from
      List.length_replicate _ _]; omega)

/-- C29 amended: for every Document whose title, author and group are printable
ASCII without leading or trailing white space and at most 35, 20 and 20
characters, whose font name is non-empty printable ASCII of at most 22 characters
without leading white space (and without trailing white space when it has 22
characters), which has at most 127 comment lines, and for both values of
`ice_colors` and of `use_9px_font`, `get_sauce` applied to the result of
`add_sauce_for_ans`, as the `Int8Array` it is or read as unsigned bytes, returns
the same title, author, group, font name, `ice_colors` and `use_9px_font`. -/
theorem sauce_roundtrip_described (doc : Doc) (body : List Int) (today : List Nat)
    (bytes : List Int)
    (hbytes : bytes = add_sauce_for_ans doc body today ∨
      bytes = (add_sauce_for_ans doc body today).map toUint8)
    (htitle : IsPlainText doc.title 35) (hauthor : IsPlainText doc.author 20)
    (hgroup : IsPlainText doc.group 20) (hfont : IsPlainFontName doc.font_name)
    (hcount : doc.comments.length ≤ 127) :
    ∃ s, get_sauce bytes = some s ∧
      s.title = doc.title ∧ s.author = doc.author ∧ s.group = doc.group ∧
      s.font_name = doc.font_name ∧ s.ice_colors = doc.ice_colors ∧
      s.use_9px_font = doc.use_9px_font := by
  unfold add_sauce_for_ans at hbytes
  obtain ⟨block, h1, h2, hblen, hblock⟩ := add_sauce_bytes_views doc 1 1 body today
  rcases hbytes with h | h
  · rw [h, h1]
    exact get_sauce_described doc body.length today _ block toInt8 toInt8_byte (by omega)
      (toInt8_byte _ (by omega) (by omega)) hblen (fun h0 => (hblock h0).1)
      htitle hauthor hgroup hfont
  · rw [h, h2]
    exact get_sauce_described doc body.length today _ block id (fun _ _ _ => rfl) (by omega)
      rfl hblen (fun h0 => (hblock h0).1) htitle hauthor hgroup hfont

/-- Witness of the amended C29: a Document with a title, an author, a group, one
comment line, the font name "IBM VGA" and both flags set. -/
theorem sauce_roundtrip_described_witness :
    IsPlainText describedDoc.title 35 ∧ IsPlainFontName describedDoc.font_name ∧
    ∃ s, get_sauce (add_sauce_for_ans describedDoc [65, 66, 67] sampleDate) = some s ∧
      s.title = describedDoc.title ∧ s.author = describedDoc.author ∧
      s.group = describedDoc.group ∧ s.font_name = describedDoc.font_name ∧
      s.ice_colors = describedDoc.ice_colors ∧
      s.use_9px_font = describedDoc.use_9px_font :=
  ⟨by unfold IsPlainText; decide, by unfold IsPlainFontName; decide,
    sauce_roundtrip_described describedDoc [65, 66, 67] sampleDate _ (Or.inl rfl)
      (by unfold IsPlainText; decide) (by unfold IsPlainText; decide)
      (by unfold IsPlainText; decide) (by unfold IsPlainFontName; decide) (by decide)⟩

/-! ## Loading what was written: the class `Textmode` -/

/-- The `Textmode` loaded from the `Int8Array` written for an empty body. -/
theorem textmode_empty_body_signed :
    Option.map (fun t => (t.filesize, t.bytes.length))
      (Textmode.new (add_sauce_for_ans (headerOf 80 25 []) [] sampleDate))
      = some (128, 128) := by
  decide!

/-- The `Textmode` loaded from the unsigned bytes written for an empty body. -/
theorem textmode_empty_body_unsigned :
    Option.map (fun t => (t.filesize, t.bytes.length))
      (Textmode.new ((add_sauce_for_ans (headerOf 80 25 []) [] sampleDate).map toUint8))
      = some (128, 128) := by
  decide!

/-- The `filesize` loaded from the `Int8Array` written for a body of 128 bytes. -/
theorem textmode_signed_size :
    Option.map Textmode.filesize
      (Textmode.new (add_sauce_for_ans (headerOf 80 25 []) (List.replicate 128 65) sampleDate))
      = some (-128) := by
  decide!

/-- The constructor of `Textmode` throws when `get_sauce` does. -/
theorem textmode_throws (bytes : List Int) (h : get_sauce bytes = none) :
    Textmode.new bytes = none := by
  unfold Textmode.new
  rw [h]

/-- C30 as stated fails in three ways.  For the empty body the size 0 is stored,
which `get_sauce` takes for unspecified: the `Textmode` has `filesize == 128` and
128 elements in `bytes`, on the `Int8Array` and on its unsigned bytes alike.  For a
body of 128 bytes the size byte 128 is read from the `Int8Array` as -128, which
becomes the `filesize`.  With 257 comment lines the count is stored as 1 and the
constructor throws, also on the unsigned bytes. -/
theorem textmode_of_empty_body :
    Option.map (fun t => (t.filesize, t.bytes.length))
      (Textmode.new (add_sauce_for_ans (headerOf 80 25 []) [] sampleDate))
      = some (128, 128) ∧
    Option.map (fun t => (t.filesize, t.bytes.length))
      (Textmode.new ((add_sauce_for_ans (headerOf 80 25 []) [] sampleDate).map toUint8))
      = some (128, 128) ∧
    Option.map Textmode.filesize
      (Textmode.new (add_sauce_for_ans (headerOf 80 25 []) (List.replicate 128 65) sampleDate))
      = some (-128) ∧
    Textmode.new ((add_sauce_for_ans (manyCommentsDoc 80 25) [65, 66, 67] sampleDate).map
      toUint8) = none := by
  refine ⟨textmode_empty_body_signed, textmode_empty_body_unsigned, textmode_signed_size, ?_⟩
  have hthrow : get_sauce ((add_sauce_for_ans (manyCommentsDoc 80 25) [65, 66, 67]
      sampleDate).map toUint8) = none := by
    unfold add_sauce_for_ans
    obtain ⟨block, _, hout, hblen, hblock⟩ :=
      add_sauce_bytes_views (manyCommentsDoc 80 25) 1 1 [65, 66, 67] sampleDate
    have hl : (manyCommentsDoc 80 25).comments.length = 257 := List.length_replicate _ _
    rw [hl, if_neg (by omega)] at hblen
    rw [hout]
    exact get_sauce_wrapped_count (manyCommentsDoc 80 25) 1 1 _ sampleDate _ block id
      (fun _ _ _ => rfl) rfl hblen
      (fun i t hi ht => (hblock (by omega)).2 i t (by omega) ht)
  exact textmode_throws _ hthrow

/-- C30 amended: for every Document with at most 255 comment lines and every body
of unsigned bytes that is not empty and shorter than 2^31 bytes, constructing a
`Textmode` from the result of `add_sauce_for_ans` read as unsigned bytes (the
elements of a `Uint8Array` or `Buffer` over the same bytes) does not throw and
yields `filesize == body.length` and a `bytes` field equal to the body. -/
theorem textmode_recovers_body (doc : Doc) (body : List Int) (today : List Nat)
    (hbody : IsUint8Array body) (hne : body ≠ []) (hsize : body.length < 2147483648)
    (hcount : doc.comments.length ≤ 255) :
    ∃ t, Textmode.new ((add_sauce_for_ans doc body today).map toUint8) = some t ∧
      t.filesize = (body.length : Int) ∧ t.bytes = body := by
  unfold add_sauce_for_ans
  obtain ⟨block, _, hout, hblen, hblock⟩ := add_sauce_bytes_views doc 1 1 body today
  obtain ⟨hlen, comments, hc, hl, hsig⟩ := get_sauce_written doc 1 1 body.length today
    ((body.map toInt8).map toUint8 ++ [27]) block id (fun _ _ _ => rfl) hcount rfl hblen
    (fun h => (hblock h).1)
  obtain ⟨s, hs, _, _, _, _, _, hfs, _⟩ := get_sauce_fields _ _ comments hl hsig hc
  obtain ⟨h90, h91, h92, h93, _⟩ := sauce_record_size doc 1 1 body.length today
  have hpos : 0 < body.length := List.length_pos.mpr hne
  have hsize' : s.filesize = (body.length : Int) := by
    rw [hfs, List.map_id, h90, h91, h92, h93, four_bytes_decoded body.length hsize,
      if_neg (by omega)]
  rw [hout]
  unfold Textmode.new
  rw [hs]
  refine ⟨_, rfl, hsize', ?_⟩
  simp only
  rw [hsize', map_toUint8_toInt8 body hbody]
  have := subarray_inside (body ++ [27] ++ List.map id block ++
    List.map id (sauceFlags doc 1 (sauceHeader doc 1 1 body.length today))) 0 body.length
    (Nat.zero_le _) (by simp only [List.length_append]; omega)
  simp only [Nat.cast_zero] at this
  rw [this, List.drop_zero, Nat.sub_zero, List.append_assoc, List.append_assoc,
    List.take_left]

/-- Witness of the amended C30: the body "ABC" and one comment line. -/
theorem textmode_recovers_body_witness :
    ([65, 66, 67] : List Int) ≠ [] ∧
    ∃ t, Textmode.new ((add_sauce_for_ans (headerOf 80 25 [[104, 105]]) [65, 66, 67]
        sampleDate).map toUint8) = some t ∧
      t.filesize = (([65, 66, 67] : List Int).length : Int) ∧ t.bytes = [65, 66, 67] :=
  ⟨by decide, textmode_recovers_body (headerOf 80 25 [[104, 105]]) [65, 66, 67] sampleDate
    (by unfold IsUint8Array; decide) (by decide) (by decide) (by decide)⟩

end Moebius
